import Mathlib

/-!
# Verification of the elegant-drawerv2 parsing-to-layout pipeline

Shallow embedding of the diagram core of the `elegant-drawerv2` repository:
the five text parsers, the layout engines, the edge connection-point
computation and the pagination engine, together with theorems settling the
specification claims.

Modelling conventions, used uniformly below:

* JavaScript numbers are modelled by `ℚ` (all arithmetic in the embedded code
  is exact on the rationals; no transcendental functions occur in the
  embedded fragments).
* A node's `width`/`height` field is a `ℚ` where the value `0` plays the role
  of the JavaScript falsy values `undefined`/`0`: every read in the source is
  of the form `node.width || default`, which yields the default exactly when
  the field is `undefined` or `0`.  The helper `orD` embeds `||`.
* A node's `type` field is a `String` where `""` stands for `undefined`
  (every use in the source is either `=== 'sometype'` or a truthiness test,
  and both agree with this encoding).
* Node and edge ids are drawn from an abstract type `α` with decidable
  equality; the process-wide random id generator `generateId` is modelled by
  an id supply `σ : Nat → α` handing out the id for the k-th `generateId`
  call of a run.  A run of the real program corresponds to an injective
  supply of non-empty strings.
* Unbounded `while` loops over work queues (the BFS layer assignments) are
  embedded with an explicit fuel argument; the fuel used by the pipeline
  functions is large enough for all terminating source executions, and every
  theorem below is independent of the residual behaviour at fuel 0.
* The source field names `from`/`to` of edges are Lean keywords and are
  embedded as `efrom`/`eto`.
-/

/-- A typed parameter of a class method (`{name, type}` in the source). -/
structure ClassParam where
  name : String
  type : String
deriving DecidableEq, Repr

/-- `ClassAttribute{name,type,visibility}` from `types/diagram.ts`. -/
structure ClassAttribute where
  name : String
  type : String
  visibility : String
deriving DecidableEq, Repr

/-- `ClassMethod{name,returnType,parameters,visibility}` from `types/diagram.ts`. -/
structure ClassMethod where
  name : String
  returnType : String
  visibility : String
  parameters : List ClassParam
deriving DecidableEq, Repr

/-- A diagram node.  The JavaScript objects are dynamic; this structure is the
union of the fields used by the embedded code, with the encodings described in
the file header (`width = 0` / `type = ""` / `label = ""` model `undefined`).
The class-specific payload (`data.className`, `data.attributes`,
`data.methods`) and the mindmap `level` are inlined as optional-by-default
fields; object spreads `{...node, x, y, width, height}` become structure
updates, which preserve all the other fields exactly as the spread does. -/
structure DNode (α : Type) where
  id : α
  type : String := ""
  label : String := ""
  x : ℚ := 0
  y : ℚ := 0
  width : ℚ := 0
  height : ℚ := 0
  name : String := ""
  level : Nat := 0
  className : String := ""
  attributes : List ClassAttribute := []
  methods : List ClassMethod := []
deriving DecidableEq, Repr

/-- A diagram edge (`{id, from, to, label?, type?, data?}`); `efrom`/`eto`
embed the source fields `from`/`to`.  The sequence parser's `data.order` and
`message` payload are inlined. -/
structure DEdge (α : Type) where
  id : α
  efrom : α
  eto : α
  label : String := ""
  type : String := ""
  order : Nat := 0
deriving DecidableEq, Repr

/-- A parsed-and-positioned diagram (`{nodes, edges, metadata}`; of the
metadata only the title is data, the creation date is not modelled). -/
structure Diagram (α : Type) where
  nodes : List (DNode α)
  edges : List (DEdge α)
  title : String := ""
deriving DecidableEq, Repr

/-- Discriminated parser result: `{success:true, data}` / `{success:false, error}`. -/
inductive ParserResult (α : Type) where
  | ok (data : Diagram α)
  | err (error : String)
deriving DecidableEq, Repr

/-- JavaScript `v || d` for numbers under the `0 = undefined/falsy` encoding. -/
def orD (v d : ℚ) : ℚ := if v = 0 then d else v

namespace Pagination

/-- The `viewBox` rectangle of a page. -/
structure ViewBox where
  x : ℚ
  y : ℚ
  width : ℚ
  height : ℚ
deriving DecidableEq, Repr

/-- `PageInfo` from `paginationUtils.ts`. -/
structure PageInfo (α : Type) where
  pageNumber : Nat
  totalPages : Nat
  nodes : List (DNode α)
  edges : List (DEdge α)
  viewBox : ViewBox
  title : String
deriving DecidableEq, Repr

/-- `PaginationConfig`; `Option` models the `undefined`-triggered destructuring
defaults of the source (which fire exactly on `undefined`, not on `0`). -/
structure PaginationConfig where
  maxWidth : Option ℚ := none
  maxHeight : Option ℚ := none
  overlapMargin : Option ℚ := none
  preferredBreakPoints : Option String := none
deriving DecidableEq, Repr

/-- Bounding box as computed by `calculateDiagramBounds`. -/
structure Bounds where
  minX : ℚ
  minY : ℚ
  maxX : ℚ
  maxY : ℚ
  width : ℚ
  height : ℚ
deriving DecidableEq, Repr

variable {α : Type} [DecidableEq α]

/-- Left edge of a node's rectangle (`node.x`). -/
def nodeLeft (n : DNode α) : ℚ := n.x

/-- Right edge (`node.x + (node.width || 120)`). -/
def nodeRight (n : DNode α) : ℚ := n.x + orD n.width 120

/-- Top edge (`node.y`). -/
def nodeTop (n : DNode α) : ℚ := n.y

/-- Bottom edge (`node.y + (node.height || 60)`). -/
def nodeBottom (n : DNode α) : ℚ := n.y + orD n.height 60

/-- `calculateDiagramBounds`: min/max of all node rectangle edges.  The source
folds `Math.min`/`Math.max` starting from `±Infinity` over all nodes; over a
non-empty list this equals folding from the first node's values over the rest,
which is how the non-empty case is written here. -/
def calculateDiagramBounds (nodes : List (DNode α)) : Bounds :=
  match nodes with
  | [] => ⟨0, 0, 0, 0, 0, 0⟩
  | n :: rest =>
    let minX := rest.foldl (fun m k => min m (nodeLeft k)) (nodeLeft n)
    let maxX := rest.foldl (fun m k => max m (nodeRight k)) (nodeRight n)
    let minY := rest.foldl (fun m k => min m (nodeTop k)) (nodeTop n)
    let maxY := rest.foldl (fun m k => max m (nodeBottom k)) (nodeBottom n)
    ⟨minX, minY, maxX, maxY, maxX - minX, maxY - minY⟩

/-- `createPageInfo`: recompute the page's tight bounding box (+50 padding)
and keep only the edges whose two endpoints are nodes of the page. -/
def createPageInfo (nodes : List (DNode α)) (edges : List (DEdge α))
    (pageNumber totalPages : Nat) (title : String) : PageInfo α :=
  let bounds := calculateDiagramBounds nodes
  let padding : ℚ := 50
  let nodeIds := nodes.map (·.id)
  let pageEdges := edges.filter (fun e => nodeIds.contains e.efrom && nodeIds.contains e.eto)
  { pageNumber := pageNumber
    totalPages := totalPages
    nodes := nodes
    edges := pageEdges
    viewBox := ⟨bounds.minX - padding, bounds.minY - padding,
                bounds.width + 2 * padding, bounds.height + 2 * padding⟩
    title := title ++ " - Page " ++ toString pageNumber }

/-- `findRelatedNodes`: ids directly connected to `nodeId` by an edge, in
first-insertion order (the source accumulates them in a `Set`). -/
def findRelatedNodes (nodeId : α) (edges : List (DEdge α)) : List α :=
  edges.foldl
    (fun related e =>
      if e.efrom = nodeId then
        (if related.contains e.eto then related else related ++ [e.eto])
      else if e.eto = nodeId then
        (if related.contains e.efrom then related else related ++ [e.efrom])
      else related)
    []

/-- One step of `groupClassesByClusters`: seed a cluster with `node` and pull
in the directly related, not yet visited nodes; `growStep` handles one
related id. -/
def growStep (nodes : List (DNode α)) (acc : List (DNode α) × List α)
    (relatedId : α) : List (DNode α) × List α :=
  match nodes.find? (fun n => n.id = relatedId) with
  | some relatedNode =>
    if acc.2.contains relatedId then acc
    else (acc.1 ++ [relatedNode], acc.2 ++ [relatedId])
  | none => acc

def growCluster (nodes : List (DNode α)) (edges : List (DEdge α))
    (node : DNode α) (visited : List α) : List (DNode α) × List α :=
  (findRelatedNodes node.id edges).foldl (growStep nodes)
    ([node], visited ++ [node.id])

/-- One step of the outer loop of `groupClassesByClusters`. -/
def groupStep (nodes : List (DNode α)) (edges : List (DEdge α))
    (acc : List (List (DNode α)) × List α) (node : DNode α) :
    List (List (DNode α)) × List α :=
  if acc.2.contains node.id then acc
  else
    let grown := growCluster nodes edges node acc.2
    (acc.1 ++ [grown.1], grown.2)

/-- `groupClassesByClusters`: partition the nodes into 1-hop clusters. -/
def groupClassesByClusters (nodes : List (DNode α)) (edges : List (DEdge α)) :
    List (List (DNode α)) :=
  (nodes.foldl (groupStep nodes edges) ([], [])).1

/-- Componentwise merge of a (possibly still `±Infinity`-initialised, modelled
by `none`) running bounds value with a cluster's bounds, as obtained by the
source's `Math.min/<wbr>max` against the accumulator. -/
def mergeBounds (current : Option Bounds) (b : Bounds) : Bounds :=
  match current with
  | none => ⟨b.minX, b.minY, b.maxX, b.maxY, b.maxX - b.minX, b.maxY - b.minY⟩
  | some c =>
    let minX := min c.minX b.minX
    let minY := min c.minY b.minY
    let maxX := max c.maxX b.maxX
    let maxY := max c.maxY b.maxY
    ⟨minX, minY, maxX, maxY, maxX - minX, maxY - minY⟩

/-- Set `totalPages` on every emitted page (the source's final
`pages.forEach(page => page.totalPages = pages.length)`). -/
def setTotalPages (pages : List (PageInfo α)) : List (PageInfo α) :=
  pages.map (fun p => { p with totalPages := pages.length })

/-- One step of the cluster-accumulation fold of `paginateClassDiagram`. -/
def classPageStep (edges : List (DEdge α)) (maxWidth maxHeight : ℚ)
    (acc : List (PageInfo α) × List (DNode α) × Option Bounds)
    (cluster : List (DNode α)) :
    List (PageInfo α) × List (DNode α) × Option Bounds :=
  let (pages, currentPage, currentBounds) := acc
  let clusterBounds := calculateDiagramBounds cluster
  let newBounds := mergeBounds currentBounds clusterBounds
  if currentPage.length > 0 ∧ (newBounds.width > maxWidth ∨ newBounds.height > maxHeight) then
    (pages ++ [createPageInfo currentPage edges (pages.length + 1) 0 "Class Diagram"],
     cluster, some clusterBounds)
  else
    (pages, currentPage ++ cluster, some newBounds)

/-- `paginateClassDiagram`: accumulate 1-hop clusters onto the current page
until adding one would exceed the page bounds. -/
def paginateClassDiagram (nodes : List (DNode α)) (edges : List (DEdge α))
    (maxWidth maxHeight : ℚ) : List (PageInfo α) :=
  let clusters := groupClassesByClusters nodes edges
  let step := clusters.foldl (classPageStep edges maxWidth maxHeight) ([], [], none)
  let pages :=
    if step.2.1.length > 0 then
      step.1 ++ [createPageInfo step.2.1 edges (step.1.length + 1) 0 "Class Diagram"]
    else step.1
  setTotalPages pages

/-- One step of the level-accumulation fold of `paginateByLevels`. -/
def levelPageStep (edges : List (DEdge α)) (maxHeight : ℚ) (title : String)
    (acc : List (PageInfo α) × List (DNode α) × ℚ) (level : List (DNode α)) :
    List (PageInfo α) × List (DNode α) × ℚ :=
  let (pages, currentPage, currentHeight) := acc
  let levelBounds := calculateDiagramBounds level
  if currentPage.length > 0 ∧ currentHeight + levelBounds.height > maxHeight then
    (pages ++ [createPageInfo currentPage edges (pages.length + 1) 0 title],
     level, levelBounds.height)
  else
    (pages, currentPage ++ level, currentHeight + levelBounds.height)

/-- `paginateByLevels`: accumulate whole levels per page by height budget. -/
def paginateByLevels (levels : List (List (DNode α))) (edges : List (DEdge α))
    (maxHeight : ℚ) (title : String) : List (PageInfo α) :=
  let step := levels.foldl (levelPageStep edges maxHeight title) ([], [], 0)
  let pages :=
    if step.2.1.length > 0 then
      step.1 ++ [createPageInfo step.2.1 edges (step.1.length + 1) 0 title]
    else step.1
  setTotalPages pages

/-- The Y-band grouping pass of `paginateByLayers` (30px band threshold).
`currentY = none` models the `-Infinity` initial value, for which the
`Math.abs(node.y - currentY) > 30` test is always true; `bandStep` is one
step of its fold. -/
def bandStep (acc : List (List (DNode α)) × List (DNode α) × Option ℚ)
    (node : DNode α) : List (List (DNode α)) × List (DNode α) × Option ℚ :=
  let (layers, currentLayer, currentY) := acc
  let newBand := match currentY with
    | none => true
    | some cy => decide (|node.y - cy| > 30)
  if newBand then
    ((if currentLayer.length > 0 then layers ++ [currentLayer] else layers),
     [node], some node.y)
  else
    (layers, currentLayer ++ [node], currentY)

def groupIntoBands (sortedNodes : List (DNode α)) : List (List (DNode α)) :=
  let step := sortedNodes.foldl bandStep ([], [], none)
  if step.2.1.length > 0 then step.1 ++ [step.2.1] else step.1

/-- `paginateByLayers`: sort by Y, band nodes within 30px, page by bands. -/
def paginateByLayers (nodes : List (DNode α)) (edges : List (DEdge α))
    (_maxWidth maxHeight : ℚ) (title : String) : List (PageInfo α) :=
  let sortedNodes := nodes.mergeSort (fun a b => a.y ≤ b.y)
  paginateByLevels (groupIntoBands sortedNodes) edges maxHeight title

/-- `paginateByGrid`: split the bounding box into `⌈width/maxWidth⌉ ×
⌈height/maxHeight⌉` cells; a page holds the nodes intersecting its cell.
`gridCellNodes` is the node filter of the cell in column `px`, row `py`. -/
def gridCellNodes (nodes : List (DNode α)) (bounds : Bounds) (maxWidth maxHeight : ℚ)
    (px py : Nat) : List (DNode α) :=
  let pageMinX := bounds.minX + (px : ℚ) * maxWidth
  let pageMaxX := pageMinX + maxWidth
  let pageMinY := bounds.minY + (py : ℚ) * maxHeight
  let pageMaxY := pageMinY + maxHeight
  nodes.filter (fun node =>
    ¬(node.x > pageMaxX ∨ nodeRight node < pageMinX ∨
      node.y > pageMaxY ∨ nodeBottom node < pageMinY))

/-- Inner (per-column) step of `paginateByGrid`. -/
def gridInnerStep (nodes : List (DNode α)) (edges : List (DEdge α)) (bounds : Bounds)
    (maxWidth maxHeight : ℚ) (title : String) (py : Nat)
    (pagesAcc : List (PageInfo α)) (px : Nat) : List (PageInfo α) :=
  let pageNodes := gridCellNodes nodes bounds maxWidth maxHeight px py
  if pageNodes.length > 0 then
    pagesAcc ++ [createPageInfo pageNodes edges (pagesAcc.length + 1) 0 title]
  else pagesAcc

/-- Outer (per-row) step of `paginateByGrid`. -/
def gridRowStep (nodes : List (DNode α)) (edges : List (DEdge α)) (bounds : Bounds)
    (maxWidth maxHeight : ℚ) (title : String) (pagesX : Nat)
    (pagesAcc : List (PageInfo α)) (py : Nat) : List (PageInfo α) :=
  (List.range pagesX).foldl
    (gridInnerStep nodes edges bounds maxWidth maxHeight title py) pagesAcc

def paginateByGrid (nodes : List (DNode α)) (edges : List (DEdge α))
    (maxWidth maxHeight : ℚ) (title : String) : List (PageInfo α) :=
  let bounds := calculateDiagramBounds nodes
  let pagesX : ℤ := ⌈bounds.width / maxWidth⌉
  let pagesY : ℤ := ⌈bounds.height / maxHeight⌉
  let pages := (List.range pagesY.toNat).foldl
    (gridRowStep nodes edges bounds maxWidth maxHeight title pagesX.toNat) []
  setTotalPages pages

/-- `paginateFlowDiagram`: layers strategy if preferred, grid otherwise. -/
def paginateFlowDiagram (nodes : List (DNode α)) (edges : List (DEdge α))
    (maxWidth maxHeight : ℚ) (preferredBreakPoints : String) : List (PageInfo α) :=
  if preferredBreakPoints = "layers" then
    paginateByLayers nodes edges maxWidth maxHeight "Flow Diagram"
  else
    paginateByGrid nodes edges maxWidth maxHeight "Flow Diagram"

/-- Message chunking loop of `paginateSequenceDiagram`
(`for (i = 0; i < edges.length; i += messagesPerPage)`).  The loop is embedded
by recursion on the remaining messages, which matches the source whenever
`messagesPerPage ≥ 1`; for `messagesPerPage ≤ 0` the source loop never
terminates and never returns, embedded as the empty page list. -/
def chunkGo (actors : List (DNode α)) (mpp : Nat) (title : String) :
    Nat → List (DEdge α) → List (PageInfo α) → List (PageInfo α)
  | 0, _, pages => pages
  | _ + 1, [], pages => pages
  | fuel + 1, x :: xs, pages =>
    let pageMessages := (x :: xs).take (max mpp 1)
    chunkGo actors mpp title fuel ((x :: xs).drop (max mpp 1))
      (pages ++ [createPageInfo actors pageMessages (pages.length + 1) 0 title])

def chunkMessages (actors : List (DNode α)) (edges : List (DEdge α))
    (messagesPerPage : ℤ) (title : String) : List (PageInfo α) :=
  if messagesPerPage ≤ 0 then []
  else chunkGo actors messagesPerPage.toNat title (edges.length + 1) edges []

/-- `paginateSequenceDiagram`: fixed number of messages per page, all actors
repeated on every page. -/
def paginateSequenceDiagram (nodes : List (DNode α)) (edges : List (DEdge α))
    (maxHeight : ℚ) : List (PageInfo α) :=
  let messagesPerPage : ℤ := ⌊(maxHeight - 200) / 60⌋
  let actors := nodes.filter (fun n => n.type = "actor")
  setTotalPages (chunkMessages actors edges messagesPerPage "Sequence Diagram")

/-- BFS queue processing of `groupNodesByLevel`, with explicit fuel for the
`while (queue.length > 0)` loop. -/
def groupNodesByLevelLoop (nodes : List (DNode α)) (edges : List (DEdge α)) :
    Nat → List (DNode α × Nat) → List (List (DNode α)) → List α → List (List (DNode α))
  | 0, _, levels, _ => levels
  | _ + 1, [], levels, _ => levels
  | fuel + 1, (node, level) :: queue, levels, visited =>
    if visited.contains node.id then
      groupNodesByLevelLoop nodes edges fuel queue levels visited
    else
      let visited := visited ++ [node.id]
      -- `while (levels.length <= level) levels.push([])` followed by
      -- `levels[level].push(node)`
      let levels := levels ++ List.replicate (level + 1 - levels.length) []
      let levels := levels.set level (levels.getD level [] ++ [node])
      let enqueued := edges.foldl
        (fun acc e =>
          if e.efrom = node.id then
            match nodes.find? (fun n => n.id = e.eto) with
            | some childNode =>
              if visited.contains childNode.id then acc else acc ++ [(childNode, level + 1)]
            | none => acc
          else acc)
        []
      groupNodesByLevelLoop nodes edges fuel (queue ++ enqueued) levels visited

/-- `groupNodesByLevel`: BFS distance-from-root level grouping. -/
def groupNodesByLevel (nodes : List (DNode α)) (edges : List (DEdge α)) (rootId : α) :
    List (List (DNode α)) :=
  match nodes.find? (fun n => n.id = rootId) with
  | some rootNode =>
    groupNodesByLevelLoop nodes edges (nodes.length + edges.length * nodes.length + 1)
      [(rootNode, 0)] [] []
  | none => []

/-- `paginateMindmapDiagram`: group by BFS distance from the root, then page
by levels.  On an empty node list the source dereferences `undefined` and
throws; the embedding returns no pages (the branch is unreachable from
`paginateDiagram` for any configuration with non-negative page bounds). -/
def paginateMindmapDiagram (nodes : List (DNode α)) (edges : List (DEdge α))
    (maxHeight : ℚ) : List (PageInfo α) :=
  match (nodes.find? (fun n => n.type = "root")).orElse (fun _ => nodes.head?) with
  | some rootNode =>
    paginateByLevels (groupNodesByLevel nodes edges rootNode.id) edges maxHeight "Mindmap"
  | none => []

/-- `paginateUsecaseDiagram` with `groupUsecasesByActors` inlined (the source
helper ignores the actors and returns the single group `[usecases]`) and
`paginateActorGroups` mapping each group to a page. -/
def paginateUsecaseDiagram (nodes : List (DNode α)) (edges : List (DEdge α)) :
    List (PageInfo α) :=
  let usecases := nodes.filter (fun n => n.type = "usecase")
  let groups : List (List (DNode α)) := [usecases]
  (List.range groups.length).map (fun index =>
    createPageInfo (groups.getD index []) edges (index + 1) groups.length "Use Case Diagram")

/-- `paginateDiagram`: emit a single unfiltered page if the bounding box fits,
otherwise dispatch to the per-type strategy. -/
def paginateDiagram (nodes : List (DNode α)) (edges : List (DEdge α))
    (diagramType : String) (config : PaginationConfig) : List (PageInfo α) :=
  let maxWidth := config.maxWidth.getD 1200
  let maxHeight := config.maxHeight.getD 900
  let preferredBreakPoints := config.preferredBreakPoints.getD "layers"
  let bounds := calculateDiagramBounds nodes
  if bounds.width ≤ maxWidth ∧ bounds.height ≤ maxHeight then
    [{ pageNumber := 1
       totalPages := 1
       nodes := nodes
       edges := edges
       viewBox := ⟨bounds.minX - 50, bounds.minY - 50, bounds.width + 100, bounds.height + 100⟩
       title := diagramType ++ " Diagram" }]
  else if diagramType = "class" then
    paginateClassDiagram nodes edges maxWidth maxHeight
  else if diagramType = "flow" then
    paginateFlowDiagram nodes edges maxWidth maxHeight preferredBreakPoints
  else if diagramType = "sequence" then
    paginateSequenceDiagram nodes edges maxHeight
  else if diagramType = "mindmap" then
    paginateMindmapDiagram nodes edges maxHeight
  else if diagramType = "usecase" then
    paginateUsecaseDiagram nodes edges
  else
    paginateByGrid nodes edges maxWidth maxHeight "Diagram"

end Pagination

namespace Layout

/-! ## Layout engines (`utils/layoutUtils.ts`, two variants)

The repository contains two versions of the shared layout module: the base
`src/utils/layoutUtils.ts` and the later overlap-fix revision (the file that
also adds the dagre and dual-tree mindmap layouts).  Both are embedded:
`LayoutV1` is the base file, `LayoutV2` the revised one.  The BFS layer
assignment is textually identical in the two files and is shared here. -/

variable {α : Type} [DecidableEq α]

/-- JavaScript `n || d` on a `Nat` (string lengths): `0` is falsy. -/
def orDN (n d : Nat) : Nat := if n = 0 then d else n

/-- `adjacencyMap.get(id) || []`: the BFS successors of `id`, in edge order. -/
def adjacencyOf (edges : List (DEdge α)) (id : α) : List α :=
  (edges.filter (fun e => e.efrom = id)).map (·.eto)

/-- `incomingMap.get(id) || []`: the predecessors of `id`, in edge order. -/
def incomingOf (edges : List (DEdge α)) (id : α) : List α :=
  (edges.filter (fun e => e.eto = id)).map (·.efrom)

/-- Root-like node types (`start`, `root`, `actor`). -/
def isRootType (n : DNode α) : Bool :=
  n.type == "start" || n.type == "root" || n.type == "actor"

/-- Root-node selection of `positionNodesHierarchically`: nodes with no
incoming edge or of a root-like type, else the first class/usecase/untyped
node, else the first node.  (On an empty node list the source pushes
`undefined` and the subsequent BFS throws; the caller guards that case.) -/
def rootNodesOf (nodes : List (DNode α)) (edges : List (DEdge α)) : List (DNode α) :=
  let roots := nodes.filter (fun n => (incomingOf edges n.id).isEmpty || isRootType n)
  if roots.isEmpty then
    let candidateRoots := nodes.filter
      (fun n => n.type == "class" || n.type == "usecase" || n.type == "")
    match candidateRoots.head? with
    | some c => [c]
    | none => nodes.take 1
  else roots

/-- The `while (queue.length > 0)` BFS of `positionNodesHierarchically`,
with explicit fuel.  Returns the layer lists and the visited ids. -/
def bfsLoop (nodes : List (DNode α)) (edges : List (DEdge α)) :
    Nat → List (DNode α × Nat) → List (List (DNode α)) → List α →
    List (List (DNode α)) × List α
  | 0, _, layers, visited => (layers, visited)
  | _ + 1, [], layers, visited => (layers, visited)
  | fuel + 1, (node, layer) :: queue, layers, visited =>
    if visited.contains node.id then
      bfsLoop nodes edges fuel queue layers visited
    else
      let visited := visited ++ [node.id]
      -- `while (layers.length <= layer) layers.push([])` then `layers[layer].push(node)`
      let layers := layers ++ List.replicate (layer + 1 - layers.length) []
      let layers := layers.set layer (layers.getD layer [] ++ [node])
      let enqueued := (adjacencyOf edges node.id).foldl
        (fun acc childId =>
          match nodes.find? (fun n => n.id = childId) with
          | some childNode =>
            if visited.contains childId then acc else acc ++ [(childNode, layer + 1)]
          | none => acc)
        []
      bfsLoop nodes edges fuel (queue ++ enqueued) layers visited

/-- Append the nodes the BFS did not reach to the final layer (the source's
type heuristic computes `layers.length - 1` on both of its branches);
`unvisitedStep` appends one unreached node. -/
def unvisitedStep (visited : List α) (layers : List (List (DNode α)))
    (node : DNode α) : List (List (DNode α)) :=
  if visited.contains node.id then layers
  else
    let targetLayer := layers.length - 1
    layers.set targetLayer (layers.getD targetLayer [] ++ [node])

def appendUnvisited (nodes : List (DNode α)) (layers : List (List (DNode α)))
    (visited : List α) : List (List (DNode α)) :=
  nodes.foldl (unvisitedStep visited) layers

/-- Fuel bound that dominates every possible queue insertion of the BFS. -/
def bfsFuel (nodes : List (DNode α)) (edges : List (DEdge α)) : Nat :=
  nodes.length + nodes.length * edges.length + 1

/-- The complete layer assignment of `positionNodesHierarchically`
(shared text of both layout variants). -/
def layersOf (nodes : List (DNode α)) (edges : List (DEdge α)) :
    List (List (DNode α)) :=
  let start := (rootNodesOf nodes edges).map (fun n => (n, 0))
  let (layers, visited) := bfsLoop nodes edges (bfsFuel nodes edges) start [] []
  appendUnvisited nodes layers visited

/-- Options object of `positionNodesHierarchically`; `Option` models the
destructuring defaults, which fire exactly on `undefined`. -/
structure LayoutOptions where
  nodeWidth : Option ℚ := none
  nodeHeight : Option ℚ := none
  horizontalSpacing : Option ℚ := none
  verticalSpacing : Option ℚ := none
  startX : Option ℚ := none
  startY : Option ℚ := none
  layoutDirection : Option String := none
deriving DecidableEq, Repr

namespace LayoutV1

/-- Positioning pass of the base `layoutUtils.ts`: fixed per-index spacing,
and `width`/`height` overwritten with the option defaults. -/
def placeLayers (layers : List (List (DNode α))) (o : LayoutOptions) : List (DNode α) :=
  let nodeWidth := o.nodeWidth.getD 120
  let nodeHeight := o.nodeHeight.getD 60
  let horizontalSpacing := o.horizontalSpacing.getD 180
  let verticalSpacing := o.verticalSpacing.getD 150
  let startX := o.startX.getD 150
  let startY := o.startY.getD 100
  let layoutDirection := o.layoutDirection.getD "top-down"
  layers.enum.flatMap (fun (layerIndex, layerNodes) =>
    layerNodes.enum.map (fun (nodeIndex, node) =>
      if layoutDirection == "left-right" then
        { node with
          x := startX + (layerIndex : ℚ) * horizontalSpacing
          y := if layerNodes.length = 1 then startY + 200
               else startY + (nodeIndex : ℚ) * verticalSpacing
          width := nodeWidth, height := nodeHeight }
      else
        { node with
          x := if layerNodes.length = 1 then startX + 200
               else startX + (nodeIndex : ℚ) * horizontalSpacing
          y := startY + (layerIndex : ℚ) * verticalSpacing
          width := nodeWidth, height := nodeHeight }))

/-- `positionNodesHierarchically` of the base `layoutUtils.ts`.  `none`
models the `TypeError` the source throws on an empty node list (the BFS pops
an `undefined` root). -/
def positionNodesHierarchically (nodes : List (DNode α)) (edges : List (DEdge α))
    (o : LayoutOptions) : Option (List (DNode α)) :=
  if nodes.isEmpty then none
  else some (placeLayers (layersOf nodes edges) o)

end LayoutV1

namespace LayoutV2

/-- One row of the positioning pass of the overlap-fix `layoutUtils.ts`
(the inner `layerNodes.forEach`): top-down rows use a running sum of the
previous nodes' actual widths plus a 70px margin, and the parser-computed
`width`/`height` are preserved (`node.width || nodeWidth`). -/
def placeRow (o : LayoutOptions) (layerIndex : Nat) (layerNodes : List (DNode α)) :
    List (DNode α) :=
  let nodeWidth := o.nodeWidth.getD 120
  let nodeHeight := o.nodeHeight.getD 60
  let horizontalSpacing := o.horizontalSpacing.getD 180
  let verticalSpacing := o.verticalSpacing.getD 150
  let startX := o.startX.getD 150
  let startY := o.startY.getD 100
  let layoutDirection := o.layoutDirection.getD "top-down"
  layerNodes.enum.map (fun (nodeIndex, node) =>
    let actualWidth := orD node.width nodeWidth
    let actualHeight := orD node.height nodeHeight
    if layoutDirection == "left-right" then
      { node with
        x := startX + (layerIndex : ℚ) * horizontalSpacing
        y := if layerNodes.length = 1 then startY + 200
             else startY + (nodeIndex : ℚ) * verticalSpacing
        width := actualWidth, height := actualHeight }
    else
      { node with
        x := if layerNodes.length = 1 then startX + 200
             else (layerNodes.take nodeIndex).foldl
                    (fun cumulativeX prev => cumulativeX + orD prev.width nodeWidth + 70)
                    startX
        y := startY + (layerIndex : ℚ) * verticalSpacing
        width := actualWidth, height := actualHeight })

/-- Positioning pass of the overlap-fix `layoutUtils.ts`: the nested
`layers.forEach`/`layerNodes.forEach`. -/
def placeLayers (layers : List (List (DNode α))) (o : LayoutOptions) : List (DNode α) :=
  layers.enum.flatMap (fun (layerIndex, layerNodes) => placeRow o layerIndex layerNodes)

/-- `positionNodesHierarchically` of the overlap-fix `layoutUtils.ts`. -/
def positionNodesHierarchically (nodes : List (DNode α)) (edges : List (DEdge α))
    (o : LayoutOptions) : Option (List (DNode α)) :=
  if nodes.isEmpty then none
  else some (placeLayers (layersOf nodes edges) o)

end LayoutV2

/-- `positionSequenceNodes` (identical in both layout files): actors in a
horizontal row, 200px apart. -/
def positionSequenceNodes (nodes : List (DNode α)) : List (DNode α) :=
  let actors := nodes.filter (fun n => n.type == "actor")
  actors.enum.map (fun (index, actor) =>
    { actor with x := 100 + (index : ℚ) * 200, y := 80, width := 120, height := 60 })

end Layout

namespace Layout

variable {α : Type} [DecidableEq α]

/-- `positionMindmapNodesTree` (overlap-fix `layoutUtils.ts`): children of a
parent, in edge order, resolved against the node list. -/
def childrenOf (nodes : List (DNode α)) (edges : List (DEdge α)) (id : α) :
    List (DNode α) :=
  ((edges.filter (fun e => e.efrom = id)).filterMap
    (fun e => nodes.find? (fun n => n.id = e.eto)))

/-- The per-parent `localeCompare` sort of the children map, embedded as a
stable sort by code-point order on labels (faithful for ASCII labels). -/
def sortedChildrenOf (nodes : List (DNode α)) (edges : List (DEdge α)) (id : α) :
    List (DNode α) :=
  (childrenOf nodes edges id).mergeSort (fun a b => a.label ≤ b.label)

/-- `getSubtreeHeight`: a leaf weighs one `verticalSpacing` (60), an inner
node the sum of its children's weights.  Fuel replaces the unbounded
recursion (the source diverges on cyclic edge sets; every mindmap-parser
output is acyclic and stays within fuel `nodes.length`). -/
def getSubtreeHeight (nodes : List (DNode α)) (edges : List (DEdge α)) :
    Nat → α → ℚ
  | 0, _ => 60
  | fuel + 1, id =>
    let children := sortedChildrenOf nodes edges id
    if children.isEmpty then 60
    else children.foldl (fun sum child => sum + getSubtreeHeight nodes edges fuel child.id) 0

/-- Recursive branch positioning of `positionMindmapNodesTree`. -/
def positionBranch (nodes : List (DNode α)) (edges : List (DEdge α)) :
    Nat → α → ℚ → ℚ → Bool → Nat → List (DNode α)
  | 0, _, _, _, _, _ => []
  | fuel + 1, nodeId, parentX, parentY, isRight, level =>
    let hfuel := nodes.length
    let children := sortedChildrenOf nodes edges nodeId
    if children.isEmpty then []
    else
      let totalSubtreeHeight := getSubtreeHeight nodes edges hfuel nodeId
      (children.foldl
        (fun (acc : List (DNode α) × ℚ) child =>
          let childSubtreeHeight := getSubtreeHeight nodes edges hfuel child.id
          let nodeY := acc.2 + childSubtreeHeight / 2
          let nodeWidth : ℚ := max 140 (min 220 ((orDN child.label.length 10 : ℚ) * 8))
          let nodeHeight : ℚ := if level > 1 then 40 else 50
          let nodeX := if isRight then parentX + 250 else parentX - 250 - nodeWidth
          (acc.1
            ++ [{ child with
                  x := nodeX
                  y := nodeY - nodeHeight / 2
                  width := nodeWidth
                  height := nodeHeight }]
            ++ positionBranch nodes edges fuel child.id (nodeX + nodeWidth / 2) nodeY
                 isRight (level + 1),
           acc.2 + childSubtreeHeight))
        ([], parentY - totalSubtreeHeight / 2)).1

/-- One side of the root split (`rightBranchNodes.forEach` /
`leftBranchNodes.forEach`): first-level branches at `centerX ± 250` with a
250px step, stacked by subtree weight. -/
def positionSide (nodes : List (DNode α)) (edges : List (DEdge α))
    (branchNodes : List (DNode α)) (centerX centerY : ℚ) (isRight : Bool) :
    List (DNode α) :=
  let hfuel := nodes.length
  let branchHeight := branchNodes.foldl
    (fun sum child => sum + getSubtreeHeight nodes edges hfuel child.id) 0
  (branchNodes.foldl
    (fun (acc : List (DNode α) × ℚ) child =>
      let childSubtreeHeight := getSubtreeHeight nodes edges hfuel child.id
      let nodeY := acc.2 + childSubtreeHeight / 2
      let nodeWidth : ℚ := max 150 (min 240 ((orDN child.label.length 10 : ℚ) * 8))
      let nodeHeight : ℚ := 50
      let nodeX := if isRight then centerX + 250 else centerX - 250 - nodeWidth
      let parentX := if isRight then centerX + 250 + nodeWidth / 2
                     else centerX - 250 - nodeWidth / 2
      (acc.1
        ++ [{ child with
              x := nodeX
              y := nodeY - nodeHeight / 2
              width := nodeWidth
              height := nodeHeight }]
        ++ positionBranch nodes edges nodes.length child.id parentX nodeY isRight 2,
       acc.2 + childSubtreeHeight))
    ([], centerY - branchHeight / 2)).1

/-- `positionMindmapNodesTree`: dual-sided balanced tree layout for mind maps
(root centered at (600, 400), first half of its children to the right,
remainder to the left). -/
def positionMindmapNodesTree (nodes : List (DNode α)) (edges : List (DEdge α)) :
    List (DNode α) :=
  match nodes with
  | [] => []
  | first :: _ =>
    let centerX : ℚ := 600
    let centerY : ℚ := 400
    let rootNode :=
      (nodes.find? (fun n => (edges.filter (fun e => e.eto = n.id)).isEmpty)).getD first
    let rootWidth : ℚ := max 180 ((orDN rootNode.label.length 10 : ℚ) * 9)
    let positionedRoot :=
      { rootNode with
        x := centerX - rootWidth / 2
        y := centerY - 30
        width := rootWidth
        height := 60 }
    let rootChildren := sortedChildrenOf nodes edges rootNode.id
    let rightBranchNodes := rootChildren.take ((rootChildren.length + 1) / 2)
    let leftBranchNodes := rootChildren.drop ((rootChildren.length + 1) / 2)
    positionedRoot ::
      (positionSide nodes edges rightBranchNodes centerX centerY true
        ++ positionSide nodes edges leftBranchNodes centerX centerY false)

end Layout

namespace EdgeGeo

/-! ## Edge connection points (`utils/edgeUtils.ts`) -/

/-- A 2D point. -/
structure Point where
  x : ℚ
  y : ℚ
deriving DecidableEq, Repr

/-- `NodeBounds` from `edgeUtils.ts`. -/
structure NodeBounds where
  x : ℚ
  y : ℚ
  width : ℚ
  height : ℚ
  type : String := ""
deriving DecidableEq, Repr

/-- `node.type && ['root','branch','leaf'].includes(node.type)`: mindmap nodes
store their center in `x`/`y`. -/
def isCenterType (t : String) : Bool := t == "root" || t == "branch" || t == "leaf"

/-- The center of a node, respecting the two coordinate conventions. -/
def centerOf (n : NodeBounds) : Point :=
  if isCenterType n.type then ⟨n.x, n.y⟩
  else ⟨n.x + n.width / 2, n.y + n.height / 2⟩

/-- Derived rectangle bounds of a node (left, top, right, bottom). -/
structure RectB where
  left : ℚ
  top : ℚ
  right : ℚ
  bottom : ℚ
deriving DecidableEq, Repr

/-- Rectangle bounds, re-derived from the center for mindmap node types and
taken directly for top-left-anchored types. -/
def rectOf (n : NodeBounds) : RectB :=
  if isCenterType n.type then
    ⟨n.x - n.width / 2, n.y - n.height / 2, n.x + n.width / 2, n.y + n.height / 2⟩
  else
    ⟨n.x, n.y, n.x + n.width, n.y + n.height⟩

/-- `getDiamondConnectionPoint`: outgoing connection point of a decision
diamond (vertical bias 1.8). -/
def getDiamondConnectionPoint (node targetNode : NodeBounds) : Point :=
  let centerX := node.x + node.width / 2
  let centerY := node.y + node.height / 2
  let targetCenterX := targetNode.x + targetNode.width / 2
  let targetCenterY := targetNode.y + targetNode.height / 2
  let dx := targetCenterX - centerX
  let dy := targetCenterY - centerY
  let effectiveAbsY := |dy| * (18 / 10 : ℚ)
  if effectiveAbsY > |dx| then
    if dy > 0 then ⟨centerX, node.y + node.height⟩ else ⟨centerX, node.y⟩
  else
    if dx > 0 then ⟨node.x + node.width, centerY⟩ else ⟨node.x, centerY⟩

/-- `getNodeConnectionPoint`: border point where an edge leaves `node`
towards `targetNode` (vertical bias 1.3 for flowchart node types). -/
def getNodeConnectionPoint (node targetNode : NodeBounds) : Point :=
  if node.type == "decision" then getDiamondConnectionPoint node targetNode
  else
    let r := rectOf node
    let c := centerOf node
    let tc := centerOf targetNode
    let dx := tc.x - c.x
    let dy := tc.y - c.y
    let verticalBias : ℚ :=
      if node.type == "start" || node.type == "end" || node.type == "process" ||
         node.type == "decision" || node.type == "input" || node.type == "output"
      then 13 / 10 else 1
    let effectiveAbsY := |dy| * verticalBias
    if effectiveAbsY > |dx| then
      if dy > 0 then ⟨c.x, r.bottom⟩ else ⟨c.x, r.top⟩
    else
      if dx > 0 then ⟨r.right, c.y⟩ else ⟨r.left, c.y⟩

/-- `getDiamondTargetConnectionPoint`: arrival point on a decision diamond
(asymmetric `0.3` threshold). -/
def getDiamondTargetConnectionPoint (node fromNode : NodeBounds) : Point :=
  let centerX := node.x + node.width / 2
  let centerY := node.y + node.height / 2
  let fromCenterX := fromNode.x + fromNode.width / 2
  let fromCenterY := fromNode.y + fromNode.height / 2
  let dx := centerX - fromCenterX
  let dy := centerY - fromCenterY
  if dy > 0 ∧ |dy| > |dx| * (3 / 10 : ℚ) then ⟨centerX, node.y⟩
  else if dy < 0 ∧ |dy| > |dx| * (3 / 10 : ℚ) then ⟨centerX, node.y + node.height⟩
  else if dx > 0 then ⟨node.x, centerY⟩
  else ⟨node.x + node.width, centerY⟩

/-- `getTargetConnectionPoint`: border point where an edge arrives on `node`
coming from `fromNode` (asymmetric `0.3` threshold favouring top/bottom). -/
def getTargetConnectionPoint (node fromNode : NodeBounds) : Point :=
  if node.type == "decision" then getDiamondTargetConnectionPoint node fromNode
  else
    let r := rectOf node
    let c := centerOf node
    let fc := centerOf fromNode
    let dx := c.x - fc.x
    let dy := c.y - fc.y
    if dy > 0 ∧ |dy| > |dx| * (3 / 10 : ℚ) then ⟨c.x, r.top⟩
    else if dy < 0 ∧ |dy| > |dx| * (3 / 10 : ℚ) then ⟨c.x, r.bottom⟩
    else if dx > 0 then ⟨r.left, c.y⟩
    else ⟨r.right, c.y⟩

end EdgeGeo

namespace TextMatch

/-! ## Regex fragments used by the parsers

The parsers match lines against small regular expressions.  Each regex is
embedded as a scanning matcher over the character list: `scan` retries the
pattern at every start position (as `String.prototype.match` with an
unanchored pattern does), and the individual patterns combine the literal,
`\s+`/`\s*`, `\w+`, `[^)]*` pieces of the source regexes.  Greedy matching of
`\w+`/`\s+` followed by a disjoint character class needs no backtracking, so
maximal munch is exact here. -/

/-- JavaScript `\w`. -/
def isWordChar (c : Char) : Bool := c.isAlphanum || c = '_'

/-- JavaScript `\s`. -/
def isSpaceChar (c : Char) : Bool := c.isWhitespace

/-- Match a literal and return the remainder. -/
def dropLiteral (lit : List Char) (cs : List Char) : Option (List Char) :=
  if lit.isPrefixOf cs then some (cs.drop lit.length) else none

/-- `/class\s+(\w+)(?:\s+extends\s+(\w+))?\s*\{?/` at one start position. -/
def tryClassAt (cs : List Char) : Option (String × Option String) := do
  let cs ← dropLiteral "class".toList cs
  let (sp, cs) := cs.span isSpaceChar
  if sp.isEmpty then failure
  let (w, cs) := cs.span isWordChar
  if w.isEmpty then failure
  let parent : Option String := do
    let (sp2, cs2) := cs.span isSpaceChar
    if sp2.isEmpty then failure
    let cs2 ← dropLiteral "extends".toList cs2
    let (sp3, cs3) := cs2.span isSpaceChar
    if sp3.isEmpty then failure
    let (w2, _) := cs3.span isWordChar
    if w2.isEmpty then failure
    pure w2.asString
  pure (w.asString, parent)

/-- Retry a pattern at every start position (unanchored `match`). -/
def scan {β : Type} (p : List Char → Option β) : List Char → Option β
  | [] => p []
  | c :: rest => (p (c :: rest)).orElse (fun _ => scan p (c :: rest).tail)

/-- `line.match(/class\s+(\w+)(?:\s+extends\s+(\w+))?\s*\{?/)`. -/
def matchClassDecl (line : String) : Option (String × Option String) :=
  scan tryClassAt line.toList

/-- `/(\w+)\(([^)]*)\):\s*(\w+)/` at one start position. -/
def tryMethodAt (cs : List Char) : Option (String × String × String) := do
  let (w, cs) := cs.span isWordChar
  if w.isEmpty then failure
  let cs ← dropLiteral "(".toList cs
  let (params, cs) := cs.span (fun c => c ≠ ')')
  let cs ← dropLiteral ")".toList cs
  let cs ← dropLiteral ":".toList cs
  let (_, cs) := cs.span isSpaceChar
  let (rt, _) := cs.span isWordChar
  if rt.isEmpty then failure
  pure (w.asString, params.asString, rt.asString)

/-- `content.match(/(\w+)\(([^)]*)\):\s*(\w+)/)`. -/
def matchMethod (content : String) : Option (String × String × String) :=
  scan tryMethodAt content.toList

/-- `/(\w+):\s*(\w+)/` at one start position. -/
def tryAttributeAt (cs : List Char) : Option (String × String) := do
  let (w, cs) := cs.span isWordChar
  if w.isEmpty then failure
  let cs ← dropLiteral ":".toList cs
  let (_, cs) := cs.span isSpaceChar
  let (t, _) := cs.span isWordChar
  if t.isEmpty then failure
  pure (w.asString, t.asString)

/-- `content.match(/(\w+):\s*(\w+)/)`. -/
def matchAttribute (content : String) : Option (String × String) :=
  scan tryAttributeAt content.toList

/-- `/(\w+)\s*(->|-->)\s*(\w+):\s*(.+)/` at one start position.  The
alternation `(->|-->)` is decided by a `-->` test first: whenever the input
continues with `-->`, the `->` alternative always fails at the following
`>` (not a word character), so the two orders agree. -/
def trySequenceAt (cs : List Char) : Option (String × String × String × String) := do
  let (w1, cs) := cs.span isWordChar
  if w1.isEmpty then failure
  let (_, cs) := cs.span isSpaceChar
  let (arrow, cs) ←
    match dropLiteral "-->".toList cs with
    | some rest => some ("-->", rest)
    | none =>
      match dropLiteral "->".toList cs with
      | some rest => some ("->", rest)
      | none => none
  let (_, cs) := cs.span isSpaceChar
  let (w2, cs) := cs.span isWordChar
  if w2.isEmpty then failure
  let cs ← dropLiteral ":".toList cs
  let (_, cs) := cs.span isSpaceChar
  if cs.isEmpty then failure
  pure (w1.asString, arrow, w2.asString, cs.asString)

/-- `line.match(/(\w+)\s*(->|-->)\s*(\w+):\s*(.+)/)`. -/
def matchSequenceLine (line : String) :
    Option (String × String × String × String) :=
  scan trySequenceAt line.toList

/-- `/(\w+)\s*->\s*(\w+)(?::\s*(.+))?/` at one start position. -/
def tryFlowAt (cs : List Char) : Option (String × String × Option String) := do
  let (w1, cs) := cs.span isWordChar
  if w1.isEmpty then failure
  let (_, cs) := cs.span isSpaceChar
  let cs ← dropLiteral "->".toList cs
  let (_, cs) := cs.span isSpaceChar
  let (w2, cs) := cs.span isWordChar
  if w2.isEmpty then failure
  let label : Option String := do
    let cs2 ← dropLiteral ":".toList cs
    let (_, cs2) := cs2.span isSpaceChar
    if cs2.isEmpty then failure
    pure cs2.asString
  pure (w1.asString, w2.asString, label)

/-- `line.match(/(\w+)\s*->\s*(\w+)(?::\s*(.+))?/)`. -/
def matchFlowLine (line : String) : Option (String × String × Option String) :=
  scan tryFlowAt line.toList

/-- `/(\w+)\s*->\s*\(([^)]+)\)/` at one start position. -/
def tryUsecaseAt (cs : List Char) : Option (String × String) := do
  let (w1, cs) := cs.span isWordChar
  if w1.isEmpty then failure
  let (_, cs) := cs.span isSpaceChar
  let cs ← dropLiteral "->".toList cs
  let (_, cs) := cs.span isSpaceChar
  let cs ← dropLiteral "(".toList cs
  let (inner, cs) := cs.span (fun c => c ≠ ')')
  if inner.isEmpty then failure
  let _ ← dropLiteral ")".toList cs
  pure (w1.asString, inner.asString)

/-- `line.match(/(\w+)\s*->\s*\(([^)]+)\)/)`. -/
def matchUsecaseLine (line : String) : Option (String × String) :=
  scan tryUsecaseAt line.toList

/-- Substring test used by the flow parser's `getNodeType`
(`name.toLowerCase().includes(sub)`). -/
def containsSub (s sub : String) : Bool :=
  decide (sub.toList <:+: s.toList.map Char.toLower)

end TextMatch

/-- `input.split('\n').map(line => line.trim()).filter(line => line.length > 0)`:
shared preprocessing of the class, sequence, flow and use-case parsers. -/
def trimmedLines (input : String) : List String :=
  ((input.splitOn "\n").map (·.trim)).filter (fun l => l.length > 0)

/-- Plain substring test (JavaScript `String.prototype.includes`). -/
def hasSub (s sub : String) : Bool := decide (sub.toList <:+: s.toList)

/-- The message of the `TypeError` thrown (and caught) when a layout BFS pops
an `undefined` root from an empty node list. -/
def undefinedIdError : String := "Cannot read properties of undefined (reading 'id')"

namespace ClassParser

/-! ## `classDiagramParser.ts` (the overlap-fix revision)

The repository holds two revisions of the class parser that share the whole
line loop and the inheritance resolution and differ only in
`finishCurrentClass` (content-independent vs. content-derived dimensions) and
in the layout options.  The revision embedded here is the later one (18px
line bands, separator band, dynamic width, layout defaults 250/200/300/250),
which the repository's overlap-fix document describes as current; its
`finishCurrentClass` is the subject of the size-formula claim. -/

variable {α : Type} [DecidableEq α]

/-- The visibility glyph used when rendering an attribute or method line. -/
def visibilityGlyph (visibility : String) : String :=
  if visibility = "private" then "-" else if visibility = "protected" then "#" else "+"

/-- The rendered attribute line whose length feeds the width calculation. -/
def renderAttribute (attr : ClassAttribute) : String :=
  visibilityGlyph attr.visibility ++ " " ++ attr.name ++ ": " ++ attr.type

/-- The rendered method line whose length feeds the width calculation. -/
def renderMethod (m : ClassMethod) : String :=
  let params := String.intercalate ", " (m.parameters.map (fun p => p.name ++ ": " ++ p.type))
  visibilityGlyph m.visibility ++ " " ++ m.name ++ "(" ++ params ++ "): " ++ m.returnType

/-- `finishCurrentClass` (overlap-fix revision): content-derived height
(`30 + 18·attrs + 15·separator + 18·methods + 30`, floor 80) and width
(`clamp(200, 400, 8·maxContentLength + 40)`). -/
def finishCurrentClass (currentClass : DNode α) : DNode α :=
  let titleHeight : ℚ := 30
  let lineSpacing : ℚ := 18
  let separatorHeight : ℚ := 15
  let padding : ℚ := 30
  let attributeHeight := (currentClass.attributes.length : ℚ) * lineSpacing
  let methodHeight := (currentClass.methods.length : ℚ) * lineSpacing
  let needsSeparator := currentClass.attributes.length > 0 ∧ currentClass.methods.length > 0
  let calculatedHeight := titleHeight + attributeHeight +
    (if needsSeparator then separatorHeight else 0) + methodHeight + padding
  let minHeight : ℚ := 80
  let height := max minHeight calculatedHeight
  let maxAttributeLength : Nat :=
    if currentClass.attributes.length > 0 then
      (currentClass.attributes.map (fun a => (renderAttribute a).length)).foldl max 0
    else 0
  let maxMethodLength : Nat :=
    if currentClass.methods.length > 0 then
      (currentClass.methods.map (fun m => (renderMethod m).length)).foldl max 0
    else 0
  let maxContentLength := max currentClass.className.length (max maxAttributeLength maxMethodLength)
  let calculatedWidth : ℚ := max 200 (min 400 ((maxContentLength : ℚ) * 8 + 40))
  { currentClass with width := calculatedWidth, height := height }

/-- `[paramName, paramType] = p.trim().split(':').map(s => s.trim())` with the
`|| ''` / `|| 'void'` fallbacks; the whole parameter list is `[]` when the
captured group is the (falsy) empty string. -/
def parseParams (params : String) : List ClassParam :=
  if params = "" then []
  else (params.splitOn ",").map (fun p =>
    let parts := (p.trim.splitOn ":").map (·.trim)
    let paramName := parts.getD 0 ""
    let paramType := parts.getD 1 ""
    { name := paramName, type := if paramType = "" then "void" else paramType })

/-- Loop state of the class parser's line loop.  `aliasCount` models the
JavaScript aliasing of `nodes.push({...currentClass, width, height})`: the
shallow copy shares its `data` object (class name, attributes, methods) with
`currentClass`, so while one class object is live every copy of it already
pushed still sees later member pushes.  While a class object is live the only
pushes are finishes of that same object (one per `class ` line whose header
fails the regex), so those still-aliased copies are exactly the trailing
`aliasCount` entries of `nodes`. -/
structure LoopState (α : Type) where
  nodes : List (DNode α)
  pending : List (α × String)
  currentClass : Option (DNode α)
  aliasCount : Nat
  yPosition : ℚ
  k : Nat

/-- Pushing a member into the live class's shared `data`: the trailing
`aliasCount` nodes of `nodes` hold the same payload object, so they receive
the member too — while their width and height, plain fields frozen by the
shallow copy at finish time, stay as they were. -/
def pushSharedMember (upd : DNode α → DNode α) (aliasCount : Nat)
    (nodes : List (DNode α)) : List (DNode α) :=
  nodes.take (nodes.length - aliasCount) ++
    (nodes.drop (nodes.length - aliasCount)).map upd

/-- One iteration of the class parser's `for (const line of lines)` loop.
Source quirks kept faithfully: a `class ` line whose header fails the regex
leaves `currentClass` pointing at the (already finished and pushed) previous
class object, whose `data` the pushed copy shares — so member lines arriving
after such a header mutate the payload of the already-pushed node (via
`pushSharedMember`) without recomputing its frozen width and height; and
member lines are silently dropped when their regex fails. -/
def stepLine (σ : Nat → α) (s : LoopState α) (line : String) : LoopState α :=
  if line.startsWith "class " then
    let s₁ :=
      match s.currentClass with
      | some c =>
        { s with
          nodes := s.nodes ++ [finishCurrentClass c]
          aliasCount := s.aliasCount + 1
          yPosition := s.yPosition + 200 }
      | none => s
    match TextMatch.matchClassDecl line with
    | some (className, parentClass) =>
      let newClass : DNode α :=
        { id := σ s₁.k
          type := "class"
          x := 100 + ((s₁.nodes.length % 3 : Nat) : ℚ) * 300
          y := s₁.yPosition
          width := 200
          height := 120
          label := className
          className := className }
      { s₁ with
        currentClass := some newClass
        aliasCount := 0
        k := s₁.k + 1
        pending := s₁.pending ++ (match parentClass with
          | some p => [(newClass.id, p)]
          | none => []) }
    | none => s₁
  else if s.currentClass.isSome ∧
      (line.startsWith "-" ∨ line.startsWith "+" ∨ line.startsWith "#") then
    match s.currentClass with
    | none => s
    | some c =>
      let visibility :=
        if line.startsWith "+" then "public"
        else if line.startsWith "-" then "private" else "protected"
      let content := (line.drop 1).trim
      if hasSub content "(" then
        match TextMatch.matchMethod content with
        | some (name, params, returnType) =>
          let m : ClassMethod :=
            { name := name
              returnType := returnType
              visibility := visibility
              parameters := parseParams params }
          { s with
            currentClass := some { c with methods := c.methods ++ [m] }
            nodes := pushSharedMember (fun n => { n with methods := n.methods ++ [m] })
              s.aliasCount s.nodes }
        | none => s
      else
        match TextMatch.matchAttribute content with
        | some (name, ty) =>
          let a : ClassAttribute := { name := name, type := ty, visibility := visibility }
          { s with
            currentClass := some { c with attributes := c.attributes ++ [a] }
            nodes := pushSharedMember (fun n => { n with attributes := n.attributes ++ [a] })
              s.aliasCount s.nodes }
        | none => s
  else if line = "\x7d" ∧ s.currentClass.isSome then
    match s.currentClass with
    | some c =>
      { s with
        nodes := s.nodes ++ [finishCurrentClass c]
        currentClass := none
        aliasCount := 0
        yPosition := s.yPosition + 200 }
    | none => s
  else s

/-- The parse loop over all lines, the trailing finish, and the second-pass
inheritance resolution (`new Map(nodes.map(n => [n.data.className, n]))`,
where a duplicate class name keeps the last node, then one `inheritance` edge
per pending record whose parent name resolves). -/
def parseCore (σ : Nat → α) (input : String) :
    List (DNode α) × List (DEdge α) :=
  let s := (trimmedLines input).foldl (stepLine σ)
    { nodes := [], pending := [], currentClass := none, aliasCount := 0, yPosition := 50, k := 0 }
  let nodes :=
    match s.currentClass with
    | some c => s.nodes ++ [finishCurrentClass c]
    | none => s.nodes
  let resolved := s.pending.foldl
    (fun (acc : List (DEdge α) × Nat) rel =>
      match nodes.reverse.find? (fun n => n.className = rel.2) with
      | some parentNode =>
        (acc.1 ++ [{ id := σ acc.2, efrom := rel.1, eto := parentNode.id,
                     type := "inheritance", label := "extends" }], acc.2 + 1)
      | none => acc)
    ([], s.k)
  (nodes, resolved.1)

/-- `parseClassDiagram`: parse, resolve inheritance, lay out hierarchically
(overlap-fix options `250/200/300/250`, top-down).  The caught `TypeError` of
the zero-class run surfaces as the error result. -/
def parseClassDiagram (σ : Nat → α) (input : String) : ParserResult α :=
  let parsed := parseCore σ input
  match Layout.LayoutV2.positionNodesHierarchically parsed.1 parsed.2
      { nodeWidth := some 250, nodeHeight := some 200,
        horizontalSpacing := some 300, verticalSpacing := some 250,
        layoutDirection := some "top-down" } with
  | some layoutNodes => .ok { nodes := layoutNodes, edges := parsed.2, title := "Class Diagram" }
  | none => .err undefinedIdError

end ClassParser

namespace SequenceParser

/-! ## `sequenceDiagramParser.ts` -/

variable {α : Type} [DecidableEq α]

/-- A parsed message before edge construction. -/
structure SeqMessage (α : Type) where
  id : α
  mfrom : String
  mto : String
  message : String
  mtype : String
deriving DecidableEq, Repr

/-- Insert into the actor set, keeping first-appearance order. -/
def addActor (actors : List String) (a : String) : List String :=
  if actors.contains a then actors else actors ++ [a]

/-- Message-extraction loop: actors in first-appearance order, one message
(with a fresh id) per matching line; `->` is sync, `-->` is async. -/
def extractMessages (σ : Nat → α) (lines : List String) :
    List String × List (SeqMessage α) × Nat :=
  lines.foldl
    (fun (acc : List String × List (SeqMessage α) × Nat) line =>
      match TextMatch.matchSequenceLine line with
      | some (fromName, arrow, toName, message) =>
        let (actors, messages, k) := acc
        (addActor (addActor actors fromName) toName,
         messages ++ [{ id := σ k, mfrom := fromName, mto := toName,
                        message := message,
                        mtype := if arrow = "->" then "sync" else "async" }],
         k + 1)
      | none => acc)
    ([], [], 0)

/-- `parseSequenceDiagram`.  The id supply continues after the message ids for
the actor-node ids, matching the source's `generateId` call order; `e0` is
the empty-string id of the `fromNode?.id || ''` fallback (which fires exactly
when an endpoint has no actor node). -/
def parseSequenceDiagram (σ : Nat → α) (e0 : α) (input : String) : ParserResult α :=
  let (actors, messages, k) := extractMessages σ (trimmedLines input)
  let nodes := actors.enum.map (fun (index, actor) =>
    ({ id := σ (k + index)
       type := "actor"
       x := 100 + (index : ℚ) * 200
       y := 50
       width := 100
       height := 60
       label := actor
       name := actor } : DNode α))
  let edges := messages.enum.map (fun (index, msg) =>
    let fromNode := nodes.find? (fun n => n.label = msg.mfrom)
    let toNode := nodes.find? (fun n => n.label = msg.mto)
    ({ id := msg.id
       efrom := match fromNode with | some n => n.id | none => e0
       eto := match toNode with | some n => n.id | none => e0
       label := msg.message
       type := msg.mtype
       order := index } : DEdge α))
  let layoutNodes := Layout.positionSequenceNodes nodes
  .ok { nodes := layoutNodes, edges := edges, title := "Sequence Diagram" }

end SequenceParser

namespace FlowParser

/-! ## `flowDiagramParser.ts` with its private layered layout -/

variable {α : Type} [DecidableEq α]

/-- `getNodeType`: shape inferred from a substring of the lowercased name. -/
def getNodeType (nodeName : String) : String :=
  if TextMatch.containsSub nodeName "start" then "start"
  else if TextMatch.containsSub nodeName "end" then "end"
  else if TextMatch.containsSub nodeName "decision" then "decision"
  else "process"

/-- Look up or create the node for a name; fresh nodes get the next id. -/
def ensureNode (σ : Nat → α) (nodeMap : List (String × DNode α)) (k : Nat)
    (nm : String) : List (String × DNode α) × DNode α × Nat :=
  match nodeMap.lookup nm with
  | some n => (nodeMap, n, k)
  | none =>
    let n : DNode α := { id := σ k, name := nm, type := getNodeType nm, label := nm }
    (nodeMap ++ [(nm, n)], n, k + 1)

/-- Node/edge extraction loop of `parseFlowDiagram`: create missing endpoint
nodes, then the edge (ids in source call order). -/
def extractFlow (σ : Nat → α) (lines : List String) :
    List (String × DNode α) × List (DEdge α) × Nat :=
  lines.foldl
    (fun (acc : List (String × DNode α) × List (DEdge α) × Nat) line =>
      match TextMatch.matchFlowLine line with
      | some (fromName, toName, label) =>
        let (nodeMap, edges, k) := acc
        let (nodeMap, fromNode, k) := ensureNode σ nodeMap k fromName
        let (nodeMap, toNode, k) := ensureNode σ nodeMap k toName
        (nodeMap,
         edges ++ [{ id := σ k, efrom := fromNode.id, eto := toNode.id,
                     label := label.getD "" }],
         k + 1)
      | none => acc)
    ([], [], 0)

/-- `nodeToLayer.get(id) || 0`. -/
def layerOrZero (nodeToLayer : List (α × Nat)) (id : α) : Nat :=
  (nodeToLayer.lookup id).getD 0

/-- JavaScript `Map.set`: replace an existing binding or append a new one. -/
def setAssoc (l : List (α × Nat)) (key : α) (v : Nat) : List (α × Nat) :=
  if (l.lookup key).isSome then
    l.map (fun kv => if kv.1 = key then (key, v) else kv)
  else l ++ [(key, v)]

/-- The flow parser's modified BFS: `end`-typed children jump two layers. -/
def flowBfs (nodes : List (DNode α)) (edges : List (DEdge α)) :
    Nat → List (DNode α × Nat) → List (List (DNode α)) → List α → List (α × Nat) →
    List (List (DNode α)) × List α × List (α × Nat)
  | 0, _, layers, visited, nodeToLayer => (layers, visited, nodeToLayer)
  | _ + 1, [], layers, visited, nodeToLayer => (layers, visited, nodeToLayer)
  | fuel + 1, (node, layer) :: queue, layers, visited, nodeToLayer =>
    if visited.contains node.id then
      flowBfs nodes edges fuel queue layers visited nodeToLayer
    else
      let visited := visited ++ [node.id]
      let layers := layers ++ List.replicate (layer + 1 - layers.length) []
      let layers := layers.set layer (layers.getD layer [] ++ [node])
      let nodeToLayer := setAssoc nodeToLayer node.id layer
      let enqueued := (Layout.adjacencyOf edges node.id).foldl
        (fun acc childId =>
          match nodes.find? (fun n => n.id = childId) with
          | some childNode =>
            if visited.contains childId then acc
            else acc ++ [(childNode, if childNode.type == "end" then layer + 2 else layer + 1)]
          | none => acc)
        []
      flowBfs nodes edges fuel (queue ++ enqueued) layers visited nodeToLayer

/-- One step of `consolidateEndNodes`: drop the end node's first occurrence
from its current layer (`indexOf` + `splice(index, 1)`) and append it to the
deepest end layer unless it is already there. -/
def consolidateStep (maxEndLayer : Nat)
    (acc : List (List (DNode α)) × List (α × Nat)) (endNode : DNode α) :
    List (List (DNode α)) × List (α × Nat) :=
  let (layers, nodeToLayer) := acc
  let currentLayer := layerOrZero nodeToLayer endNode.id
  if currentLayer < maxEndLayer then
    let layers := layers.set currentLayer ((layers.getD currentLayer []).erase endNode)
    if (layers.getD maxEndLayer []).contains endNode then (layers, nodeToLayer)
    else
      (layers.set maxEndLayer (layers.getD maxEndLayer [] ++ [endNode]),
       setAssoc nodeToLayer endNode.id maxEndLayer)
  else acc

/-- `consolidateEndNodes`: migrate every end node into the deepest layer that
holds one, removing it from its earlier layer. -/
def consolidateEndNodes (layers : List (List (DNode α)))
    (nodeToLayer : List (α × Nat)) (endNodes : List (DNode α)) :
    List (List (DNode α)) × List (α × Nat) :=
  if endNodes.length ≤ 1 then (layers, nodeToLayer)
  else
    let maxEndLayer := endNodes.foldl (fun m en => max m (layerOrZero nodeToLayer en.id)) 0
    endNodes.foldl (consolidateStep maxEndLayer) (layers, nodeToLayer)

/-- One step of the flow layout's unreached-node pass: unreached nodes go to
the last layer (an empty layer list first becomes `[[]]`). -/
def flowUnvisitedStep (visited : List α) (layers : List (List (DNode α)))
    (node : DNode α) : List (List (DNode α)) :=
  if visited.contains node.id then layers
  else
    let layers := if layers.isEmpty then [[]] else layers
    layers.set (layers.length - 1) (layers.getD (layers.length - 1) [] ++ [node])

/-- Layer assignment of the flow parser's `positionNodesHierarchically`:
BFS from the roots, append the unreached nodes to the last layer, then
consolidate the end nodes. -/
def flowLayers (nodeArray : List (DNode α)) (edges : List (DEdge α)) :
    List (List (DNode α)) :=
  let rootNodes := nodeArray.filter
    (fun n => (Layout.incomingOf edges n.id).isEmpty || n.type == "start")
  let endNodes := nodeArray.filter
    (fun n => (Layout.adjacencyOf edges n.id).isEmpty || n.type == "end")
  let rootNodes := if rootNodes.isEmpty then nodeArray.take 1 else rootNodes
  let (layers, visited, nodeToLayer) :=
    flowBfs nodeArray edges (Layout.bfsFuel nodeArray edges)
      (rootNodes.map (fun n => (n, 0))) [] [] []
  let layers := nodeArray.foldl (flowUnvisitedStep visited) layers
  (consolidateEndNodes layers nodeToLayer endNodes).1

/-- Positioning pass of the flow parser's layout: 140px layer height,
160px (or 128px for crowded layers) node spacing centered around x = 200,
type-specific sizes, and x clamped to `[100, 500 - width]` for the circular
start/end shapes. -/
def placeFlowLayers (layers : List (List (DNode α))) : List (DNode α) :=
  layers.enum.flatMap (fun (layerIndex, layerNodes) =>
    let y : ℚ := 80 + (layerIndex : ℚ) * 140
    let nodeSpacing : ℚ := if layerNodes.length > 3 then 128 else 160
    let totalWidth := ((layerNodes.length : ℚ) - 1) * nodeSpacing
    let startX := 200 - totalWidth / 2
    layerNodes.enum.map (fun (nodeIndex, node) =>
      let x : ℚ := if layerNodes.length = 1 then 200
                   else startX + (nodeIndex : ℚ) * nodeSpacing
      if node.type == "decision" then
        { node with x := x, y := y, width := 100, height := 80 }
      else if node.type == "start" || node.type == "end" then
        let w : ℚ := 100
        let x := if x < 100 then 100 else x
        let x := if x + w > 500 then 500 - w else x
        { node with x := x, y := y, width := w, height := 50 }
      else
        { node with x := x, y := y, width := 120, height := 60 }))

/-- The flow parser's private `positionNodesHierarchically`; `none` models
the `TypeError` thrown on an empty node array. -/
def positionNodesHierarchically (nodeArray : List (DNode α)) (edges : List (DEdge α)) :
    Option (List (DNode α)) :=
  if nodeArray.isEmpty then none
  else some (placeFlowLayers (flowLayers nodeArray edges))

/-- `parseFlowDiagram`. -/
def parseFlowDiagram (σ : Nat → α) (input : String) : ParserResult α :=
  let (nodeMap, edges, _) := extractFlow σ (trimmedLines input)
  let nodeArray := nodeMap.map (·.2)
  match positionNodesHierarchically nodeArray edges with
  | some layeredNodes => .ok { nodes := layeredNodes, edges := edges, title := "Flow Diagram" }
  | none => .err undefinedIdError

end FlowParser

namespace UsecaseParser

/-! ## `usecaseDiagramParser.ts` (the barycenter revision)

Of the two use-case parser revisions in the repository this is the later one:
use-cases in a vertical column, each actor vertically centered on the mean
center-Y of its connected use-cases, unconnected actors stacked. -/

variable {α : Type} [DecidableEq α]

/-- Extraction loop: `actor Name` lines append actors; `Actor -> (Use Case)`
lines find-or-create the use-case by label and add an edge when the actor
name resolves. -/
def extractUsecase (σ : Nat → α) (lines : List String) :
    List (DNode α) × List (DNode α) × List (DEdge α) × Nat :=
  lines.foldl
    (fun (acc : List (DNode α) × List (DNode α) × List (DEdge α) × Nat) line =>
      let (actors, usecases, edges, k) := acc
      if line.startsWith "actor " then
        let actorName := (line.drop "actor ".length).trim
        (actors ++ [{ id := σ k, type := "actor", label := actorName, name := actorName }],
         usecases, edges, k + 1)
      else if hasSub line " -> (" ∧ hasSub line ")" then
        match TextMatch.matchUsecaseLine line with
        | some (actorName, usecaseName) =>
          let (usecase, usecases, k) :=
            match usecases.find? (fun u => u.label = usecaseName) with
            | some u => (u, usecases, k)
            | none =>
              let u : DNode α :=
                { id := σ k, type := "usecase", label := usecaseName, name := usecaseName }
              (u, usecases ++ [u], k + 1)
          match actors.find? (fun a => a.name = actorName) with
          | some actor =>
            (actors, usecases,
             edges ++ [{ id := σ k, efrom := actor.id, eto := usecase.id, label := "" }],
             k + 1)
          | none => (actors, usecases, edges, k)
        | none => acc
      else acc)
    ([], [], [], 0)

/-- `parseUsecaseDiagram`. -/
def parseUsecaseDiagram (σ : Nat → α) (input : String) : ParserResult α :=
  let (actors, usecases, edges, _) := extractUsecase σ (trimmedLines input)
  let positionedUsecases := usecases.enum.map (fun (index, usecase) =>
    { usecase with
      x := 350
      y := 100 + (index : ℚ) * 120
      width := max 160 ((usecase.label.length : ℚ) * 12)
      height := 80 })
  let positionedActors := (actors.foldl
    (fun (acc : List (DNode α) × Nat) actor =>
      let (done, actorIndex) := acc
      let connectedUsecases := (edges.filter (fun e => e.efrom = actor.id)).filterMap
        (fun e => positionedUsecases.find? (fun uc => uc.id = e.eto))
      if connectedUsecases.length > 0 then
        let avgY := (connectedUsecases.foldl (fun sum uc => sum + uc.y + uc.height / 2) 0) /
          (connectedUsecases.length : ℚ)
        (done ++ [{ actor with
                    x := 100
                    y := avgY - 60
                    width := 100
                    height := 120 }],
         actorIndex)
      else
        (done ++ [{ actor with
                    x := 100
                    y := 100 + (actorIndex : ℚ) * 150
                    width := 100
                    height := 120 }],
         actorIndex + 1))
    ([], 0)).1
  .ok { nodes := positionedActors ++ positionedUsecases, edges := edges,
        title := "Use Case Diagram" }

end UsecaseParser

namespace MindmapParser

/-! ## `mindmapParser.ts` -/

variable {α : Type} [DecidableEq α]

/-- `getIndentLevel`: `floor(leadingWhitespace / 2)`. -/
def getIndentLevel (line : String) : Nat :=
  (line.toList.takeWhile Char.isWhitespace).length / 2

/-- Loop state: built nodes and edges, the open-ancestor stack (head is the
top of the source's array stack), and the id counter. -/
structure LoopState (α : Type) where
  nodes : List (DNode α)
  edges : List (DEdge α)
  stack : List (DNode α × Nat)
  k : Nat

/-- One iteration of the mindmap line loop: skip blank/comment lines; build
the node (type by level, width from the label length); pop open ancestors at
the same or deeper level; attach to the new stack top if any. -/
def stepLine (σ : Nat → α) (s : LoopState α) (rawLine : String) : LoopState α :=
  let level := getIndentLevel rawLine
  let text := rawLine.trim
  if text = "" ∨ text.startsWith "//" then s
  else
    let node : DNode α :=
      { id := σ s.k
        type := if level = 0 then "root" else if level = 1 then "branch" else "leaf"
        label := text
        level := level
        x := 0
        y := 0
        width := max 120 ((text.length : ℚ) * 7)
        height := if level = 0 then 50 else if level = 1 then 45 else 35 }
    let k := s.k + 1
    let stack := s.stack.dropWhile (fun entry => entry.2 ≥ level)
    let (edges, k) :=
      match stack.head? with
      | some (parent, _) =>
        (s.edges ++ [{ id := σ k, efrom := parent.id, eto := node.id, label := "" }], k + 1)
      | none => (s.edges, k)
    { nodes := s.nodes ++ [node], edges := edges, stack := (node, level) :: stack, k := k }

/-- The raw-line loop of `parseMindmapDiagram` (raw lines keep indentation). -/
def parseLines (σ : Nat → α) (input : String) : List (DNode α) × List (DEdge α) :=
  let s := (input.splitOn "\n").foldl (stepLine σ)
    { nodes := [], edges := [], stack := [], k := 0 }
  (s.nodes, s.edges)

/-- `parseMindmapDiagram`: error on zero usable lines, on nodes with falsy
ids (`e0` is the falsy id, the empty string in a real run), or on an empty
layout; otherwise the dual-tree layout of the parsed outline. -/
def parseMindmapDiagram (σ : Nat → α) (e0 : α) (input : String) : ParserResult α :=
  let (nodes, edges) := parseLines σ input
  if nodes.isEmpty then
    .err "No valid nodes found in mindmap input"
  else
    let nodesWithoutIds := nodes.filter (fun n => n.id = e0)
    if nodesWithoutIds.length > 0 then
      .err ("Found " ++ toString nodesWithoutIds.length ++ " nodes without IDs")
    else
      let layoutNodes := Layout.positionMindmapNodesTree nodes edges
      if layoutNodes.isEmpty then
        .err "Layout positioning failed - no nodes positioned"
      else
        .ok { nodes := layoutNodes, edges := edges, title := "Mind Map" }

end MindmapParser

/-! ## Result projections shared by the claim theorems -/

/-- The nodes of a parser result (empty for an error result). -/
def resultNodes {α : Type} : ParserResult α → List (DNode α)
  | .ok d => d.nodes
  | .err _ => []

/-- The edges of a parser result (empty for an error result). -/
def resultEdges {α : Type} : ParserResult α → List (DEdge α)
  | .ok d => d.edges
  | .err _ => []

/-- Whether a parser result is a success. -/
def isSuccess {α : Type} : ParserResult α → Bool
  | .ok _ => true
  | .err _ => false

/-- The diagram of a successful result (an empty diagram for an error). -/
def resultDiagram {α : Type} : ParserResult α → Diagram α
  | .ok d => d
  | .err _ => { nodes := [], edges := [], title := "" }

/-- No dangling edge references: both endpoint ids of every edge belong to
some node of the same diagram. -/
def edgesResolved {α : Type} [DecidableEq α] (d : Diagram α) : Prop :=
  ∀ e ∈ d.edges, (∃ n ∈ d.nodes, n.id = e.efrom) ∧ (∃ n ∈ d.nodes, n.id = e.eto)

instance {α : Type} [DecidableEq α] (d : Diagram α) : Decidable (edgesResolved d) := by
  unfold edgesResolved
  infer_instance

/-- Rename the ids of a node (all other fields kept). -/
def mapNode {α β : Type} (f : α → β) (n : DNode α) : DNode β :=
  { id := f n.id
    type := n.type
    label := n.label
    x := n.x
    y := n.y
    width := n.width
    height := n.height
    name := n.name
    level := n.level
    className := n.className
    attributes := n.attributes
    methods := n.methods }

/-- Rename the ids of an edge. -/
def mapEdge {α β : Type} (f : α → β) (e : DEdge α) : DEdge β :=
  { id := f e.id
    efrom := f e.efrom
    eto := f e.eto
    label := e.label
    type := e.type
    order := e.order }

/-- Rename all ids of a diagram. -/
def mapDiagram {α β : Type} (f : α → β) (d : Diagram α) : Diagram β :=
  { nodes := d.nodes.map (mapNode f)
    edges := d.edges.map (mapEdge f)
    title := d.title }

/-- Rename all ids of a parser result. -/
def mapResult {α β : Type} (f : α → β) : ParserResult α → ParserResult β
  | .ok d => .ok (mapDiagram f d)
  | .err e => .err e

/-- The id-free observables of a node: type, label, geometry and payload. -/
def nodeObs {α : Type} (n : DNode α) :
    String × String × ℚ × ℚ × ℚ × ℚ × String × Nat × String ×
      List ClassAttribute × List ClassMethod :=
  (n.type, n.label, n.x, n.y, n.width, n.height, n.name, n.level, n.className,
    n.attributes, n.methods)

/-- The id-free observables of an edge. -/
def edgeObs {α : Type} (e : DEdge α) : String × String × Nat :=
  (e.label, e.type, e.order)

/-- The id-free observables of a parser result: the success flag, the node
observables and the edge observables, in order. -/
def resultObs {α : Type} (r : ParserResult α) :
    Bool × List (String × String × ℚ × ℚ × ℚ × ℚ × String × Nat × String ×
      List ClassAttribute × List ClassMethod) × List (String × String × Nat) :=
  (isSuccess r, (resultNodes r).map nodeObs, (resultEdges r).map edgeObs)

/-- The canonical id supply used for concrete runs: the k-th `generateId`
call returns `k + 1` (never the falsy id `0`). -/
def idSupply : Nat → Nat := Nat.succ

set_option maxRecDepth 8000
set_option maxHeartbeats 2000000
set_option linter.unnecessarySeqFocus false

/-- C3 evaluation: the base `layoutUtils.ts` variant of
`positionNodesHierarchically` replaces a node's parser-computed
999×888 dimensions with the default 120×60, while the overlap-fix variant
(the behaviour the repository's fix document specifies) preserves them; both
place the single-node layer at (350, 100). -/
theorem layout_v1_overwrites_v2_preserves :
    Layout.LayoutV1.positionNodesHierarchically
        [{ id := 1, label := "A", width := 999, height := 888 }] ([] : List (DEdge Nat)) {} =
      some [{ id := 1, label := "A", x := 350, y := 100, width := 120, height := 60 }] ∧
    Layout.LayoutV2.positionNodesHierarchically
        [{ id := 1, label := "A", width := 999, height := 888 }] ([] : List (DEdge Nat)) {} =
      some [{ id := 1, label := "A", x := 350, y := 100, width := 999, height := 888 }] := by
  constructor <;> with_unfolding_all decide

/-- C6: inheritance is resolved in a second pass.  On `class A{}` followed by
`class B extends A{}` the parser emits exactly two class nodes and one
`inheritance` edge from B's node to A's node; the same holds when B's block
precedes A's declaration; an `extends` naming an undeclared class produces
two nodes and no edge. -/
theorem class_inheritance_second_pass :
    (isSuccess (ClassParser.parseClassDiagram idSupply "class A\x7b\x7d\nclass B extends A\x7b\x7d") = true ∧
     (resultNodes (ClassParser.parseClassDiagram idSupply "class A\x7b\x7d\nclass B extends A\x7b\x7d")).length = 2 ∧
     ((resultNodes (ClassParser.parseClassDiagram idSupply "class A\x7b\x7d\nclass B extends A\x7b\x7d")).all
        (fun n => n.type == "class")) = true ∧
     ((resultNodes (ClassParser.parseClassDiagram idSupply "class A\x7b\x7d\nclass B extends A\x7b\x7d")).find?
        (fun n => n.label == "B")).map (·.id) = some 2 ∧
     ((resultNodes (ClassParser.parseClassDiagram idSupply "class A\x7b\x7d\nclass B extends A\x7b\x7d")).find?
        (fun n => n.label == "A")).map (·.id) = some 1 ∧
     (resultEdges (ClassParser.parseClassDiagram idSupply "class A\x7b\x7d\nclass B extends A\x7b\x7d")).map
        (fun e => (e.type, e.efrom, e.eto)) = [("inheritance", 2, 1)]) ∧
    (isSuccess (ClassParser.parseClassDiagram idSupply "class B extends A\x7b\x7d\nclass A\x7b\x7d") = true ∧
     (resultNodes (ClassParser.parseClassDiagram idSupply "class B extends A\x7b\x7d\nclass A\x7b\x7d")).length = 2 ∧
     ((resultNodes (ClassParser.parseClassDiagram idSupply "class B extends A\x7b\x7d\nclass A\x7b\x7d")).find?
        (fun n => n.label == "B")).map (·.id) = some 1 ∧
     ((resultNodes (ClassParser.parseClassDiagram idSupply "class B extends A\x7b\x7d\nclass A\x7b\x7d")).find?
        (fun n => n.label == "A")).map (·.id) = some 2 ∧
     (resultEdges (ClassParser.parseClassDiagram idSupply "class B extends A\x7b\x7d\nclass A\x7b\x7d")).map
        (fun e => (e.type, e.efrom, e.eto)) = [("inheritance", 1, 2)]) ∧
    ((resultNodes (ClassParser.parseClassDiagram idSupply "class B extends Z\x7b\x7d\nclass A\x7b\x7d")).length = 2 ∧
     resultEdges (ClassParser.parseClassDiagram idSupply "class B extends Z\x7b\x7d\nclass A\x7b\x7d") = []) := by
  refine ⟨⟨?_, ?_, ?_, ?_, ?_, ?_⟩, ⟨?_, ?_, ?_, ?_, ?_⟩, ?_, ?_⟩ <;> with_unfolding_all decide

namespace EdgeGeo

/-- The four side midpoints of a node's derived rectangle; for a diamond they
are exactly the four diamond vertices. -/
def sideMidpoints (n : NodeBounds) : List Point :=
  [⟨((rectOf n).left + (rectOf n).right) / 2, (rectOf n).top⟩,
   ⟨((rectOf n).left + (rectOf n).right) / 2, (rectOf n).bottom⟩,
   ⟨(rectOf n).left, ((rectOf n).top + (rectOf n).bottom) / 2⟩,
   ⟨(rectOf n).right, ((rectOf n).top + (rectOf n).bottom) / 2⟩]

/-- A point on the border of a node's derived rectangle. -/
def onBorder (n : NodeBounds) (p : Point) : Prop :=
  ((p.x = (rectOf n).left ∨ p.x = (rectOf n).right) ∧
    (rectOf n).top ≤ p.y ∧ p.y ≤ (rectOf n).bottom) ∨
  ((p.y = (rectOf n).top ∨ p.y = (rectOf n).bottom) ∧
    (rectOf n).left ≤ p.x ∧ p.x ≤ (rectOf n).right)

theorem rectOf_right (n : NodeBounds) : (rectOf n).right = (rectOf n).left + n.width := by
  unfold rectOf
  split_ifs <;> simp <;> try ring

theorem rectOf_bottom (n : NodeBounds) : (rectOf n).bottom = (rectOf n).top + n.height := by
  unfold rectOf
  split_ifs <;> simp <;> try ring

theorem centerOf_eq_rect_center (n : NodeBounds) :
    centerOf n = ⟨((rectOf n).left + (rectOf n).right) / 2,
                  ((rectOf n).top + (rectOf n).bottom) / 2⟩ := by
  unfold centerOf rectOf
  split_ifs <;> simp [Point.mk.injEq] <;> constructor <;> ring

theorem mem_sideMidpoints_onBorder {n : NodeBounds} {p : Point}
    (hp : p ∈ sideMidpoints n) (hw : 0 < n.width) (hh : 0 < n.height) :
    onBorder n p := by
  have hr := rectOf_right n
  have hb := rectOf_bottom n
  simp only [sideMidpoints, List.mem_cons, List.not_mem_nil, or_false] at hp
  unfold onBorder
  rcases hp with h | h | h | h <;> subst h
  · exact Or.inr ⟨Or.inl rfl, ⟨by linarith, by linarith⟩⟩
  · exact Or.inr ⟨Or.inr rfl, ⟨by linarith, by linarith⟩⟩
  · exact Or.inl ⟨Or.inl rfl, ⟨by linarith, by linarith⟩⟩
  · exact Or.inl ⟨Or.inr rfl, ⟨by linarith, by linarith⟩⟩

theorem getNodeConnectionPoint_mem (node targetNode : NodeBounds) :
    getNodeConnectionPoint node targetNode ∈ sideMidpoints node := by
  have hc := centerOf_eq_rect_center node
  unfold getNodeConnectionPoint getDiamondConnectionPoint
  simp only [sideMidpoints, List.mem_cons, List.mem_singleton, List.not_mem_nil, or_false]
  split_ifs <;>
    simp_all [rectOf, isCenterType, centerOf, Point.mk.injEq]

theorem getTargetConnectionPoint_mem (node fromNode : NodeBounds) :
    getTargetConnectionPoint node fromNode ∈ sideMidpoints node := by
  have hc := centerOf_eq_rect_center node
  unfold getTargetConnectionPoint getDiamondTargetConnectionPoint
  simp only [sideMidpoints, List.mem_cons, List.mem_singleton, List.not_mem_nil, or_false]
  split_ifs <;>
    simp_all [rectOf, isCenterType, centerOf, Point.mk.injEq]

end EdgeGeo

/-- C9: for nodes with positive dimensions, `getNodeConnectionPoint` and
`getTargetConnectionPoint` return one of the four side midpoints of the
first node's derived rectangle (center-anchored for `root`/`branch`/`leaf`
types, top-left-anchored otherwise; for `decision` nodes these four points
are the diamond vertices), and that point lies on the rectangle's border. -/
theorem connection_points_on_border (node other : EdgeGeo.NodeBounds)
    (hw : 0 < node.width) (hh : 0 < node.height) :
    (EdgeGeo.getNodeConnectionPoint node other ∈ EdgeGeo.sideMidpoints node ∧
     EdgeGeo.onBorder node (EdgeGeo.getNodeConnectionPoint node other)) ∧
    (EdgeGeo.getTargetConnectionPoint node other ∈ EdgeGeo.sideMidpoints node ∧
     EdgeGeo.onBorder node (EdgeGeo.getTargetConnectionPoint node other)) := by
  refine ⟨⟨EdgeGeo.getNodeConnectionPoint_mem node other, ?_⟩,
          ⟨EdgeGeo.getTargetConnectionPoint_mem node other, ?_⟩⟩
  · exact EdgeGeo.mem_sideMidpoints_onBorder (EdgeGeo.getNodeConnectionPoint_mem node other) hw hh
  · exact EdgeGeo.mem_sideMidpoints_onBorder (EdgeGeo.getTargetConnectionPoint_mem node other) hw hh

/-- C9 witness: the theorem applied to a concrete decision source node and a
plain target node. -/
theorem connection_points_on_border_witness :
    (0 : ℚ) < 100 ∧ (0 : ℚ) < 80 ∧
    ((EdgeGeo.getNodeConnectionPoint ⟨50, 50, 100, 80, "decision"⟩ ⟨50, 300, 120, 60, ""⟩ ∈
        EdgeGeo.sideMidpoints ⟨50, 50, 100, 80, "decision"⟩ ∧
      EdgeGeo.onBorder ⟨50, 50, 100, 80, "decision"⟩
        (EdgeGeo.getNodeConnectionPoint ⟨50, 50, 100, 80, "decision"⟩ ⟨50, 300, 120, 60, ""⟩)) ∧
     (EdgeGeo.getTargetConnectionPoint ⟨50, 50, 100, 80, "decision"⟩ ⟨50, 300, 120, 60, ""⟩ ∈
        EdgeGeo.sideMidpoints ⟨50, 50, 100, 80, "decision"⟩ ∧
      EdgeGeo.onBorder ⟨50, 50, 100, 80, "decision"⟩
        (EdgeGeo.getTargetConnectionPoint ⟨50, 50, 100, 80, "decision"⟩ ⟨50, 300, 120, 60, ""⟩))) :=
  ⟨by with_unfolding_all decide, by with_unfolding_all decide,
   connection_points_on_border ⟨50, 50, 100, 80, "decision"⟩ ⟨50, 300, 120, 60, ""⟩
     (by with_unfolding_all decide) (by with_unfolding_all decide)⟩

/-- Invariant preservation through a left fold. -/
theorem foldl_inv {β γ : Type} {P : β → Prop} (f : β → γ → β) (l : List γ) (init : β)
    (h0 : P init) (hstep : ∀ s x, x ∈ l → P s → P (f s x)) : P (l.foldl f init) := by
  induction l generalizing init with
  | nil => exact h0
  | cons x xs ih =>
    exact ih (f init x) (hstep init x (by simp) h0)
      (fun s y hy hs => hstep s y (by simp [hy]) hs)

namespace ClassParser

variable {α : Type}

/-- The node-size formulas in the words of the specification claim:
height `max(80, 30 + a·18 + (15 if a>0 and m>0) + m·18 + 30)`. -/
def specClassHeight (a m : Nat) : ℚ :=
  max 80 (30 + (a : ℚ) * 18 + (if 0 < a ∧ 0 < m then 15 else 0) + (m : ℚ) * 18 + 30)

/-- Width `max(200, min(400, 8·maxLabelLength + 40))` in the claim's words. -/
def specClassWidth (maxLabelLength : Nat) : ℚ :=
  max 200 (min 400 (8 * (maxLabelLength : ℚ) + 40))

/-- The length of the longest rendered label of a class node: class name,
rendered attribute lines, rendered method lines. -/
def specMaxLabelLength (n : DNode α) : Nat :=
  ((n.className :: (n.attributes.map renderAttribute ++ n.methods.map renderMethod)).map
    String.length).foldr max 0

theorem foldl_max_eq_foldr (xs : List Nat) (a : Nat) :
    xs.foldl max a = max a (xs.foldr max 0) := by
  induction xs generalizing a with
  | nil => simp
  | cons x xs ih =>
    simp only [List.foldl_cons, List.foldr_cons, ih (max a x)]
    omega

theorem foldr_max_append (xs ys : List Nat) :
    (xs ++ ys).foldr max 0 = max (xs.foldr max 0) (ys.foldr max 0) := by
  induction xs with
  | nil => simp
  | cons x xs ih => simp only [List.cons_append, List.foldr_cons, ih]; omega

/-- `finishCurrentClass` computes exactly the claimed height formula. -/
theorem finishCurrentClass_height (c : DNode α) :
    (finishCurrentClass c).height = specClassHeight c.attributes.length c.methods.length := by
  unfold finishCurrentClass specClassHeight
  by_cases h : c.attributes.length > 0 ∧ c.methods.length > 0 <;> simp [h]

/-- `finishCurrentClass` computes exactly the claimed width formula (the
longest of: class name, rendered attribute lines, rendered method lines). -/
theorem finishCurrentClass_width (c : DNode α) :
    (finishCurrentClass c).width = specClassWidth (specMaxLabelLength c) := by
  have hA : (if c.attributes.length > 0 then
        (c.attributes.map (fun a => (renderAttribute a).length)).foldl max 0 else 0)
      = ((c.attributes.map renderAttribute).map String.length).foldr max 0 := by
    rcases c.attributes with _ | ⟨a, as⟩ <;> simp [foldl_max_eq_foldr, Function.comp_def]
  have hM : (if c.methods.length > 0 then
        (c.methods.map (fun m => (renderMethod m).length)).foldl max 0 else 0)
      = ((c.methods.map renderMethod).map String.length).foldr max 0 := by
    rcases c.methods with _ | ⟨m, ms⟩ <;> simp [foldl_max_eq_foldr, Function.comp_def]
  unfold finishCurrentClass specClassWidth specMaxLabelLength
  simp only [hA, hM, List.map_cons, List.foldr_cons, List.map_append, foldr_max_append]
  ring_nf

/-- Finishing a class does not change its payload. -/
theorem finishCurrentClass_payload (c : DNode α) :
    (finishCurrentClass c).attributes = c.attributes ∧
    (finishCurrentClass c).methods = c.methods ∧
    (finishCurrentClass c).className = c.className := by
  unfold finishCurrentClass
  exact ⟨rfl, rfl, rfl⟩

end ClassParser

/-- Membership through `enum`. -/
theorem mem_of_mem_enum {β : Type} {l : List β} {i : Nat} {a : β}
    (h : (i, a) ∈ l.enum) : a ∈ l := by
  have h2 := List.mk_mem_enum_iff_getElem?.mp h
  have h3 : i < l.length := (List.getElem?_eq_some.mp h2).1
  have h4 : l[i] = a := (List.getElem?_eq_some.mp h2).2
  exact h4 ▸ l.getElem_mem h3

/-- `getD i []` is a member or the default. -/
theorem getD_mem_or_nil {β : Type} (l : List (List β)) (i : Nat) :
    l.getD i [] ∈ l ∨ l.getD i [] = [] := by
  rcases Nat.lt_or_ge i l.length with h | h
  · left
    rw [List.getD_eq_getElem l [] h]
    exact l.getElem_mem h
  · right
    unfold List.getD
    rw [List.get?_eq_none.mpr h]
    rfl

namespace Layout

variable {α : Type} [DecidableEq α]

theorem rootNodesOf_subset (nodes : List (DNode α)) (edges : List (DEdge α)) :
    ∀ n ∈ rootNodesOf nodes edges, n ∈ nodes := by
  intro n hn
  simp only [rootNodesOf] at hn
  split_ifs at hn
  · split at hn
    · rename_i c heq
      simp only [List.mem_singleton] at hn
      subst hn
      exact (List.mem_filter.mp (List.mem_of_mem_head? heq)).1
    · exact List.mem_of_mem_take hn
  · exact (List.mem_filter.mp hn).1

theorem bfsLoop_layers_subset (nodes : List (DNode α)) (edges : List (DEdge α)) :
    ∀ (fuel : Nat) (queue : List (DNode α × Nat)) (layers : List (List (DNode α)))
      (visited : List α),
      (∀ p ∈ queue, p.1 ∈ nodes) →
      (∀ L ∈ layers, ∀ n ∈ L, n ∈ nodes) →
      ∀ L ∈ (bfsLoop nodes edges fuel queue layers visited).1, ∀ n ∈ L, n ∈ nodes := by
  intro fuel
  induction fuel with
  | zero => intro queue layers visited _ hlay; simpa [bfsLoop] using hlay
  | succ fuel ih =>
    intro queue layers visited hq hlay
    match queue with
    | [] => simpa [bfsLoop] using hlay
    | (node, layer) :: queue =>
      have hnode : node ∈ nodes := hq (node, layer) (by simp)
      have hq' : ∀ p ∈ queue, p.1 ∈ nodes := fun p hp => hq p (by simp [hp])
      simp only [bfsLoop]
      by_cases hv : visited.contains node.id = true
      · rw [if_pos hv]
        exact ih queue layers visited hq' hlay
      · rw [if_neg hv]
        set visited' := visited ++ [node.id] with hvis
        set layers₁ := layers ++ List.replicate (layer + 1 - layers.length) [] with hl1
        set layers₂ := layers₁.set layer (layers₁.getD layer [] ++ [node]) with hl2
        have hlay₁ : ∀ L ∈ layers₁, ∀ n ∈ L, n ∈ nodes := by
          intro L hL
          rcases List.mem_append.mp hL with h | h
          · exact hlay L h
          · intro n hn
            rw [List.eq_of_mem_replicate h] at hn
            simp at hn
        have hlay₂ : ∀ L ∈ layers₂, ∀ n ∈ L, n ∈ nodes := by
          intro L hL
          rcases List.mem_or_eq_of_mem_set hL with h | h
          · exact hlay₁ L h
          · subst h
            intro n hn
            rcases List.mem_append.mp hn with h | h
            · rcases getD_mem_or_nil layers₁ layer with hg | hg
              · exact hlay₁ _ hg n h
              · rw [hg] at h; simp at h
            · simp only [List.mem_singleton] at h
              subst h; exact hnode
        refine ih _ layers₂ visited' (fun p hp => ?_) hlay₂
        rcases List.mem_append.mp hp with h | h
        · exact hq' p h
        · revert h
          apply foldl_inv (P := fun acc => p ∈ acc → p.1 ∈ nodes)
          · simp
          · intro acc childId _ hacc
            split
            · rename_i childNode hfind
              split_ifs with h
              · exact hacc
              · intro hp
                rcases List.mem_append.mp hp with h₂ | h₂
                · exact hacc h₂
                · simp only [List.mem_singleton] at h₂
                  subst h₂
                  exact List.mem_of_find?_eq_some hfind
            · exact hacc

theorem appendUnvisited_subset (nodes : List (DNode α)) (layers : List (List (DNode α)))
    (visited : List α)
    (hlay : ∀ L ∈ layers, ∀ n ∈ L, n ∈ nodes) :
    ∀ L ∈ appendUnvisited nodes layers visited, ∀ n ∈ L, n ∈ nodes := by
  unfold appendUnvisited
  apply foldl_inv (P := fun layers => ∀ L ∈ layers, ∀ n ∈ L, n ∈ nodes) _ _ _ hlay
  intro layers node hnode hlay'
  unfold unvisitedStep
  by_cases hv : visited.contains node.id = true
  · rw [if_pos hv]
    exact hlay'
  · rw [if_neg hv]
    intro L hL
    rcases List.mem_or_eq_of_mem_set hL with h | h
    · exact hlay' L h
    · subst h
      intro n hn
      rcases List.mem_append.mp hn with h | h
      · rcases getD_mem_or_nil layers (layers.length - 1) with hg | hg
        · exact hlay' _ hg n h
        · rw [hg] at h; simp at h
      · simp only [List.mem_singleton] at h
        subst h; exact hnode

/-- Every node in any layer of `layersOf` comes from the input node list. -/
theorem layersOf_subset (nodes : List (DNode α)) (edges : List (DEdge α)) :
    ∀ L ∈ layersOf nodes edges, ∀ n ∈ L, n ∈ nodes := by
  unfold layersOf
  apply appendUnvisited_subset
  apply bfsLoop_layers_subset
  · intro p hp
    rcases List.mem_map.mp hp with ⟨n, hn, rfl⟩
    exact rootNodesOf_subset nodes edges n hn
  · simp

omit [DecidableEq α] in
/-- Every output node of the overlap-fix positioning pass is an input node
with updated coordinates, its width and height filtered through
`node.width || nodeWidth`. -/
theorem LayoutV2.placeLayers_shape (layers : List (List (DNode α))) (o : LayoutOptions) :
    ∀ out ∈ LayoutV2.placeLayers layers o, ∃ L ∈ layers, ∃ n ∈ L, ∃ a b : ℚ,
      out = { n with
              x := a
              y := b
              width := orD n.width (o.nodeWidth.getD 120)
              height := orD n.height (o.nodeHeight.getD 60) } := by
  intro out hout
  unfold LayoutV2.placeLayers LayoutV2.placeRow at hout
  rcases List.mem_flatMap.mp hout with ⟨⟨li, L⟩, hL, hmem⟩
  rcases List.mem_map.mp hmem with ⟨⟨ni, node⟩, hn, rfl⟩
  refine ⟨L, mem_of_mem_enum hL, node, mem_of_mem_enum hn, ?_⟩
  by_cases hdir : (o.layoutDirection.getD "top-down") == "left-right" <;>
    simp only [hdir] <;> exact ⟨_, _, rfl⟩

end Layout

namespace ClassParser

variable {α : Type} [DecidableEq α]

omit [DecidableEq α] in
/-- With no aliased copies outstanding, a member push leaves the emitted
nodes alone. -/
theorem pushSharedMember_zero (upd : DNode α → DNode α) (nodes : List (DNode α)) :
    pushSharedMember upd 0 nodes = nodes := by
  simp [pushSharedMember]

omit [DecidableEq α] in
/-- On a line whose `class ` header (if any) parses, a loop step starting
with no aliased copies either keeps the node list or appends one finished
class, and again leaves no aliased copies. -/
theorem stepLine_nodes (σ : Nat → α) (s : LoopState α) (line : String)
    (hline : line.startsWith "class " = true →
      (TextMatch.matchClassDecl line).isSome = true)
    (ha : s.aliasCount = 0) :
    ((stepLine σ s line).nodes = s.nodes ∨
      ∃ c, (stepLine σ s line).nodes = s.nodes ++ [finishCurrentClass c]) ∧
    (stepLine σ s line).aliasCount = 0 := by
  unfold stepLine
  by_cases h1 : line.startsWith "class " = true
  · rw [if_pos h1]
    rcases hm : TextMatch.matchClassDecl line with _ | ⟨cn, par⟩
    · exact absurd (hline h1) (by simp [hm])
    · rcases hc : s.currentClass with _ | c
      · exact ⟨Or.inl rfl, rfl⟩
      · exact ⟨Or.inr ⟨c, rfl⟩, rfl⟩
  · rw [if_neg h1]
    by_cases h2 : s.currentClass.isSome = true ∧
        (line.startsWith "-" = true ∨ line.startsWith "+" = true ∨ line.startsWith "#" = true)
    · rw [if_pos h2]
      rcases hc : s.currentClass with _ | c
      · rw [hc] at h2; simp at h2
      · simp only [hc]
        split
        · split
          · exact ⟨Or.inl (by rw [show s.aliasCount = 0 from ha, pushSharedMember_zero]), ha⟩
          · exact ⟨Or.inl rfl, ha⟩
        · split
          · exact ⟨Or.inl (by rw [show s.aliasCount = 0 from ha, pushSharedMember_zero]), ha⟩
          · exact ⟨Or.inl rfl, ha⟩
    · rw [if_neg h2]
      by_cases h4 : line = "\x7d" ∧ s.currentClass.isSome = true
      · rw [if_pos h4]
        rcases hc : s.currentClass with _ | c
        · rw [hc] at h4; simp at h4
        · exact ⟨Or.inr ⟨c, rfl⟩, rfl⟩
      · rw [if_neg h4]
        exact ⟨Or.inl rfl, ha⟩

omit [DecidableEq α] in
/-- Every node emitted by the class parse loop is a finished class — provided
every `class ` line of the input parses as a class header, so that no member
line ever mutates an already-pushed node through the shared payload. -/
theorem parseCore_nodes_finished (σ : Nat → α) (input : String)
    (hinput : ∀ line ∈ trimmedLines input, line.startsWith "class " = true →
      (TextMatch.matchClassDecl line).isSome = true) :
    ∀ n ∈ (parseCore σ input).1, ∃ c, n = finishCurrentClass c := by
  unfold parseCore
  have hs : (∀ n ∈ ((trimmedLines input).foldl (stepLine σ)
      { nodes := [], pending := [], currentClass := none, aliasCount := 0,
        yPosition := 50, k := 0 }).nodes, ∃ c, n = finishCurrentClass c) ∧
      ((trimmedLines input).foldl (stepLine σ)
        { nodes := [], pending := [], currentClass := none, aliasCount := 0,
          yPosition := 50, k := 0 }).aliasCount = 0 := by
    apply foldl_inv (P := fun (s : LoopState α) =>
      (∀ n ∈ s.nodes, ∃ c, n = finishCurrentClass c) ∧ s.aliasCount = 0)
    · exact ⟨by simp, rfl⟩
    · intro s line hmem hP
      obtain ⟨h | ⟨c, h⟩, ha⟩ := stepLine_nodes σ s line (hinput line hmem) hP.2
      · exact ⟨fun n hn => hP.1 n (h ▸ hn), ha⟩
      · refine ⟨fun n hn => ?_, ha⟩
        rw [h] at hn
        rcases List.mem_append.mp hn with h' | h'
        · exact hP.1 n h'
        · simp only [List.mem_singleton] at h'
          exact ⟨c, h'⟩
  intro n hn
  simp only at hn
  split at hn
  · rcases List.mem_append.mp hn with h | h
    · exact hs.1 n h
    · simp only [List.mem_singleton] at h
      exact ⟨_, h⟩
  · exact hs.1 n hn

theorem specClassHeight_big (a m : Nat) : 80 ≤ specClassHeight a m :=
  le_max_left _ _

theorem specClassWidth_big (l : Nat) : 200 ≤ specClassWidth l :=
  le_max_left _ _

end ClassParser

/-- C5 (amended): on an input whose every `class ` line parses as a class
header, every class node emitted by the class-diagram parser has
height `max(80, 30 + a·18 + 15·separator + m·18 + 30)` and width
`max(200, min(400, 8·maxLabelLength + 40))`, where `maxLabelLength` is the
longest rendered label (class name, attribute line, method line); the
hierarchical layout preserves these parser-computed dimensions.  The proviso
is needed: a member line arriving after an unparsable `class ` header is
pushed into the payload shared with the already-emitted node, whose frozen
height then undercounts its members (see the counterexample). -/
theorem class_node_size_formula {α : Type} [DecidableEq α] (σ : Nat → α) (input : String)
    (hinput : ∀ line ∈ trimmedLines input, line.startsWith "class " = true →
      (TextMatch.matchClassDecl line).isSome = true)
    (n : DNode α) (hn : n ∈ resultNodes (ClassParser.parseClassDiagram σ input)) :
    n.height = ClassParser.specClassHeight n.attributes.length n.methods.length ∧
    n.width = ClassParser.specClassWidth (ClassParser.specMaxLabelLength n) := by
  revert hn
  unfold ClassParser.parseClassDiagram
  simp only
  split
  case h_2 => simp [resultNodes]
  case h_1 layoutNodes hL =>
    intro hn
    simp only [resultNodes] at hn
    unfold Layout.LayoutV2.positionNodesHierarchically at hL
    split_ifs at hL
    obtain rfl := Option.some.inj hL
    have hshape := Layout.LayoutV2.placeLayers_shape
      (Layout.layersOf (ClassParser.parseCore σ input).1 (ClassParser.parseCore σ input).2)
      { nodeWidth := some 250, nodeHeight := some 200,
        horizontalSpacing := some 300, verticalSpacing := some 250,
        layoutDirection := some "top-down" } n hn
    rcases hshape with ⟨L, hLmem, m, hmmem, a, b, rfl⟩
    have hmnode : m ∈ (ClassParser.parseCore σ input).1 :=
      Layout.layersOf_subset _ _ L hLmem m hmmem
    rcases ClassParser.parseCore_nodes_finished σ input hinput m hmnode with ⟨c, rfl⟩
    have hh := ClassParser.finishCurrentClass_height c
    have hw := ClassParser.finishCurrentClass_width c
    have hh80 := ClassParser.specClassHeight_big c.attributes.length c.methods.length
    have hw200 := ClassParser.specClassWidth_big (ClassParser.specMaxLabelLength c)
    constructor
    · show orD (ClassParser.finishCurrentClass c).height 200 = _
      rw [hh]
      unfold orD
      rw [if_neg (by intro h; rw [h] at hh80; norm_num at hh80)]
      rfl
    · show orD (ClassParser.finishCurrentClass c).width 250 = _
      rw [hw]
      unfold orD
      rw [if_neg (by intro h; rw [h] at hw200; norm_num at hw200)]
      rfl

/-- The `User` node of a concrete class-diagram parse, used as the C5 witness
input. -/
def userClassNode : DNode Nat :=
  { id := 1, type := "class", label := "User", x := 350, y := 100, width := 200,
    height := 129, className := "User",
    attributes := [{ name := "name", type := "string", visibility := "public" },
                   { name := "email", type := "string", visibility := "public" }],
    methods := [{ name := "login", returnType := "void", visibility := "public",
                  parameters := [] }] }

/-- C5 witness: the size-formula theorem applied to the `User` class node of
a concrete parse, whose one `class ` line parses as a header. -/
theorem class_node_size_formula_witness :
    (∀ line ∈ trimmedLines
        "class User \x7b\n+name: string\n+email: string\n+login(): void\n\x7d",
      line.startsWith "class " = true →
        (TextMatch.matchClassDecl line).isSome = true) ∧
    (userClassNode ∈
      resultNodes (ClassParser.parseClassDiagram idSupply
        "class User \x7b\n+name: string\n+email: string\n+login(): void\n\x7d")) ∧
    (userClassNode.height =
       ClassParser.specClassHeight userClassNode.attributes.length userClassNode.methods.length ∧
     userClassNode.width =
       ClassParser.specClassWidth (ClassParser.specMaxLabelLength userClassNode)) :=
  ⟨by with_unfolding_all decide,
   by with_unfolding_all decide,
   class_node_size_formula idSupply
     "class User \x7b\n+name: string\n+email: string\n+login(): void\n\x7d"
     (by with_unfolding_all decide)
     userClassNode (by with_unfolding_all decide)⟩

/-- C5 counterexample: after the unparsable header line `class \x7b` the
member line `+y: int` is pushed into the `data` payload shared with the
already-emitted `A` node, which keeps its frozen finish-time height: that
node reaches the output with two attributes and no methods but height 80,
where the claimed formula gives `max(80, 30 + 2·18 + 0 + 0 + 30) = 96`. -/
theorem class_member_after_failed_header_stale_height :
    ∃ n ∈ resultNodes (ClassParser.parseClassDiagram idSupply
        "class A \x7b\n+x: int\nclass \x7b\n+y: int\n\x7d"),
      n.attributes.length = 2 ∧ n.methods.length = 0 ∧ n.height = 80 ∧
      ClassParser.specClassHeight n.attributes.length n.methods.length = 96 ∧
      ¬(n.height = ClassParser.specClassHeight n.attributes.length n.methods.length) := by
  with_unfolding_all decide

namespace Layout

variable {α : Type}

/-- Open-interior overlap of two node rectangles. -/
def rectsOverlap (a b : DNode α) : Prop :=
  a.x < b.x + b.width ∧ b.x < a.x + a.width ∧ a.y < b.y + b.height ∧ b.y < a.y + a.height

theorem foldl_cumulative_eq_sum (L : List (DNode α)) (nw start : ℚ) :
    L.foldl (fun cumulativeX prev => cumulativeX + orD prev.width nw + 70) start
      = start + (L.map (fun p => orD p.width nw + 70)).sum := by
  induction L generalizing start with
  | nil => simp
  | cons p ps ih => simp [ih]; ring

theorem placeRow_length (o : LayoutOptions) (li : Nat) (L : List (DNode α)) :
    (LayoutV2.placeRow o li L).length = L.length := by
  unfold LayoutV2.placeRow
  simp

/-- Top-down multi-node rows: the node at index `ni` sits at the running sum
of the previous nodes' actual widths plus the 70px margin, at
`startY + layerIndex·verticalSpacing`, with its dimensions preserved. -/
theorem placeRow_getElem_top_down (o : LayoutOptions) (li : Nat) (L : List (DNode α))
    (hdir : (o.layoutDirection.getD "top-down") ≠ "left-right")
    (hlen : 2 ≤ L.length) (ni : Nat) (node : DNode α) (hn : L[ni]? = some node) :
    (LayoutV2.placeRow o li L)[ni]? = some
      { node with
        x := o.startX.getD 150 +
          ((L.take ni).map (fun p => orD p.width (o.nodeWidth.getD 120) + 70)).sum
        y := o.startY.getD 100 + (li : ℚ) * (o.verticalSpacing.getD 150)
        width := orD node.width (o.nodeWidth.getD 120)
        height := orD node.height (o.nodeHeight.getD 60) } := by
  unfold LayoutV2.placeRow
  rw [List.getElem?_map, List.getElem?_enum, hn]
  have hne : ¬(L.length = 1) := by omega
  have hb : (o.layoutDirection.getD "top-down" == "left-right") = false := by
    simp [hdir]
  simp [hb, hne, foldl_cumulative_eq_sum]

/-- A single-node top-down row is placed at the fixed centering offset
`startX + 200`. -/
theorem placeRow_single_top_down (o : LayoutOptions) (li : Nat) (node : DNode α)
    (hdir : (o.layoutDirection.getD "top-down") ≠ "left-right") :
    LayoutV2.placeRow o li [node] = [
      { node with
        x := o.startX.getD 150 + 200
        y := o.startY.getD 100 + (li : ℚ) * (o.verticalSpacing.getD 150)
        width := orD node.width (o.nodeWidth.getD 120)
        height := orD node.height (o.nodeHeight.getD 60) }] := by
  unfold LayoutV2.placeRow
  have hb : (o.layoutDirection.getD "top-down" == "left-right") = false := by
    simp [hdir]
  simp [hb]

/-- Same-row nodes of a top-down layer never overlap when every actual width
is positive. -/
theorem placeRow_no_overlap (o : LayoutOptions) (li : Nat) (L : List (DNode α))
    (hdir : (o.layoutDirection.getD "top-down") ≠ "left-right")
    (hw : ∀ p ∈ L, 0 < orD p.width (o.nodeWidth.getD 120))
    (ni nj : Nat) (a b : DNode α) (hij : ni < nj)
    (ha : (LayoutV2.placeRow o li L)[ni]? = some a)
    (hb : (LayoutV2.placeRow o li L)[nj]? = some b) :
    ¬ rectsOverlap a b := by
  have hnj : nj < L.length := by
    have := (List.getElem?_eq_some.mp hb).1
    rwa [placeRow_length] at this
  have hni : ni < L.length := lt_trans hij hnj
  have hlen2 : 2 ≤ L.length := by omega
  have hna : L[ni]? = some L[ni] := List.getElem?_eq_getElem hni
  have hnb : L[nj]? = some L[nj] := List.getElem?_eq_getElem hnj
  rw [placeRow_getElem_top_down o li L hdir hlen2 ni L[ni] hna] at ha
  rw [placeRow_getElem_top_down o li L hdir hlen2 nj L[nj] hnb] at hb
  obtain rfl := Option.some.inj ha
  obtain rfl := Option.some.inj hb
  set nw := o.nodeWidth.getD 120 with hnw
  set f : DNode α → ℚ := fun p => orD p.width nw + 70 with hf
  have hmap : ∀ k, (L.take k).map f = (L.map f).take k := fun k => List.map_take ..
  have hsucc : ((L.map f).take (ni + 1)).sum = ((L.map f).take ni).sum + f L[ni] := by
    have hlen' : ni < (L.map f).length := by simpa using hni
    rw [List.sum_take_succ _ _ hlen']
    simp
  have hnonneg : ∀ q ∈ (L.map f), 0 ≤ q := by
    intro q hq
    rcases List.mem_map.mp hq with ⟨p, hp, rfl⟩
    have := hw p hp
    simp only [hf]
    linarith
  have hmono : ((L.map f).take (ni + 1)).sum ≤ ((L.map f).take nj).sum := by
    have hsplit := List.sum_take_add_sum_drop ((L.map f).take nj) (ni + 1)
    have htt : ((L.map f).take nj).take (ni + 1) = (L.map f).take (ni + 1) := by
      rw [List.take_take]
      congr 1
      omega
    have hdropnn : 0 ≤ (((L.map f).take nj).drop (ni + 1)).sum := by
      apply List.sum_nonneg
      intro q hq
      exact hnonneg q (List.mem_of_mem_take (List.mem_of_mem_drop hq))
    rw [htt] at hsplit
    linarith
  have hwa : 0 < orD (L[ni]).width nw := hw _ (L.getElem_mem hni)
  intro hov
  have hx := hov.2.1
  simp only [hmap] at hx
  have : f L[ni] = orD (L[ni]).width nw + 70 := rfl
  linarith [hsucc, hmono]

end Layout

/-- C4 (amended): in the top-down hierarchical layered layout, a layer with
two or more nodes places its `ni`-th node at `startX` plus the running sum of
the previous nodes' actual widths each plus the fixed 70px margin, so
same-layer rectangles never overlap (for positive actual widths); a
single-node layer sits at the fixed centering offset `startX + 200`; and a
node's y position is `startY + layerIndex·verticalSpacing` (the configured
`startY`, 100 by default, offsets every layer — `y` is not bare
`layerIndex·verticalSpacing`). -/
theorem top_down_layer_geometry {α : Type} [DecidableEq α] (o : Layout.LayoutOptions)
    (hdir : (o.layoutDirection.getD "top-down") ≠ "left-right") :
    (∀ (nodes : List (DNode α)) (edges : List (DEdge α)),
      Layout.LayoutV2.positionNodesHierarchically nodes edges o =
        if nodes.isEmpty then none
        else some ((Layout.layersOf nodes edges).enum.flatMap
          (fun p => Layout.LayoutV2.placeRow o p.1 p.2))) ∧
    (∀ (li : Nat) (L : List (DNode α)) (ni : Nat) (node : DNode α),
      2 ≤ L.length → L[ni]? = some node →
      (Layout.LayoutV2.placeRow o li L)[ni]? = some
        { node with
          x := o.startX.getD 150 +
            ((L.take ni).map (fun p => orD p.width (o.nodeWidth.getD 120) + 70)).sum
          y := o.startY.getD 100 + (li : ℚ) * (o.verticalSpacing.getD 150)
          width := orD node.width (o.nodeWidth.getD 120)
          height := orD node.height (o.nodeHeight.getD 60) }) ∧
    (∀ (li : Nat) (node : DNode α),
      Layout.LayoutV2.placeRow o li [node] = [
        { node with
          x := o.startX.getD 150 + 200
          y := o.startY.getD 100 + (li : ℚ) * (o.verticalSpacing.getD 150)
          width := orD node.width (o.nodeWidth.getD 120)
          height := orD node.height (o.nodeHeight.getD 60) }]) ∧
    (∀ (li : Nat) (L : List (DNode α)),
      (∀ p ∈ L, 0 < orD p.width (o.nodeWidth.getD 120)) →
      ∀ (ni nj : Nat) (a b : DNode α), ni < nj →
        (Layout.LayoutV2.placeRow o li L)[ni]? = some a →
        (Layout.LayoutV2.placeRow o li L)[nj]? = some b →
        ¬ Layout.rectsOverlap a b) := by
  refine ⟨fun nodes edges => rfl, ?_, ?_, ?_⟩
  · intro li L ni node hlen hn
    exact Layout.placeRow_getElem_top_down o li L hdir hlen ni node hn
  · intro li node
    exact Layout.placeRow_single_top_down o li node hdir
  · intro li L hw ni nj a b hij ha hb
    exact Layout.placeRow_no_overlap o li L hdir hw ni nj a b hij ha hb

/-- C4 counterexample to the unamended y formula: a single node lands at
`y = 100` (the default `startY` offset), not at `layerIndex × verticalSpacing = 0`. -/
theorem top_down_y_has_start_offset :
    Layout.LayoutV2.positionNodesHierarchically [{ id := 1, label := "A" }]
        ([] : List (DEdge Nat)) {} =
      some [{ id := 1, label := "A", x := 350, y := 100, width := 120, height := 60 }] ∧
    (100 : ℚ) ≠ (0 : ℚ) * 150 := by
  constructor
  · with_unfolding_all decide
  · norm_num

/-- C4 witness: the row-geometry theorem applied to a concrete two-node layer
with default options. -/
theorem top_down_layer_geometry_witness :
    ((({} : Layout.LayoutOptions).layoutDirection.getD "top-down") ≠ "left-right") ∧
    2 ≤ ([({ id := 1, width := 30 } : DNode Nat), { id := 2, width := 45 }]).length ∧
    ([({ id := 1, width := 30 } : DNode Nat), { id := 2, width := 45 }])[1]? =
      some { id := 2, width := 45 } ∧
    (Layout.LayoutV2.placeRow ({} : Layout.LayoutOptions) 0
        [({ id := 1, width := 30 } : DNode Nat), { id := 2, width := 45 }])[1]? = some
      { ({ id := 2, width := 45 } : DNode Nat) with
        x := ({} : Layout.LayoutOptions).startX.getD 150 +
          ((([({ id := 1, width := 30 } : DNode Nat), { id := 2, width := 45 }]).take 1).map
            (fun p => orD p.width (({} : Layout.LayoutOptions).nodeWidth.getD 120) + 70)).sum
        y := ({} : Layout.LayoutOptions).startY.getD 100 +
          ((0 : Nat) : ℚ) * (({} : Layout.LayoutOptions).verticalSpacing.getD 150)
        width := orD ({ id := 2, width := 45 } : DNode Nat).width
          (({} : Layout.LayoutOptions).nodeWidth.getD 120)
        height := orD ({ id := 2, width := 45 } : DNode Nat).height
          (({} : Layout.LayoutOptions).nodeHeight.getD 60) } :=
  ⟨by with_unfolding_all decide, by decide, by with_unfolding_all decide,
   (top_down_layer_geometry (α := Nat) {} (by with_unfolding_all decide)).2.1 0
     [{ id := 1, width := 30 }, { id := 2, width := 45 }] 1 { id := 2, width := 45 }
     (by decide) (by with_unfolding_all decide)⟩

namespace Pagination

variable {α : Type} [DecidableEq α]

/-- Every edge references a node of the given list. -/
def wellFormedEdges (nodes : List (DNode α)) (edges : List (DEdge α)) : Prop :=
  ∀ e ∈ edges, e.efrom ∈ nodes.map (·.id) ∧ e.eto ∈ nodes.map (·.id)

/-- Every edge of a page references a node of that same page. -/
def pageEdgesValid (p : PageInfo α) : Prop :=
  ∀ e ∈ p.edges, e.efrom ∈ p.nodes.map (·.id) ∧ e.eto ∈ p.nodes.map (·.id)

instance (nodes : List (DNode α)) (edges : List (DEdge α)) :
    Decidable (wellFormedEdges nodes edges) := by
  unfold wellFormedEdges
  infer_instance

instance (p : PageInfo α) : Decidable (pageEdgesValid p) := by
  unfold pageEdgesValid
  infer_instance

theorem createPageInfo_valid (nodes : List (DNode α)) (edges : List (DEdge α))
    (pageNumber totalPages : Nat) (title : String) :
    pageEdgesValid (createPageInfo nodes edges pageNumber totalPages title) := by
  intro e he
  unfold createPageInfo at he
  simp only at he
  rcases List.mem_filter.mp he with ⟨_, hpred⟩
  rcases Bool.and_eq_true .. ▸ hpred with ⟨h1, h2⟩
  exact ⟨by simpa using List.mem_of_elem_eq_true h1, by simpa using List.mem_of_elem_eq_true h2⟩

theorem setTotalPages_valid (pages : List (PageInfo α))
    (h : ∀ p ∈ pages, pageEdgesValid p) :
    ∀ p ∈ setTotalPages pages, pageEdgesValid p := by
  intro p hp
  rcases List.mem_map.mp hp with ⟨q, hq, rfl⟩
  exact h q hq

theorem paginateClassDiagram_valid (nodes : List (DNode α)) (edges : List (DEdge α))
    (maxWidth maxHeight : ℚ) :
    ∀ p ∈ paginateClassDiagram nodes edges maxWidth maxHeight, pageEdgesValid p := by
  unfold paginateClassDiagram
  apply setTotalPages_valid
  have hfold : ∀ p ∈ ((groupClassesByClusters nodes edges).foldl
      (classPageStep edges maxWidth maxHeight) ([], [], none)).1, pageEdgesValid p := by
    apply foldl_inv (P := fun (acc : List (PageInfo α) × List (DNode α) × Option Bounds) =>
      ∀ p ∈ acc.1, pageEdgesValid p)
    · simp
    · intro acc cluster _ hP
      obtain ⟨pages, currentPage, currentBounds⟩ := acc
      unfold classPageStep
      simp only at hP ⊢
      split_ifs
      · intro p hp
        rcases List.mem_append.mp hp with h | h
        · exact hP p h
        · simp only [List.mem_singleton] at h
          subst h
          exact createPageInfo_valid _ _ _ _ _
      · exact hP
  split_ifs
  · intro p hp
    rcases List.mem_append.mp hp with h | h
    · exact hfold p h
    · simp only [List.mem_singleton] at h
      subst h
      exact createPageInfo_valid _ _ _ _ _
  · exact hfold

theorem paginateByLevels_valid (levels : List (List (DNode α))) (edges : List (DEdge α))
    (maxHeight : ℚ) (title : String) :
    ∀ p ∈ paginateByLevels levels edges maxHeight title, pageEdgesValid p := by
  unfold paginateByLevels
  apply setTotalPages_valid
  have hfold : ∀ p ∈ (levels.foldl (levelPageStep edges maxHeight title)
      ([], [], 0)).1, pageEdgesValid p := by
    apply foldl_inv (P := fun (acc : List (PageInfo α) × List (DNode α) × ℚ) =>
      ∀ p ∈ acc.1, pageEdgesValid p)
    · simp
    · intro acc level _ hP
      obtain ⟨pages, currentPage, currentHeight⟩ := acc
      unfold levelPageStep
      simp only at hP ⊢
      split_ifs
      · intro p hp
        rcases List.mem_append.mp hp with h | h
        · exact hP p h
        · simp only [List.mem_singleton] at h
          subst h
          exact createPageInfo_valid _ _ _ _ _
      · exact hP
  split_ifs
  · intro p hp
    rcases List.mem_append.mp hp with h | h
    · exact hfold p h
    · simp only [List.mem_singleton] at h
      subst h
      exact createPageInfo_valid _ _ _ _ _
  · exact hfold

theorem append_createPage_valid (acc : List (PageInfo α)) (pageNodes : List (DNode α))
    (edges : List (DEdge α)) (k : Nat) (title : String)
    (hP : ∀ p ∈ acc, pageEdgesValid p) :
    ∀ p ∈ (if pageNodes.length > 0 then
        acc ++ [createPageInfo pageNodes edges k 0 title] else acc),
      pageEdgesValid p := by
  split_ifs
  · intro p hp
    rcases List.mem_append.mp hp with h | h
    · exact hP p h
    · simp only [List.mem_singleton] at h
      subst h
      exact createPageInfo_valid _ _ _ _ _
  · exact hP

theorem paginateByGrid_valid (nodes : List (DNode α)) (edges : List (DEdge α))
    (maxWidth maxHeight : ℚ) (title : String) :
    ∀ p ∈ paginateByGrid nodes edges maxWidth maxHeight title, pageEdgesValid p := by
  unfold paginateByGrid
  apply setTotalPages_valid
  apply foldl_inv (P := fun (acc : List (PageInfo α)) => ∀ p ∈ acc, pageEdgesValid p)
  · simp
  · intro acc py _ hP
    unfold gridRowStep
    apply foldl_inv (P := fun (acc : List (PageInfo α)) => ∀ p ∈ acc, pageEdgesValid p) _ _ _ hP
    intro acc px _ hP'
    unfold gridInnerStep
    exact append_createPage_valid _ _ _ _ _ hP'

theorem chunkGo_valid (actors : List (DNode α)) (mpp : Nat) (title : String) :
    ∀ (fuel : Nat) (remaining : List (DEdge α)) (pages : List (PageInfo α)),
      (∀ p ∈ pages, pageEdgesValid p) →
      ∀ p ∈ chunkGo actors mpp title fuel remaining pages, pageEdgesValid p := by
  intro fuel
  induction fuel with
  | zero => intro remaining pages h; simpa [chunkGo] using h
  | succ fuel ih =>
    intro remaining pages h
    match remaining with
    | [] => simpa [chunkGo] using h
    | x :: xs =>
      simp only [chunkGo]
      apply ih
      intro p hp
      rcases List.mem_append.mp hp with h' | h'
      · exact h p h'
      · simp only [List.mem_singleton] at h'
        subst h'
        exact createPageInfo_valid _ _ _ _ _

theorem paginateByLayers_valid (nodes : List (DNode α)) (edges : List (DEdge α))
    (maxWidth maxHeight : ℚ) (title : String) :
    ∀ p ∈ paginateByLayers nodes edges maxWidth maxHeight title, pageEdgesValid p := by
  unfold paginateByLayers
  exact paginateByLevels_valid _ _ _ _

theorem paginateSequenceDiagram_valid (nodes : List (DNode α)) (edges : List (DEdge α))
    (maxHeight : ℚ) :
    ∀ p ∈ paginateSequenceDiagram nodes edges maxHeight, pageEdgesValid p := by
  unfold paginateSequenceDiagram chunkMessages
  apply setTotalPages_valid
  split_ifs
  · simp
  · exact chunkGo_valid _ _ _ _ _ _ (by simp)

theorem paginateUsecaseDiagram_valid (nodes : List (DNode α)) (edges : List (DEdge α)) :
    ∀ p ∈ paginateUsecaseDiagram nodes edges, pageEdgesValid p := by
  unfold paginateUsecaseDiagram
  intro p hp
  rcases List.mem_map.mp hp with ⟨i, _, rfl⟩
  exact createPageInfo_valid _ _ _ _ _

end Pagination

theorem paginateMindmapDiagram_valid {α : Type} [DecidableEq α]
    (nodes : List (DNode α)) (edges : List (DEdge α)) (maxHeight : ℚ) :
    ∀ p ∈ Pagination.paginateMindmapDiagram nodes edges maxHeight,
      Pagination.pageEdgesValid p := by
  unfold Pagination.paginateMindmapDiagram
  split
  · exact Pagination.paginateByLevels_valid _ _ _ _
  · simp

theorem paginateFlowDiagram_valid {α : Type} [DecidableEq α]
    (nodes : List (DNode α)) (edges : List (DEdge α)) (maxWidth maxHeight : ℚ)
    (preferredBreakPoints : String) :
    ∀ p ∈ Pagination.paginateFlowDiagram nodes edges maxWidth maxHeight preferredBreakPoints,
      Pagination.pageEdgesValid p := by
  unfold Pagination.paginateFlowDiagram
  split_ifs
  · exact Pagination.paginateByLayers_valid _ _ _ _ _
  · exact Pagination.paginateByGrid_valid _ _ _ _ _

/-- C1 (amended): provided every input edge references nodes of the input
node set, every page emitted by `paginateDiagram` — for every diagram type
and configuration, the single fitting page included — carries only edges
whose two endpoints are nodes of that page.  (The well-formedness premise is
needed because the single-page branch returns the input edge list
unfiltered; all multi-page strategies filter unconditionally through
`createPageInfo`.) -/
theorem pagination_edge_filtering {α : Type} [DecidableEq α]
    (nodes : List (DNode α)) (edges : List (DEdge α)) (diagramType : String)
    (config : Pagination.PaginationConfig)
    (hwf : Pagination.wellFormedEdges nodes edges) :
    ∀ p ∈ Pagination.paginateDiagram nodes edges diagramType config,
      Pagination.pageEdgesValid p := by
  intro p hp
  unfold Pagination.paginateDiagram at hp
  by_cases hfit : (Pagination.calculateDiagramBounds nodes).width ≤ config.maxWidth.getD 1200 ∧
      (Pagination.calculateDiagramBounds nodes).height ≤ config.maxHeight.getD 900
  · rw [if_pos hfit] at hp
    simp only [List.mem_singleton] at hp
    subst hp
    exact hwf
  · rw [if_neg hfit] at hp
    by_cases h1 : diagramType = "class"
    · rw [if_pos h1] at hp
      exact Pagination.paginateClassDiagram_valid _ _ _ _ p hp
    · rw [if_neg h1] at hp
      by_cases h2 : diagramType = "flow"
      · rw [if_pos h2] at hp
        exact paginateFlowDiagram_valid _ _ _ _ _ p hp
      · rw [if_neg h2] at hp
        by_cases h3 : diagramType = "sequence"
        · rw [if_pos h3] at hp
          exact Pagination.paginateSequenceDiagram_valid _ _ _ p hp
        · rw [if_neg h3] at hp
          by_cases h4 : diagramType = "mindmap"
          · rw [if_pos h4] at hp
            exact paginateMindmapDiagram_valid _ _ _ p hp
          · rw [if_neg h4] at hp
            by_cases h5 : diagramType = "usecase"
            · rw [if_pos h5] at hp
              exact Pagination.paginateUsecaseDiagram_valid _ _ p hp
            · rw [if_neg h5] at hp
              exact Pagination.paginateByGrid_valid _ _ _ _ _ p hp

/-- C1 counterexample to the unamended claim: when the diagram fits on a
single page, the input edge list is passed through unfiltered, so a dangling
edge (here `1 → 999` with no node `999`) survives onto the page. -/
theorem single_page_keeps_dangling_edge :
    (Pagination.paginateDiagram
        [({ id := 1, x := 0, y := 0, width := 10, height := 10 } : DNode Nat)]
        [{ id := 7, efrom := 1, eto := 999 }] "flow" {}).map
      (fun p => (p.nodes.map (·.id), p.edges.map (fun e => (e.efrom, e.eto))))
      = [([1], [(1, 999)])] ∧
    ¬ (∀ p ∈ Pagination.paginateDiagram
        [({ id := 1, x := 0, y := 0, width := 10, height := 10 } : DNode Nat)]
        [{ id := 7, efrom := 1, eto := 999 }] "flow" {},
        Pagination.pageEdgesValid p) := by
  constructor <;> with_unfolding_all decide

/-- C1 witness: the filtering theorem applied to a concrete two-node diagram
that paginates onto two grid pages. -/
theorem pagination_edge_filtering_witness :
    Pagination.wellFormedEdges
      [({ id := 1, x := 0, y := 0, width := 10, height := 10 } : DNode Nat),
       { id := 2, x := 150, y := 0, width := 20, height := 10 }]
      [{ id := 7, efrom := 1, eto := 2 }] ∧
    (∀ p ∈ Pagination.paginateDiagram
        [({ id := 1, x := 0, y := 0, width := 10, height := 10 } : DNode Nat),
         { id := 2, x := 150, y := 0, width := 20, height := 10 }]
        [{ id := 7, efrom := 1, eto := 2 }] "flow"
        { maxWidth := some 100, maxHeight := some 100, preferredBreakPoints := some "grid" },
      Pagination.pageEdgesValid p) :=
  ⟨by with_unfolding_all decide,
   pagination_edge_filtering _ _ "flow"
     { maxWidth := some 100, maxHeight := some 100, preferredBreakPoints := some "grid" }
     (by with_unfolding_all decide)⟩

/- ### C2: pagination completeness -/

namespace Pagination

variable {α : Type} [DecidableEq α]

theorem createPageInfo_nodes (nodes : List (DNode α)) (edges : List (DEdge α))
    (pageNumber totalPages : Nat) (title : String) :
    (createPageInfo nodes edges pageNumber totalPages title).nodes = nodes := rfl

theorem setTotalPages_flatMap (pages : List (PageInfo α)) :
    ((setTotalPages pages).flatMap (·.nodes)) = pages.flatMap (·.nodes) := by
  unfold setTotalPages
  rw [List.flatMap_map]

/-- Invariants of `growCluster`: the visited list extends the input by exactly
the ids of the cluster, everything in the cluster is the seed or a node of the
diagram, the visited list stays duplicate-free, and the seed is in the
cluster. -/
theorem growCluster_spec (nodes : List (DNode α)) (edges : List (DEdge α))
    (node : DNode α) (visited : List α)
    (hnodup : visited.Nodup) (hnotin : node.id ∉ visited) :
    (growCluster nodes edges node visited).2
        = visited ++ ((growCluster nodes edges node visited).1).map (·.id) ∧
    (∀ m ∈ (growCluster nodes edges node visited).1, m = node ∨ m ∈ nodes) ∧
    (growCluster nodes edges node visited).2.Nodup ∧
    node ∈ (growCluster nodes edges node visited).1 := by
  unfold growCluster
  apply foldl_inv (P := fun (acc : List (DNode α) × List α) =>
    acc.2 = visited ++ acc.1.map (·.id) ∧
    (∀ m ∈ acc.1, m = node ∨ m ∈ nodes) ∧ acc.2.Nodup ∧ node ∈ acc.1)
  · refine ⟨by simp, ?_, ?_, by simp⟩
    · intro m hm
      simp only [List.mem_singleton] at hm
      exact Or.inl hm
    · simpa [List.nodup_append, hnodup] using hnotin
  · intro acc rid _ hacc
    obtain ⟨h1, h2, h3, h4⟩ := hacc
    unfold growStep
    cases hf : nodes.find? (fun n => n.id = rid) with
    | none => exact ⟨h1, h2, h3, h4⟩
    | some rn =>
      dsimp only
      by_cases hc : acc.2.contains rid = true
      · rw [if_pos hc]
        exact ⟨h1, h2, h3, h4⟩
      · have hid : rn.id = rid := by
          have := List.find?_some hf
          simpa using this
        have hmem : rn ∈ nodes := List.mem_of_find?_eq_some hf
        have hnew : rid ∉ acc.2 := by
          simpa [List.elem_iff] using hc
        rw [if_neg hc]
        refine ⟨?_, ?_, ?_, List.mem_append_left _ h4⟩
        · rw [List.map_append, h1]
          simp [hid, List.append_assoc]
        · intro m hm
          rcases List.mem_append.mp hm with hm' | hm'
          · exact h2 m hm'
          · simp only [List.mem_singleton] at hm'
            subst hm'
            exact Or.inr hmem
        · simp [List.nodup_append, h3, hnew]

/-- Invariants of the outer fold of `groupClassesByClusters`, generalised over
the accumulator: the visited list is exactly the ids of the flattened
clusters, it is duplicate-free, every clustered node is a diagram node, every
processed node's id gets visited, and visited ids persist. -/
theorem groupSteps_spec (nodes : List (DNode α)) (edges : List (DEdge α)) :
    ∀ (rest : List (DNode α)) (acc : List (List (DNode α)) × List α),
      acc.2 = acc.1.flatten.map (·.id) → acc.2.Nodup →
      (∀ m ∈ acc.1.flatten, m ∈ nodes) → (∀ x ∈ rest, x ∈ nodes) →
      ((rest.foldl (groupStep nodes edges) acc).2
          = (rest.foldl (groupStep nodes edges) acc).1.flatten.map (·.id) ∧
       (rest.foldl (groupStep nodes edges) acc).2.Nodup ∧
       (∀ m ∈ (rest.foldl (groupStep nodes edges) acc).1.flatten, m ∈ nodes) ∧
       (∀ x ∈ rest, x.id ∈ (rest.foldl (groupStep nodes edges) acc).2) ∧
       (∀ i ∈ acc.2, i ∈ (rest.foldl (groupStep nodes edges) acc).2)) := by
  intro rest
  induction rest with
  | nil =>
    intro acc h1 h2 h3 _
    exact ⟨h1, h2, h3, by simp, fun i hi => hi⟩
  | cons x xs ih =>
    intro acc h1 h2 h3 hsub
    have hxnodes : x ∈ nodes := hsub x (by simp)
    rw [List.foldl_cons]
    by_cases hc : acc.2.contains x.id = true
    · have hstep : groupStep nodes edges acc x = acc := by
        unfold groupStep
        rw [if_pos hc]
      rw [hstep]
      obtain ⟨g1, g2, g3, g4, g5⟩ := ih acc h1 h2 h3 (fun y hy => hsub y (by simp [hy]))
      refine ⟨g1, g2, g3, ?_, g5⟩
      intro y hy
      rcases List.mem_cons.mp hy with rfl | hy'
      · exact g5 _ (by simpa [List.elem_iff] using hc)
      · exact g4 y hy'
    · have hnotin : x.id ∉ acc.2 := by simpa [List.elem_iff] using hc
      obtain ⟨s1, s2, s3, s4⟩ := growCluster_spec nodes edges x acc.2 h2 hnotin
      have hstep : groupStep nodes edges acc x
          = (acc.1 ++ [(growCluster nodes edges x acc.2).1],
             (growCluster nodes edges x acc.2).2) := by
        unfold groupStep
        rw [if_neg hc]
      rw [hstep]
      have h1' : (growCluster nodes edges x acc.2).2
          = (acc.1 ++ [(growCluster nodes edges x acc.2).1]).flatten.map (·.id) := by
        rw [s1, h1]
        simp [List.flatten_append]
      have h3' : ∀ m ∈ (acc.1 ++ [(growCluster nodes edges x acc.2).1]).flatten,
          m ∈ nodes := by
        intro m hm
        rw [List.flatten_append] at hm
        rcases List.mem_append.mp hm with hm' | hm'
        · exact h3 m hm'
        · rcases s2 m (by simpa using hm') with rfl | hmn
          · exact hxnodes
          · exact hmn
      obtain ⟨g1, g2, g3, g4, g5⟩ :=
        ih (acc.1 ++ [(growCluster nodes edges x acc.2).1],
            (growCluster nodes edges x acc.2).2) h1' s3 h3'
          (fun y hy => hsub y (by simp [hy]))
      refine ⟨g1, g2, g3, ?_, ?_⟩
      · intro y hy
        rcases List.mem_cons.mp hy with rfl | hy'
        · apply g5
          rw [s1]
          exact List.mem_append.mpr (Or.inr (List.mem_map.mpr ⟨y, s4, rfl⟩))
        · exact g4 y hy'
      · intro i hi
        apply g5
        rw [s1]
        exact List.mem_append.mpr (Or.inl hi)

/-- If the node ids are distinct, the clusters of `groupClassesByClusters`
are a permutation of the nodes. -/
theorem groupClassesByClusters_perm (nodes : List (DNode α)) (edges : List (DEdge α))
    (hids : (nodes.map (·.id)).Nodup) :
    ((groupClassesByClusters nodes edges).flatten).Perm nodes := by
  unfold groupClassesByClusters
  obtain ⟨g1, g2, g3, g4, _⟩ :=
    groupSteps_spec nodes edges nodes ([], []) rfl (by simp) (by simp) (fun x hx => hx)
  have hflatNodup : (nodes.foldl (groupStep nodes edges) ([], [])).1.flatten.Nodup :=
    List.Nodup.of_map _ (g1 ▸ g2)
  have hnodesNodup : nodes.Nodup := List.Nodup.of_map _ hids
  refine (List.perm_ext_iff_of_nodup hflatNodup hnodesNodup).mpr ?_
  intro a
  constructor
  · exact g3 a
  · intro ha
    have hmap : a.id ∈ (nodes.foldl (groupStep nodes edges) ([], [])).1.flatten.map (·.id) :=
      g1 ▸ g4 a ha
    rcases List.mem_map.mp hmap with ⟨b, hb, hba⟩
    have hbnodes : b ∈ nodes := g3 b hb
    have hba' : b = a := List.inj_on_of_nodup_map hids hbnodes ha hba
    exact hba' ▸ hb

end Pagination

namespace Pagination

variable {α : Type} [DecidableEq α]

theorem classPageStep_pos (edges : List (DEdge α)) (maxWidth maxHeight : ℚ)
    (pages : List (PageInfo α)) (cur c : List (DNode α)) (cb : Option Bounds)
    (h : cur.length > 0 ∧ ((mergeBounds cb (calculateDiagramBounds c)).width > maxWidth ∨
          (mergeBounds cb (calculateDiagramBounds c)).height > maxHeight)) :
    classPageStep edges maxWidth maxHeight (pages, cur, cb) c
      = (pages ++ [createPageInfo cur edges (pages.length + 1) 0 "Class Diagram"],
         c, some (calculateDiagramBounds c)) := by
  simp only [classPageStep]
  rw [if_pos h]

theorem classPageStep_neg (edges : List (DEdge α)) (maxWidth maxHeight : ℚ)
    (pages : List (PageInfo α)) (cur c : List (DNode α)) (cb : Option Bounds)
    (h : ¬(cur.length > 0 ∧ ((mergeBounds cb (calculateDiagramBounds c)).width > maxWidth ∨
          (mergeBounds cb (calculateDiagramBounds c)).height > maxHeight))) :
    classPageStep edges maxWidth maxHeight (pages, cur, cb) c
      = (pages, cur ++ c, some (mergeBounds cb (calculateDiagramBounds c))) := by
  simp only [classPageStep]
  rw [if_neg h]

theorem levelPageStep_pos (edges : List (DEdge α)) (maxHeight : ℚ) (title : String)
    (pages : List (PageInfo α)) (cur level : List (DNode α)) (ch : ℚ)
    (h : cur.length > 0 ∧ ch + (calculateDiagramBounds level).height > maxHeight) :
    levelPageStep edges maxHeight title (pages, cur, ch) level
      = (pages ++ [createPageInfo cur edges (pages.length + 1) 0 title],
         level, (calculateDiagramBounds level).height) := by
  simp only [levelPageStep]
  rw [if_pos h]

theorem levelPageStep_neg (edges : List (DEdge α)) (maxHeight : ℚ) (title : String)
    (pages : List (PageInfo α)) (cur level : List (DNode α)) (ch : ℚ)
    (h : ¬(cur.length > 0 ∧ ch + (calculateDiagramBounds level).height > maxHeight)) :
    levelPageStep edges maxHeight title (pages, cur, ch) level
      = (pages, cur ++ level, ch + (calculateDiagramBounds level).height) := by
  simp only [levelPageStep]
  rw [if_neg h]

theorem bandStep_none (layers : List (List (DNode α))) (cur : List (DNode α))
    (n : DNode α) :
    bandStep (layers, cur, (none : Option ℚ)) n
      = ((if cur.length > 0 then layers ++ [cur] else layers), [n], some n.y) := by
  simp [bandStep]

theorem bandStep_some_far (layers : List (List (DNode α))) (cur : List (DNode α))
    (cy : ℚ) (n : DNode α) (h : |n.y - cy| > 30) :
    bandStep (layers, cur, some cy) n
      = ((if cur.length > 0 then layers ++ [cur] else layers), [n], some n.y) := by
  simp [bandStep, h]

theorem bandStep_some_near (layers : List (List (DNode α))) (cur : List (DNode α))
    (cy : ℚ) (n : DNode α) (h : ¬(|n.y - cy| > 30)) :
    bandStep (layers, cur, some cy) n = (layers, cur ++ [n], some cy) := by
  simp [bandStep, h]

/-- The pages and the pending current page of the `paginateClassDiagram` fold
together hold exactly the clusters processed so far. -/
theorem classPages_fold_nodes (edges : List (DEdge α)) (maxWidth maxHeight : ℚ) :
    ∀ (clusters : List (List (DNode α)))
      (acc : List (PageInfo α) × List (DNode α) × Option Bounds),
      ((clusters.foldl (classPageStep edges maxWidth maxHeight) acc).1.flatMap (·.nodes))
          ++ (clusters.foldl (classPageStep edges maxWidth maxHeight) acc).2.1
        = (acc.1.flatMap (·.nodes)) ++ acc.2.1 ++ clusters.flatten := by
  intro clusters
  induction clusters with
  | nil => intro acc; simp
  | cons c cs ih =>
    intro acc
    obtain ⟨pages, currentPage, currentBounds⟩ := acc
    rw [List.foldl_cons]
    by_cases h : currentPage.length > 0 ∧
        ((mergeBounds currentBounds (calculateDiagramBounds c)).width > maxWidth ∨
          (mergeBounds currentBounds (calculateDiagramBounds c)).height > maxHeight)
    · rw [classPageStep_pos edges maxWidth maxHeight pages currentPage c currentBounds h, ih]
      simp [createPageInfo_nodes, List.append_assoc]
    · rw [classPageStep_neg edges maxWidth maxHeight pages currentPage c currentBounds h, ih]
      simp [List.append_assoc]

/-- The pages and the pending current page of the `paginateByLevels` fold
together hold exactly the levels processed so far. -/
theorem levelPages_fold_nodes (edges : List (DEdge α)) (maxHeight : ℚ) (title : String) :
    ∀ (levels : List (List (DNode α)))
      (acc : List (PageInfo α) × List (DNode α) × ℚ),
      ((levels.foldl (levelPageStep edges maxHeight title) acc).1.flatMap (·.nodes))
          ++ (levels.foldl (levelPageStep edges maxHeight title) acc).2.1
        = (acc.1.flatMap (·.nodes)) ++ acc.2.1 ++ levels.flatten := by
  intro levels
  induction levels with
  | nil => intro acc; simp
  | cons c cs ih =>
    intro acc
    obtain ⟨pages, currentPage, currentHeight⟩ := acc
    rw [List.foldl_cons]
    by_cases h : currentPage.length > 0 ∧
        currentHeight + (calculateDiagramBounds c).height > maxHeight
    · rw [levelPageStep_pos edges maxHeight title pages currentPage c currentHeight h, ih]
      simp [createPageInfo_nodes, List.append_assoc]
    · rw [levelPageStep_neg edges maxHeight title pages currentPage c currentHeight h, ih]
      simp [List.append_assoc]

/-- All nodes of the pages of `paginateClassDiagram`, in order, are the
flattened clusters. -/
theorem paginateClassDiagram_flatMap (nodes : List (DNode α)) (edges : List (DEdge α))
    (maxWidth maxHeight : ℚ) :
    ((paginateClassDiagram nodes edges maxWidth maxHeight).flatMap (·.nodes))
      = (groupClassesByClusters nodes edges).flatten := by
  simp only [paginateClassDiagram]
  rw [setTotalPages_flatMap]
  have h := classPages_fold_nodes edges maxWidth maxHeight
    (groupClassesByClusters nodes edges) ([], [], none)
  simp only [List.flatMap_nil, List.nil_append] at h
  split_ifs with hlen
  · rw [List.flatMap_append, ← h]
    simp [createPageInfo_nodes]
  · have hnil : ((groupClassesByClusters nodes edges).foldl
        (classPageStep edges maxWidth maxHeight) ([], [], none)).2.1 = [] := by
      simpa using hlen
    rw [← h, hnil]
    simp

/-- All nodes of the pages of `paginateByLevels`, in order, are the flattened
levels. -/
theorem paginateByLevels_flatMap (levels : List (List (DNode α))) (edges : List (DEdge α))
    (maxHeight : ℚ) (title : String) :
    ((paginateByLevels levels edges maxHeight title).flatMap (·.nodes))
      = levels.flatten := by
  simp only [paginateByLevels]
  rw [setTotalPages_flatMap]
  have h := levelPages_fold_nodes edges maxHeight title levels ([], [], 0)
  simp only [List.flatMap_nil, List.nil_append] at h
  split_ifs with hlen
  · rw [List.flatMap_append, ← h]
    simp [createPageInfo_nodes]
  · have hnil : (levels.foldl (levelPageStep edges maxHeight title) ([], [], 0)).2.1 = [] := by
      simpa using hlen
    rw [← h, hnil]
    simp

/-- The band accumulator of `groupIntoBands` loses no node. -/
theorem bands_fold_nodes :
    ∀ (l : List (DNode α)) (acc : List (List (DNode α)) × List (DNode α) × Option ℚ),
      (l.foldl bandStep acc).1.flatten ++ (l.foldl bandStep acc).2.1
        = acc.1.flatten ++ acc.2.1 ++ l := by
  intro l
  induction l with
  | nil => intro acc; simp
  | cons n ns ih =>
    intro acc
    obtain ⟨layers, currentLayer, currentY⟩ := acc
    rw [List.foldl_cons]
    have hout : ∀ (acc' : List (List (DNode α)) × List (DNode α) × Option ℚ),
        acc' = ((if currentLayer.length > 0 then layers ++ [currentLayer] else layers),
                [n], some n.y) →
        (ns.foldl bandStep acc').1.flatten ++ (ns.foldl bandStep acc').2.1
          = layers.flatten ++ currentLayer ++ (n :: ns) := by
      intro acc' hacc'
      subst hacc'
      rw [ih]
      by_cases hcl : currentLayer.length > 0
      · rw [if_pos hcl]
        simp [List.flatten_append, List.append_assoc]
      · rw [if_neg hcl]
        have : currentLayer = [] := by simpa using hcl
        simp [this, List.append_assoc]
    cases currentY with
    | none =>
      rw [bandStep_none]
      exact hout _ rfl
    | some cy =>
      by_cases hfar : |n.y - cy| > 30
      · rw [bandStep_some_far layers currentLayer cy n hfar]
        exact hout _ rfl
      · rw [bandStep_some_near layers currentLayer cy n hfar, ih]
        simp [List.append_assoc]

/-- `groupIntoBands` partitions the input list: flattening the bands gives the
input back. -/
theorem groupIntoBands_flatten (l : List (DNode α)) :
    (groupIntoBands l).flatten = l := by
  simp only [groupIntoBands]
  have h := bands_fold_nodes l ([], [], none)
  simp only [List.flatten_nil, List.nil_append] at h
  split_ifs with hlen
  · rw [List.flatten_append]
    simpa using h
  · have hnil : (l.foldl bandStep ([], [], none)).2.1 = [] := by simpa using hlen
    simpa [hnil] using h

/-- All nodes of the pages of `paginateByLayers`, in order, are a permutation
of the input nodes (their Y-sorted order). -/
theorem paginateByLayers_perm (nodes : List (DNode α)) (edges : List (DEdge α))
    (maxWidth maxHeight : ℚ) (title : String) :
    ((paginateByLayers nodes edges maxWidth maxHeight title).flatMap (·.nodes)).Perm
      nodes := by
  simp only [paginateByLayers]
  rw [paginateByLevels_flatMap, groupIntoBands_flatten]
  exact List.mergeSort_perm nodes _

/-- All nodes of the pages of `paginateClassDiagram`, with distinct node ids,
are a permutation of the input nodes. -/
theorem paginateClassDiagram_perm (nodes : List (DNode α)) (edges : List (DEdge α))
    (maxWidth maxHeight : ℚ) (hids : (nodes.map (·.id)).Nodup) :
    ((paginateClassDiagram nodes edges maxWidth maxHeight).flatMap (·.nodes)).Perm
      nodes := by
  rw [paginateClassDiagram_flatMap]
  exact groupClassesByClusters_perm nodes edges hids

end Pagination

namespace Pagination

variable {α : Type} [DecidableEq α]

omit [DecidableEq α] in
theorem orD_pos (v d : ℚ) (hv : 0 ≤ v) (hd : 0 < d) : 0 < orD v d := by
  unfold orD
  split_ifs with h
  · exact hd
  · exact lt_of_le_of_ne hv (Ne.symm h)

omit [DecidableEq α] in
theorem foldl_min_le_init (g : DNode α → ℚ) :
    ∀ (rest : List (DNode α)) (a : ℚ), rest.foldl (fun m k => min m (g k)) a ≤ a := by
  intro rest
  induction rest with
  | nil => intro a; exact le_refl a
  | cons x xs ih => intro a; exact le_trans (ih (min a (g x))) (min_le_left _ _)

omit [DecidableEq α] in
theorem foldl_min_le_mem (g : DNode α → ℚ) {x : DNode α} :
    ∀ (rest : List (DNode α)) (a : ℚ), x ∈ rest →
      rest.foldl (fun m k => min m (g k)) a ≤ g x := by
  intro rest
  induction rest with
  | nil => intro a hx; simp at hx
  | cons y ys ih =>
    intro a hx
    rw [List.foldl_cons]
    rcases List.mem_cons.mp hx with heq | hx'
    · subst heq
      exact le_trans (foldl_min_le_init g ys _) (min_le_right _ _)
    · exact ih _ hx'

omit [DecidableEq α] in
theorem foldl_le_max_init (g : DNode α → ℚ) :
    ∀ (rest : List (DNode α)) (a : ℚ), a ≤ rest.foldl (fun m k => max m (g k)) a := by
  intro rest
  induction rest with
  | nil => intro a; exact le_refl a
  | cons x xs ih => intro a; exact le_trans (le_max_left _ _) (ih (max a (g x)))

omit [DecidableEq α] in
theorem foldl_le_max_mem (g : DNode α → ℚ) {x : DNode α} :
    ∀ (rest : List (DNode α)) (a : ℚ), x ∈ rest →
      g x ≤ rest.foldl (fun m k => max m (g k)) a := by
  intro rest
  induction rest with
  | nil => intro a hx; simp at hx
  | cons y ys ih =>
    intro a hx
    rw [List.foldl_cons]
    rcases List.mem_cons.mp hx with heq | hx'
    · subst heq
      exact le_trans (le_max_right _ _) (foldl_le_max_init g ys _)
    · exact ih _ hx'

omit [DecidableEq α] in
/-- Every node's rectangle lies inside the computed diagram bounds. -/
theorem calculateDiagramBounds_le (nodes : List (DNode α)) {n : DNode α} (hn : n ∈ nodes) :
    (calculateDiagramBounds nodes).minX ≤ nodeLeft n ∧
    nodeRight n ≤ (calculateDiagramBounds nodes).maxX ∧
    (calculateDiagramBounds nodes).minY ≤ nodeTop n ∧
    nodeBottom n ≤ (calculateDiagramBounds nodes).maxY := by
  match nodes, hn with
  | f :: rest, hn =>
    show rest.foldl (fun m k => min m (nodeLeft k)) (nodeLeft f) ≤ nodeLeft n ∧
      nodeRight n ≤ rest.foldl (fun m k => max m (nodeRight k)) (nodeRight f) ∧
      rest.foldl (fun m k => min m (nodeTop k)) (nodeTop f) ≤ nodeTop n ∧
      nodeBottom n ≤ rest.foldl (fun m k => max m (nodeBottom k)) (nodeBottom f)
    rcases List.mem_cons.mp hn with heq | h'
    · subst heq
      exact ⟨foldl_min_le_init _ _ _, foldl_le_max_init _ _ _,
        foldl_min_le_init _ _ _, foldl_le_max_init _ _ _⟩
    · exact ⟨foldl_min_le_mem _ _ _ h', foldl_le_max_mem _ _ _ h',
        foldl_min_le_mem _ _ _ h', foldl_le_max_mem _ _ _ h'⟩

omit [DecidableEq α] in
theorem calculateDiagramBounds_width_height (nodes : List (DNode α)) (hne : nodes ≠ []) :
    (calculateDiagramBounds nodes).width
        = (calculateDiagramBounds nodes).maxX - (calculateDiagramBounds nodes).minX ∧
    (calculateDiagramBounds nodes).height
        = (calculateDiagramBounds nodes).maxY - (calculateDiagramBounds nodes).minY := by
  match nodes, hne with
  | f :: rest, _ => exact ⟨rfl, rfl⟩

/-- One dimension of the grid of `paginateByGrid`: a value interval
`[v, v + len]` inside the diagram extent `[lo, hi]` intersects the grid cell
it is assigned to (its floor-index, clamped to the last cell). -/
theorem grid_cell_1d (lo hi v len cellW : ℚ) (c cells : Nat)
    (hcell : 0 < cellW) (hlen : 0 < len) (hlo : lo ≤ v) (hhi : v + len ≤ hi)
    (hcells : cells = (⌈(hi - lo) / cellW⌉).toNat)
    (hc : c = min (cells - 1) ((⌊(v - lo) / cellW⌋).toNat)) :
    c < cells ∧ v ≤ lo + (c : ℚ) * cellW + cellW ∧ lo + (c : ℚ) * cellW ≤ v + len := by
  have hu0 : (0 : ℤ) ≤ ⌊(v - lo) / cellW⌋ :=
    Int.floor_nonneg.mpr (div_nonneg (by linarith) hcell.le)
  have hpos : (0 : ℤ) < ⌈(hi - lo) / cellW⌉ :=
    Int.ceil_pos.mpr (div_pos (by linarith) hcell)
  have hcells1 : 1 ≤ cells := by omega
  have hcle : c ≤ cells - 1 := hc ▸ Nat.min_le_left _ _
  have hclt : c < cells := by omega
  refine ⟨hclt, ?_, ?_⟩
  · rcases le_or_lt ((⌊(v - lo) / cellW⌋).toNat) (cells - 1) with hcase | hcase
    · have hceq : c = (⌊(v - lo) / cellW⌋).toNat := hc.trans (Nat.min_eq_right hcase)
      have hcq : (c : ℚ) = ((⌊(v - lo) / cellW⌋ : ℤ) : ℚ) := by
        rw [hceq]
        exact_mod_cast Int.toNat_of_nonneg hu0
      have hflt : (v - lo) / cellW < ((⌊(v - lo) / cellW⌋ : ℤ) : ℚ) + 1 :=
        Int.lt_floor_add_one _
      have hmul : v - lo < (((⌊(v - lo) / cellW⌋ : ℤ) : ℚ) + 1) * cellW := by
        rwa [div_lt_iff₀ hcell] at hflt
      rw [hcq]
      nlinarith
    · have hceq : c = cells - 1 := hc.trans (Nat.min_eq_left hcase.le)
      have hc1 : (c : ℚ) + 1 = (cells : ℚ) := by
        have h' : c + 1 = cells := by omega
        exact_mod_cast h'
      have hceil : (hi - lo) / cellW ≤ ((⌈(hi - lo) / cellW⌉ : ℤ) : ℚ) := Int.le_ceil _
      have hceilm : hi - lo ≤ ((⌈(hi - lo) / cellW⌉ : ℤ) : ℚ) * cellW := by
        rwa [div_le_iff₀ hcell] at hceil
      have hcellsq : (cells : ℚ) = ((⌈(hi - lo) / cellW⌉ : ℤ) : ℚ) := by
        rw [hcells]
        exact_mod_cast Int.toNat_of_nonneg hpos.le
      have hfin : hi ≤ lo + ((c : ℚ) + 1) * cellW := by
        rw [hc1, hcellsq]
        linarith
      have hdist : ((c : ℚ) + 1) * cellW = (c : ℚ) * cellW + cellW := by ring
      linarith
  · have hcleu : (c : ℚ) ≤ ((⌊(v - lo) / cellW⌋ : ℤ) : ℚ) := by
      have h1 : c ≤ (⌊(v - lo) / cellW⌋).toNat := hc ▸ Nat.min_le_right _ _
      have h2 : (c : ℤ) ≤ ⌊(v - lo) / cellW⌋ := by omega
      exact_mod_cast h2
    have hfl : ((⌊(v - lo) / cellW⌋ : ℤ) : ℚ) ≤ (v - lo) / cellW := Int.floor_le _
    have hflm : ((⌊(v - lo) / cellW⌋ : ℤ) : ℚ) * cellW ≤ v - lo := by
      rw [← le_div_iff₀ hcell]
      exact hfl
    have hcm : (c : ℚ) * cellW ≤ ((⌊(v - lo) / cellW⌋ : ℤ) : ℚ) * cellW :=
      mul_le_mul_of_nonneg_right hcleu hcell.le
    linarith

end Pagination

namespace Pagination

variable {α : Type} [DecidableEq α]

theorem gridInner_mono (nodes : List (DNode α)) (edges : List (DEdge α)) (bounds : Bounds)
    (maxW maxH : ℚ) (title : String) (py : Nat) :
    ∀ (pxs : List Nat) (acc : List (PageInfo α)) (p : PageInfo α), p ∈ acc →
      p ∈ pxs.foldl (gridInnerStep nodes edges bounds maxW maxH title py) acc := by
  intro pxs
  induction pxs with
  | nil => intro acc p hp; exact hp
  | cons x xs ih =>
    intro acc p hp
    rw [List.foldl_cons]
    apply ih
    simp only [gridInnerStep]
    split_ifs
    · exact List.mem_append_left _ hp
    · exact hp

theorem gridInner_covers (nodes : List (DNode α)) (edges : List (DEdge α)) (bounds : Bounds)
    (maxW maxH : ℚ) (title : String) (py : Nat) :
    ∀ (pxs : List Nat) (acc : List (PageInfo α)) (px : Nat), px ∈ pxs →
      gridCellNodes nodes bounds maxW maxH px py ≠ [] →
      ∃ p ∈ pxs.foldl (gridInnerStep nodes edges bounds maxW maxH title py) acc,
        p.nodes = gridCellNodes nodes bounds maxW maxH px py := by
  intro pxs
  induction pxs with
  | nil => intro acc px hpx; simp at hpx
  | cons x xs ih =>
    intro acc px hpx hne
    rcases List.mem_cons.mp hpx with heq | hpx'
    · subst heq
      rw [List.foldl_cons]
      have hpos : 0 < (gridCellNodes nodes bounds maxW maxH px py).length :=
        List.length_pos.mpr hne
      have hstep : gridInnerStep nodes edges bounds maxW maxH title py acc px
          = acc ++ [createPageInfo (gridCellNodes nodes bounds maxW maxH px py) edges
              (acc.length + 1) 0 title] := by
        simp only [gridInnerStep]
        rw [if_pos hpos]
      refine ⟨createPageInfo (gridCellNodes nodes bounds maxW maxH px py) edges
          (acc.length + 1) 0 title, ?_, createPageInfo_nodes _ _ _ _ _⟩
      apply gridInner_mono
      rw [hstep]
      exact List.mem_append_right _ (by simp)
    · rw [List.foldl_cons]
      exact ih _ px hpx' hne

theorem gridRow_mono (nodes : List (DNode α)) (edges : List (DEdge α)) (bounds : Bounds)
    (maxW maxH : ℚ) (title : String) (pagesX : Nat) :
    ∀ (pys : List Nat) (acc : List (PageInfo α)) (p : PageInfo α), p ∈ acc →
      p ∈ pys.foldl (gridRowStep nodes edges bounds maxW maxH title pagesX) acc := by
  intro pys
  induction pys with
  | nil => intro acc p hp; exact hp
  | cons y ys ih =>
    intro acc p hp
    rw [List.foldl_cons]
    apply ih
    unfold gridRowStep
    exact gridInner_mono nodes edges bounds maxW maxH title y _ acc p hp

theorem gridRow_covers (nodes : List (DNode α)) (edges : List (DEdge α)) (bounds : Bounds)
    (maxW maxH : ℚ) (title : String) (pagesX : Nat) :
    ∀ (pys : List Nat) (acc : List (PageInfo α)) (px py : Nat), py ∈ pys → px < pagesX →
      gridCellNodes nodes bounds maxW maxH px py ≠ [] →
      ∃ p ∈ pys.foldl (gridRowStep nodes edges bounds maxW maxH title pagesX) acc,
        p.nodes = gridCellNodes nodes bounds maxW maxH px py := by
  intro pys
  induction pys with
  | nil => intro acc px py hpy; simp at hpy
  | cons y ys ih =>
    intro acc px py hpy hpx hne
    rcases List.mem_cons.mp hpy with heq | hpy'
    · subst heq
      rw [List.foldl_cons]
      obtain ⟨p, hp, hpn⟩ := gridInner_covers nodes edges bounds maxW maxH title py
        (List.range pagesX) acc px (List.mem_range.mpr hpx) hne
      exact ⟨p, gridRow_mono nodes edges bounds maxW maxH title pagesX ys _ p hp, hpn⟩
    · rw [List.foldl_cons]
      exact ih _ px py hpy' hpx hne

/-- Every node of every grid page is a node of the diagram. -/
theorem paginateByGrid_support (nodes : List (DNode α)) (edges : List (DEdge α))
    (maxW maxH : ℚ) (title : String) :
    ∀ p ∈ paginateByGrid nodes edges maxW maxH title, ∀ m ∈ p.nodes, m ∈ nodes := by
  simp only [paginateByGrid, setTotalPages]
  intro p hp
  rcases List.mem_map.mp hp with ⟨q, hq, rfl⟩
  have hall : ∀ q ∈ (List.range (⌈(calculateDiagramBounds nodes).height / maxH⌉).toNat).foldl
      (gridRowStep nodes edges (calculateDiagramBounds nodes) maxW maxH title
        (⌈(calculateDiagramBounds nodes).width / maxW⌉).toNat) [],
      ∀ m ∈ q.nodes, m ∈ nodes := by
    apply foldl_inv (P := fun (acc : List (PageInfo α)) => ∀ q ∈ acc, ∀ m ∈ q.nodes, m ∈ nodes)
    · simp
    · intro acc py _ hP
      unfold gridRowStep
      apply foldl_inv (P := fun (acc : List (PageInfo α)) =>
        ∀ q ∈ acc, ∀ m ∈ q.nodes, m ∈ nodes) _ _ _ hP
      intro acc' px _ hP'
      simp only [gridInnerStep]
      split_ifs
      · intro q hq'
        rcases List.mem_append.mp hq' with h | h
        · exact hP' q h
        · simp only [List.mem_singleton] at h
          subst h
          intro m hm
          rw [createPageInfo_nodes] at hm
          simp only [gridCellNodes] at hm
          exact (List.mem_filter.mp hm).1
      · exact hP'
  exact hall q hq

/-- Every diagram node with non-negative dimensions appears on at least one
grid page. -/
theorem paginateByGrid_covers (nodes : List (DNode α)) (edges : List (DEdge α))
    (maxW maxH : ℚ) (title : String) (hmw : 0 < maxW) (hmh : 0 < maxH)
    (hdims : ∀ n ∈ nodes, 0 ≤ n.width ∧ 0 ≤ n.height) :
    ∀ n ∈ nodes, ∃ p ∈ paginateByGrid nodes edges maxW maxH title, n ∈ p.nodes := by
  intro n hn
  obtain ⟨hwn, hhn⟩ := hdims n hn
  obtain ⟨hminX, hmaxX, hminY, hmaxY⟩ := calculateDiagramBounds_le nodes hn
  have hne : nodes ≠ [] := List.ne_nil_of_mem hn
  obtain ⟨hW, hH⟩ := calculateDiagramBounds_width_height nodes hne
  have hwpos : (0 : ℚ) < orD n.width 120 := orD_pos n.width 120 hwn (by norm_num)
  have hhpos : (0 : ℚ) < orD n.height 60 := orD_pos n.height 60 hhn (by norm_num)
  obtain ⟨hxlt, hxle, hxge⟩ := grid_cell_1d (calculateDiagramBounds nodes).minX
    (calculateDiagramBounds nodes).maxX n.x (orD n.width 120) maxW
    (min ((⌈(calculateDiagramBounds nodes).width / maxW⌉).toNat - 1)
      ((⌊(n.x - (calculateDiagramBounds nodes).minX) / maxW⌋).toNat))
    ((⌈(calculateDiagramBounds nodes).width / maxW⌉).toNat)
    hmw hwpos hminX hmaxX (by rw [hW]) rfl
  obtain ⟨hylt, hyle, hyge⟩ := grid_cell_1d (calculateDiagramBounds nodes).minY
    (calculateDiagramBounds nodes).maxY n.y (orD n.height 60) maxH
    (min ((⌈(calculateDiagramBounds nodes).height / maxH⌉).toNat - 1)
      ((⌊(n.y - (calculateDiagramBounds nodes).minY) / maxH⌋).toNat))
    ((⌈(calculateDiagramBounds nodes).height / maxH⌉).toNat)
    hmh hhpos hminY hmaxY (by rw [hH]) rfl
  have hcellmem : n ∈ gridCellNodes nodes (calculateDiagramBounds nodes) maxW maxH
      (min ((⌈(calculateDiagramBounds nodes).width / maxW⌉).toNat - 1)
        ((⌊(n.x - (calculateDiagramBounds nodes).minX) / maxW⌋).toNat))
      (min ((⌈(calculateDiagramBounds nodes).height / maxH⌉).toNat - 1)
        ((⌊(n.y - (calculateDiagramBounds nodes).minY) / maxH⌋).toNat)) := by
    simp only [gridCellNodes]
    refine List.mem_filter.mpr ⟨hn, ?_⟩
    simp only [decide_eq_true_eq, not_or, not_lt]
    exact ⟨hxle, hxge, hyle, hyge⟩
  obtain ⟨p, hp, hpn⟩ := gridRow_covers nodes edges (calculateDiagramBounds nodes)
    maxW maxH title ((⌈(calculateDiagramBounds nodes).width / maxW⌉).toNat)
    (List.range (⌈(calculateDiagramBounds nodes).height / maxH⌉).toNat) []
    (min ((⌈(calculateDiagramBounds nodes).width / maxW⌉).toNat - 1)
      ((⌊(n.x - (calculateDiagramBounds nodes).minX) / maxW⌋).toNat))
    (min ((⌈(calculateDiagramBounds nodes).height / maxH⌉).toNat - 1)
      ((⌊(n.y - (calculateDiagramBounds nodes).minY) / maxH⌋).toNat))
    (List.mem_range.mpr hylt) hxlt (List.ne_nil_of_mem hcellmem)
  simp only [paginateByGrid, setTotalPages]
  exact ⟨_, List.mem_map_of_mem _ hp, by simpa [hpn] using hcellmem⟩

end Pagination

/-- C2 (amended): pagination completeness by strategy.  For the cluster
(class) strategy — with distinct node ids — and for the layer strategy, the
concatenation of all pages' nodes is a permutation of the input nodes: each
node occurs exactly once across all pages.  For the grid strategy, every page
only holds input nodes and every input node (with non-negative stored
dimensions, under positive page bounds) appears on at least one page — but a
node may appear on several pages (every cell its rectangle intersects), so
exactly-once does not hold for grids; see the counterexample. -/
theorem pagination_completeness {α : Type} [DecidableEq α]
    (nodes : List (DNode α)) (edges : List (DEdge α))
    (config : Pagination.PaginationConfig) :
    ((nodes.map (·.id)).Nodup →
      ((Pagination.paginateDiagram nodes edges "class" config).flatMap
        (·.nodes)).Perm nodes) ∧
    (config.preferredBreakPoints.getD "layers" = "layers" →
      ((Pagination.paginateDiagram nodes edges "flow" config).flatMap
        (·.nodes)).Perm nodes) ∧
    (config.preferredBreakPoints.getD "layers" = "grid" →
      0 < config.maxWidth.getD 1200 → 0 < config.maxHeight.getD 900 →
      (∀ n ∈ nodes, 0 ≤ n.width ∧ 0 ≤ n.height) →
      ((∀ p ∈ Pagination.paginateDiagram nodes edges "flow" config,
          ∀ m ∈ p.nodes, m ∈ nodes) ∧
       (∀ n ∈ nodes, ∃ p ∈ Pagination.paginateDiagram nodes edges "flow" config,
          n ∈ p.nodes))) := by
  refine ⟨?_, ?_, ?_⟩
  · intro hids
    simp only [Pagination.paginateDiagram]
    by_cases hfit : (Pagination.calculateDiagramBounds nodes).width ≤
        config.maxWidth.getD 1200 ∧
        (Pagination.calculateDiagramBounds nodes).height ≤ config.maxHeight.getD 900
    · rw [if_pos hfit]
      simp only [List.flatMap_cons, List.flatMap_nil, List.append_nil]
      exact List.Perm.refl nodes
    · rw [if_neg hfit]
      simp only [if_true, if_false]
      exact Pagination.paginateClassDiagram_perm nodes edges _ _ hids
  · intro hpref
    simp only [Pagination.paginateDiagram]
    by_cases hfit : (Pagination.calculateDiagramBounds nodes).width ≤
        config.maxWidth.getD 1200 ∧
        (Pagination.calculateDiagramBounds nodes).height ≤ config.maxHeight.getD 900
    · rw [if_pos hfit]
      simp only [List.flatMap_cons, List.flatMap_nil, List.append_nil]
      exact List.Perm.refl nodes
    · rw [if_neg hfit]
      simp only [if_true, if_false]
      simp only [Pagination.paginateFlowDiagram]
      rw [if_pos hpref]
      exact Pagination.paginateByLayers_perm nodes edges
        (config.maxWidth.getD 1200) (config.maxHeight.getD 900) "Flow Diagram"
  · intro hpref hw hh hdims
    have hnl : ¬(config.preferredBreakPoints.getD "layers" = "layers") := by
      rw [hpref]
      decide
    constructor
    · simp only [Pagination.paginateDiagram]
      by_cases hfit : (Pagination.calculateDiagramBounds nodes).width ≤
          config.maxWidth.getD 1200 ∧
          (Pagination.calculateDiagramBounds nodes).height ≤ config.maxHeight.getD 900
      · rw [if_pos hfit]
        intro p hp
        simp only [List.mem_singleton] at hp
        subst hp
        intro m hm
        exact hm
      · rw [if_neg hfit]
        simp only [if_true, if_false]
        simp only [Pagination.paginateFlowDiagram]
        rw [if_neg hnl]
        exact Pagination.paginateByGrid_support nodes edges _ _ _
    · simp only [Pagination.paginateDiagram]
      by_cases hfit : (Pagination.calculateDiagramBounds nodes).width ≤
          config.maxWidth.getD 1200 ∧
          (Pagination.calculateDiagramBounds nodes).height ≤ config.maxHeight.getD 900
      · rw [if_pos hfit]
        intro n hn
        exact ⟨_, List.mem_singleton_self _, hn⟩
      · rw [if_neg hfit]
        simp only [if_true, if_false]
        simp only [Pagination.paginateFlowDiagram]
        rw [if_neg hnl]
        exact Pagination.paginateByGrid_covers nodes edges _ _ _ hw hh hdims

/-- C2 counterexample to exactly-once for the grid strategy: node 2's
rectangle (x 50, width 110) straddles the boundary of two 100-wide grid
cells, so it is emitted on both pages and the pages' nodes are not a
permutation of the input. -/
theorem grid_duplicates_boundary_node :
    (((Pagination.paginateDiagram
        [({ id := 1, x := 0, y := 0, width := 10, height := 10 } : DNode Nat),
         { id := 2, x := 50, y := 0, width := 110, height := 10 }] []
        "flow"
        { maxWidth := some 100
          maxHeight := some 100
          preferredBreakPoints := some "grid" }).flatMap (·.nodes)).map (·.id)
      = [1, 2, 2]) ∧
    ¬ ((Pagination.paginateDiagram
        [({ id := 1, x := 0, y := 0, width := 10, height := 10 } : DNode Nat),
         { id := 2, x := 50, y := 0, width := 110, height := 10 }] []
        "flow"
        { maxWidth := some 100
          maxHeight := some 100
          preferredBreakPoints := some "grid" }).flatMap (·.nodes)).Perm
      [({ id := 1, x := 0, y := 0, width := 10, height := 10 } : DNode Nat),
       { id := 2, x := 50, y := 0, width := 110, height := 10 }] := by
  constructor <;> with_unfolding_all decide

/-- C2 witness: the completeness theorem applied to a concrete two-node
diagram, once with the layers strategy and once with the grid strategy. -/
theorem pagination_completeness_witness :
    ((Pagination.paginateDiagram
        [({ id := 1, x := 0, y := 0, width := 10, height := 10 } : DNode Nat),
         { id := 2, x := 150, y := 0, width := 20, height := 10 }] []
        "class" { maxWidth := some 100, maxHeight := some 100 }).flatMap
      (·.nodes)).Perm
      [({ id := 1, x := 0, y := 0, width := 10, height := 10 } : DNode Nat),
       { id := 2, x := 150, y := 0, width := 20, height := 10 }] ∧
    ((Pagination.paginateDiagram
        [({ id := 1, x := 0, y := 0, width := 10, height := 10 } : DNode Nat),
         { id := 2, x := 150, y := 0, width := 20, height := 10 }] []
        "flow" { maxWidth := some 100, maxHeight := some 100 }).flatMap
      (·.nodes)).Perm
      [({ id := 1, x := 0, y := 0, width := 10, height := 10 } : DNode Nat),
       { id := 2, x := 150, y := 0, width := 20, height := 10 }] ∧
    (∀ n ∈ [({ id := 1, x := 0, y := 0, width := 10, height := 10 } : DNode Nat),
            { id := 2, x := 150, y := 0, width := 20, height := 10 }],
      ∃ p ∈ Pagination.paginateDiagram
        [({ id := 1, x := 0, y := 0, width := 10, height := 10 } : DNode Nat),
         { id := 2, x := 150, y := 0, width := 20, height := 10 }] []
        "flow"
        { maxWidth := some 100
          maxHeight := some 100
          preferredBreakPoints := some "grid" },
        n ∈ p.nodes) :=
  ⟨(pagination_completeness _ [] { maxWidth := some 100, maxHeight := some 100 }).1
      (by with_unfolding_all decide),
   (pagination_completeness _ [] { maxWidth := some 100, maxHeight := some 100 }).2.1
      (by with_unfolding_all rfl),
   ((pagination_completeness _ []
        { maxWidth := some 100
          maxHeight := some 100
          preferredBreakPoints := some "grid" }).2.2
      (by with_unfolding_all rfl) (by with_unfolding_all decide)
      (by with_unfolding_all decide) (by with_unfolding_all decide)).2⟩

/- ### C7: parser result discipline -/

namespace MindmapParser

variable {α : Type} [DecidableEq α]

/-- A mindmap line is either skipped (blank or `//` comment, loop state
unchanged) or appends exactly one node whose id is the next supply value. -/
theorem stepLine_cases (σ : Nat → α) (s : LoopState α) (l : String) :
    (stepLine σ s l = s ∧ (l.trim = "" ∨ l.trim.startsWith "//")) ∨
    (¬(l.trim = "" ∨ l.trim.startsWith "//") ∧
      ∃ node, (stepLine σ s l).nodes = s.nodes ++ [node] ∧ node.id = σ s.k) := by
  unfold stepLine
  by_cases h : l.trim = "" ∨ l.trim.startsWith "//"
  · left
    exact ⟨by rw [if_pos h], h⟩
  · right
    refine ⟨h, ?_⟩
    rw [if_neg h]
    dsimp only
    cases hh : (s.stack.dropWhile (fun entry => entry.2 ≥ getIndentLevel l)).head? with
    | none => exact ⟨_, rfl, rfl⟩
    | some p =>
      obtain ⟨parent, lvl⟩ := p
      exact ⟨_, rfl, rfl⟩

/-- The node list only grows along the mindmap line loop. -/
theorem foldl_stepLine_nodes_prefix (σ : Nat → α) :
    ∀ (lines : List String) (s : LoopState α),
      s.nodes <+: (lines.foldl (stepLine σ) s).nodes := by
  intro lines
  induction lines with
  | nil => intro s; exact List.prefix_refl _
  | cons l ls ih =>
    intro s
    rw [List.foldl_cons]
    refine List.IsPrefix.trans ?_ (ih _)
    rcases stepLine_cases σ s l with ⟨heq, _⟩ | ⟨_, node, heq, _⟩
    · rw [heq]
    · rw [heq]
      exact ⟨[node], rfl⟩

/-- The mindmap line loop produces no nodes exactly when it started with none
and every line is blank or a comment. -/
theorem foldl_stepLine_nodes_nil_iff (σ : Nat → α) :
    ∀ (lines : List String) (s : LoopState α),
      ((lines.foldl (stepLine σ) s).nodes = [] ↔
        (s.nodes = [] ∧ ∀ l ∈ lines, l.trim = "" ∨ l.trim.startsWith "//")) := by
  intro lines
  induction lines with
  | nil => intro s; simp
  | cons l ls ih =>
    intro s
    rw [List.foldl_cons]
    rcases stepLine_cases σ s l with ⟨heq, hskip⟩ | ⟨hns, node, heq, _⟩
    · rw [heq, ih]
      constructor
      · rintro ⟨h1, h2⟩
        refine ⟨h1, fun x hx => ?_⟩
        rcases List.mem_cons.mp hx with heq' | hx'
        · exact heq' ▸ hskip
        · exact h2 x hx'
      · rintro ⟨h1, h2⟩
        exact ⟨h1, fun x hx => h2 x (List.mem_cons_of_mem _ hx)⟩
    · constructor
      · intro hnil
        have hpre := foldl_stepLine_nodes_prefix σ ls (stepLine σ s l)
        rw [hnil] at hpre
        have hsn : (stepLine σ s l).nodes = [] := List.prefix_nil.mp hpre
        rw [heq] at hsn
        simp at hsn
      · rintro ⟨_, h2⟩
        exact absurd (h2 l (by simp)) hns

/-- Every node the mindmap line loop emits carries a generated id. -/
theorem foldl_stepLine_ids (σ : Nat → α) :
    ∀ (lines : List String) (s : LoopState α),
      (∀ n ∈ s.nodes, ∃ k, n.id = σ k) →
      ∀ n ∈ (lines.foldl (stepLine σ) s).nodes, ∃ k, n.id = σ k := by
  intro lines
  induction lines with
  | nil => intro s h; exact h
  | cons l ls ih =>
    intro s h
    rw [List.foldl_cons]
    apply ih
    rcases stepLine_cases σ s l with ⟨heq, _⟩ | ⟨_, node, heq, hid⟩
    · rw [heq]
      exact h
    · rw [heq]
      intro n hn
      rcases List.mem_append.mp hn with h' | h'
      · exact h n h'
      · simp only [List.mem_singleton] at h'
        subst h'
        exact ⟨s.k, hid⟩

end MindmapParser

namespace Layout

variable {α : Type} [DecidableEq α]

/-- The mindmap tree layout of a non-empty node list is non-empty: the
(positioned) root is always emitted first. -/
theorem positionMindmapNodesTree_ne_nil (nodes : List (DNode α)) (edges : List (DEdge α))
    (hne : nodes ≠ []) : positionMindmapNodesTree nodes edges ≠ [] := by
  match nodes, hne with
  | f :: rest, _ => simp [positionMindmapNodesTree]

end Layout

/-- C7: every parser returns a discriminated ok/err result (the embedding of
each parser's try/catch boundary is total), and the mindmap parser errs
exactly when the input has no usable line — no non-blank, non-`//`-comment
line — given that the id generator never produces the falsy id. -/
theorem parser_result_discipline {α : Type} [DecidableEq α] (σ : Nat → α) (e0 : α)
    (input : String) (hσ : ∀ k, σ k ≠ e0) :
    ((∃ d, ClassParser.parseClassDiagram σ input = .ok d) ∨
      (∃ e, ClassParser.parseClassDiagram σ input = .err e)) ∧
    ((∃ d, SequenceParser.parseSequenceDiagram σ e0 input = .ok d) ∨
      (∃ e, SequenceParser.parseSequenceDiagram σ e0 input = .err e)) ∧
    ((∃ d, FlowParser.parseFlowDiagram σ input = .ok d) ∨
      (∃ e, FlowParser.parseFlowDiagram σ input = .err e)) ∧
    ((∃ d, UsecaseParser.parseUsecaseDiagram σ input = .ok d) ∨
      (∃ e, UsecaseParser.parseUsecaseDiagram σ input = .err e)) ∧
    ((∃ d, MindmapParser.parseMindmapDiagram σ e0 input = .ok d) ∨
      (∃ e, MindmapParser.parseMindmapDiagram σ e0 input = .err e)) ∧
    (isSuccess (MindmapParser.parseMindmapDiagram σ e0 input) = false ↔
      ∀ line ∈ input.splitOn "
", line.trim = "" ∨ line.trim.startsWith "//") := by
  have hdisj : ∀ (r : ParserResult α), (∃ d, r = .ok d) ∨ (∃ e, r = .err e) := by
    intro r
    cases r with
    | ok d => exact Or.inl ⟨d, rfl⟩
    | err e => exact Or.inr ⟨e, rfl⟩
  refine ⟨hdisj _, hdisj _, hdisj _, hdisj _, hdisj _, ?_⟩
  have hkey : isSuccess (MindmapParser.parseMindmapDiagram σ e0 input) = false ↔
      (MindmapParser.parseLines σ input).1 = [] := by
    simp only [MindmapParser.parseMindmapDiagram]
    by_cases hnil : (MindmapParser.parseLines σ input).1.isEmpty = true
    · rw [if_pos hnil]
      simp [isSuccess, List.isEmpty_iff.mp hnil]
    · rw [if_neg hnil]
      have hne : (MindmapParser.parseLines σ input).1 ≠ [] := by
        simpa [List.isEmpty_iff] using hnil
      have hfilter : ((MindmapParser.parseLines σ input).1.filter
          (fun n => n.id = e0)) = [] := by
        rw [List.filter_eq_nil_iff]
        intro n hn
        obtain ⟨k, hk⟩ := MindmapParser.foldl_stepLine_ids σ (input.splitOn "
")
          { nodes := [], edges := [], stack := [], k := 0 } (by simp) n hn
        simp only [decide_eq_true_eq]
        rw [hk]
        exact hσ k
      rw [hfilter]
      rw [if_neg (by simp)]
      have hlne : ¬((Layout.positionMindmapNodesTree (MindmapParser.parseLines σ input).1
          (MindmapParser.parseLines σ input).2).isEmpty = true) := by
        simpa [List.isEmpty_iff] using
          Layout.positionMindmapNodesTree_ne_nil (MindmapParser.parseLines σ input).1
            (MindmapParser.parseLines σ input).2 hne
      rw [if_neg hlne]
      simp [isSuccess, hne]
  rw [hkey]
  simp only [MindmapParser.parseLines]
  have h2 := MindmapParser.foldl_stepLine_nodes_nil_iff σ (input.splitOn "
")
    { nodes := [], edges := [], stack := [], k := 0 }
  simpa using h2

/-- C7 witness: the discipline theorem applied to the id supply `k + 1` (never
falsy) on an input whose first line is a comment and whose second line is a
usable mindmap node. -/
theorem parser_result_discipline_witness :
    (∀ k, idSupply k ≠ 0) ∧
    (((∃ d, ClassParser.parseClassDiagram idSupply "//x
A" = .ok d) ∨
       (∃ e, ClassParser.parseClassDiagram idSupply "//x
A" = .err e)) ∧
     ((∃ d, SequenceParser.parseSequenceDiagram idSupply 0 "//x
A" = .ok d) ∨
       (∃ e, SequenceParser.parseSequenceDiagram idSupply 0 "//x
A" = .err e)) ∧
     ((∃ d, FlowParser.parseFlowDiagram idSupply "//x
A" = .ok d) ∨
       (∃ e, FlowParser.parseFlowDiagram idSupply "//x
A" = .err e)) ∧
     ((∃ d, UsecaseParser.parseUsecaseDiagram idSupply "//x
A" = .ok d) ∨
       (∃ e, UsecaseParser.parseUsecaseDiagram idSupply "//x
A" = .err e)) ∧
     ((∃ d, MindmapParser.parseMindmapDiagram idSupply 0 "//x
A" = .ok d) ∨
       (∃ e, MindmapParser.parseMindmapDiagram idSupply 0 "//x
A" = .err e)) ∧
     (isSuccess (MindmapParser.parseMindmapDiagram idSupply 0 "//x
A") = false ↔
       ∀ line ∈ ("//x
A").splitOn "
",
         line.trim = "" ∨ line.trim.startsWith "//")) :=
  ⟨fun k => Nat.succ_ne_zero k,
   parser_result_discipline idSupply 0 "//x
A" (fun k => Nat.succ_ne_zero k)⟩

/- ### C10: no dangling edge references -/

/-- Erasing `x` from one layer keeps every other element in the flattened
layers. -/
theorem mem_flatten_set_erase {β : Type} [DecidableEq β] :
    ∀ (layers : List (List β)) (i : Nat) (x m : β), m ≠ x →
      m ∈ layers.flatten →
      m ∈ (layers.set i ((layers.getD i []).erase x)).flatten := by
  intro layers
  induction layers with
  | nil => intro i x m _ hm; simp at hm
  | cons l ls ih =>
    intro i x m hne hm
    cases i with
    | zero =>
      simp only [List.set_cons_zero, List.getD_cons_zero, List.flatten_cons]
      rw [List.flatten_cons] at hm
      rcases List.mem_append.mp hm with h | h
      · exact List.mem_append_left _ ((List.mem_erase_of_ne hne).mpr h)
      · exact List.mem_append_right _ h
    | succ j =>
      simp only [List.set_cons_succ, List.getD_cons_succ, List.flatten_cons]
      rw [List.flatten_cons] at hm
      rcases List.mem_append.mp hm with h | h
      · exact List.mem_append_left _ h
      · exact List.mem_append_right _ (ih j x m hne h)

/-- Appending to one layer keeps every element in the flattened layers. -/
theorem mem_flatten_set_append {β : Type} :
    ∀ (layers : List (List β)) (j : Nat) (x m : β),
      m ∈ layers.flatten →
      m ∈ (layers.set j (layers.getD j [] ++ [x])).flatten := by
  intro layers
  induction layers with
  | nil => intro j x m hm; simp at hm
  | cons l ls ih =>
    intro j x m hm
    cases j with
    | zero =>
      simp only [List.set_cons_zero, List.getD_cons_zero, List.flatten_cons]
      rw [List.flatten_cons] at hm
      rcases List.mem_append.mp hm with h | h
      · exact List.mem_append_left _ (List.mem_append_left _ h)
      · exact List.mem_append_right _ h
    | succ i =>
      simp only [List.set_cons_succ, List.getD_cons_succ, List.flatten_cons]
      rw [List.flatten_cons] at hm
      rcases List.mem_append.mp hm with h | h
      · exact List.mem_append_left _ h
      · exact List.mem_append_right _ (ih i x m h)

/-- The element appended to an existing layer is in the flattened layers. -/
theorem self_mem_flatten_set_append {β : Type} :
    ∀ (layers : List (List β)) (j : Nat) (x : β), j < layers.length →
      x ∈ (layers.set j (layers.getD j [] ++ [x])).flatten := by
  intro layers
  induction layers with
  | nil => intro j x hj; simp at hj
  | cons l ls ih =>
    intro j x hj
    cases j with
    | zero =>
      simp only [List.set_cons_zero, List.getD_cons_zero, List.flatten_cons]
      exact List.mem_append_left _ (List.mem_append_right _ (by simp))
    | succ i =>
      simp only [List.set_cons_succ, List.getD_cons_succ, List.flatten_cons]
      exact List.mem_append_right _ (ih i x (by simpa using hj))

/-- A fold of `max` over bounded values stays below the bound. -/
theorem foldl_max_lt_of {β : Type} (f : β → Nat) (N : Nat) :
    ∀ (l : List β) (init : Nat), init < N → (∀ b ∈ l, f b < N) →
      l.foldl (fun m b => max m (f b)) init < N := by
  intro l
  induction l with
  | nil => intro init h _; exact h
  | cons b bs ih =>
    intro init h hall
    rw [List.foldl_cons]
    exact ih _ (max_lt h (hall b (by simp))) (fun c hc => hall c (by simp [hc]))

/-- Transfer an id witness through an `enum.map` whose function keeps the
node's id. -/
theorem exists_id_enum_map {α : Type} (l : List (DNode α)) (f : Nat × DNode α → DNode α)
    (hf : ∀ i x, (f (i, x)).id = x.id) {a : α} (h : ∃ x ∈ l, x.id = a) :
    ∃ y ∈ l.enum.map f, y.id = a := by
  obtain ⟨x, hx, hid⟩ := h
  obtain ⟨i, hi, hget⟩ := List.getElem_of_mem hx
  refine ⟨f (i, x), ?_, by rw [hf]; exact hid⟩
  exact List.mem_map.mpr ⟨(i, x),
    (List.mk_mem_enum_iff_getElem?).mpr (List.getElem?_eq_some.mpr ⟨hi, hget⟩), rfl⟩

/-- Transfer an id witness through an `enum.flatMap` whose blocks preserve
id witnesses. -/
theorem exists_id_enum_flatMap {α : Type} (layers : List (List (DNode α)))
    (F : Nat × List (DNode α) → List (DNode α))
    (hF : ∀ j row (a : α), (∃ m ∈ row, m.id = a) → ∃ y ∈ F (j, row), y.id = a)
    {a : α} (h : ∃ m ∈ layers.flatten, m.id = a) :
    ∃ y ∈ layers.enum.flatMap F, y.id = a := by
  obtain ⟨m, hm, hid⟩ := h
  obtain ⟨row, hrow, hmrow⟩ := List.mem_flatten.mp hm
  obtain ⟨j, hj, hgetr⟩ := List.getElem_of_mem hrow
  obtain ⟨y, hy, hyid⟩ := hF j row a ⟨m, hmrow, hid⟩
  refine ⟨y, ?_, hyid⟩
  exact List.mem_flatMap.mpr ⟨(j, row),
    (List.mk_mem_enum_iff_getElem?).mpr (List.getElem?_eq_some.mpr ⟨hj, hgetr⟩), hy⟩

namespace Layout

variable {α : Type} [DecidableEq α]

/-- Every visited id of the BFS has a node in the accumulated layers. -/
theorem bfsLoop_visited_in_layers (nodes : List (DNode α)) (edges : List (DEdge α)) :
    ∀ (fuel : Nat) (queue : List (DNode α × Nat)) (layers : List (List (DNode α)))
      (visited : List α),
      (∀ a ∈ visited, ∃ m ∈ layers.flatten, m.id = a) →
      ∀ a ∈ (bfsLoop nodes edges fuel queue layers visited).2,
        ∃ m ∈ (bfsLoop nodes edges fuel queue layers visited).1.flatten, m.id = a := by
  intro fuel
  induction fuel with
  | zero => intro queue layers visited h; simpa [bfsLoop] using h
  | succ fuel ih =>
    intro queue layers visited h
    match queue with
    | [] => simpa [bfsLoop] using h
    | (node, layer) :: queue =>
      simp only [bfsLoop]
      by_cases hv : visited.contains node.id = true
      · rw [if_pos hv]
        exact ih queue layers visited h
      · rw [if_neg hv]
        apply ih
        intro a ha
        rcases List.mem_append.mp ha with ha' | ha'
        · obtain ⟨m, hm, hmid⟩ := h a ha'
          refine ⟨m, ?_, hmid⟩
          apply mem_flatten_set_append
          rw [List.flatten_append]
          exact List.mem_append_left _ hm
        · simp only [List.mem_singleton] at ha'
          subst ha'
          refine ⟨node, ?_, rfl⟩
          apply self_mem_flatten_set_append
          rw [List.length_append, List.length_replicate]
          omega

/-- The BFS only grows the layer list. -/
theorem bfsLoop_length_mono (nodes : List (DNode α)) (edges : List (DEdge α)) :
    ∀ (fuel : Nat) (queue : List (DNode α × Nat)) (layers : List (List (DNode α)))
      (visited : List α),
      layers.length ≤ (bfsLoop nodes edges fuel queue layers visited).1.length := by
  intro fuel
  induction fuel with
  | zero => intro q l v; simp [bfsLoop]
  | succ fuel ih =>
    intro q l v
    match q with
    | [] => simp [bfsLoop]
    | (node, layer) :: queue =>
      simp only [bfsLoop]
      by_cases hv : v.contains node.id = true
      · rw [if_pos hv]
        exact ih queue l v
      · rw [if_neg hv]
        refine le_trans ?_ (ih _ _ _)
        rw [List.length_set, List.length_append, List.length_replicate]
        omega

theorem unvisitedStep_length (visited : List α) (layers : List (List (DNode α)))
    (x : DNode α) : (unvisitedStep visited layers x).length = layers.length := by
  unfold unvisitedStep
  split_ifs
  · rfl
  · simp

theorem unvisitedStep_preserves (visited : List α) (layers : List (List (DNode α)))
    (x : DNode α) (a : α) (h : ∃ m ∈ layers.flatten, m.id = a) :
    ∃ m ∈ (unvisitedStep visited layers x).flatten, m.id = a := by
  unfold unvisitedStep
  split_ifs
  · exact h
  · obtain ⟨m, hm, hmid⟩ := h
    exact ⟨m, mem_flatten_set_append layers _ x m hm, hmid⟩

theorem unvisitedFold_length (visited : List α) :
    ∀ (ns : List (DNode α)) (layers : List (List (DNode α))),
      (ns.foldl (unvisitedStep visited) layers).length = layers.length := by
  intro ns
  induction ns with
  | nil => intro layers; rfl
  | cons x xs ih =>
    intro layers
    rw [List.foldl_cons, ih, unvisitedStep_length]

theorem unvisitedFold_preserves (visited : List α) :
    ∀ (ns : List (DNode α)) (layers : List (List (DNode α))) (a : α),
      (∃ m ∈ layers.flatten, m.id = a) →
      ∃ m ∈ (ns.foldl (unvisitedStep visited) layers).flatten, m.id = a := by
  intro ns
  induction ns with
  | nil => intro layers a h; exact h
  | cons x xs ih =>
    intro layers a h
    rw [List.foldl_cons]
    exact ih _ a (unvisitedStep_preserves visited layers x a h)

/-- Every node — BFS-visited (with a layer witness) or not — survives the
unreached-node pass. -/
theorem unvisitedFold_complete (visited : List α) :
    ∀ (ns : List (DNode α)) (layers : List (List (DNode α))), 1 ≤ layers.length →
      (∀ n ∈ ns, visited.contains n.id = true → ∃ m ∈ layers.flatten, m.id = n.id) →
      ∀ n ∈ ns, ∃ m ∈ (ns.foldl (unvisitedStep visited) layers).flatten, m.id = n.id := by
  intro ns
  induction ns with
  | nil => intro layers _ _ n hn; simp at hn
  | cons x xs ih =>
    intro layers hlen hvis n hn
    rw [List.foldl_cons]
    rcases List.mem_cons.mp hn with heq | hn'
    · subst heq
      apply unvisitedFold_preserves
      unfold unvisitedStep
      split_ifs with hv
      · exact hvis n (by simp) hv
      · refine ⟨n, ?_, rfl⟩
        apply self_mem_flatten_set_append
        omega
    · refine ih (unvisitedStep visited layers x) ?_ ?_ n hn'
      · rw [unvisitedStep_length]
        exact hlen
      · intro y hy hyv
        exact unvisitedStep_preserves visited layers x y.id
          (hvis y (List.mem_cons_of_mem _ hy) hyv)

theorem rootNodesOf_ne_nil (nodes : List (DNode α)) (edges : List (DEdge α))
    (hne : nodes ≠ []) : rootNodesOf nodes edges ≠ [] := by
  simp only [rootNodesOf]
  split_ifs with h
  · split
    · simp
    · match nodes, hne with
      | f :: rest, _ => simp
  · simpa [List.isEmpty_iff] using h

/-- The BFS of `layersOf`, fed a non-empty root set, produces at least one
layer. -/
theorem bfs_layers_one_le (nodes : List (DNode α)) (edges : List (DEdge α))
    (hne : nodes ≠ []) :
    1 ≤ ((bfsLoop nodes edges (bfsFuel nodes edges)
      ((rootNodesOf nodes edges).map (fun n => (n, 0))) [] []).1).length := by
  cases hroot : rootNodesOf nodes edges with
  | nil => exact absurd hroot (rootNodesOf_ne_nil nodes edges hne)
  | cons r rs =>
    simp only [List.map_cons, bfsFuel, bfsLoop]
    rw [if_neg (by simp)]
    refine le_trans ?_ (bfsLoop_length_mono nodes edges _ _ _ _)
    rw [List.length_set, List.length_append, List.length_replicate]
    omega

theorem layersOf_ne_nil (nodes : List (DNode α)) (edges : List (DEdge α))
    (hne : nodes ≠ []) : layersOf nodes edges ≠ [] := by
  simp only [layersOf, appendUnvisited]
  intro hcontra
  have hlen := unvisitedFold_length
    ((bfsLoop nodes edges (bfsFuel nodes edges)
      ((rootNodesOf nodes edges).map (fun n => (n, 0))) [] []).2) nodes
    ((bfsLoop nodes edges (bfsFuel nodes edges)
      ((rootNodesOf nodes edges).map (fun n => (n, 0))) [] []).1)
  rw [hcontra] at hlen
  have hone := bfs_layers_one_le nodes edges hne
  simp at hlen
  omega

/-- Every input node has a representative (same id) somewhere in the layers
of `layersOf`. -/
theorem layersOf_complete (nodes : List (DNode α)) (edges : List (DEdge α))
    (hne : nodes ≠ []) :
    ∀ n ∈ nodes, ∃ m ∈ (layersOf nodes edges).flatten, m.id = n.id := by
  simp only [layersOf, appendUnvisited]
  intro n hn
  refine unvisitedFold_complete _ nodes _ (bfs_layers_one_le nodes edges hne) ?_ n hn
  intro x _ hxv
  exact bfsLoop_visited_in_layers nodes edges _ _ _ _ (by simp) x.id
    (by simpa [List.elem_iff] using hxv)

omit [DecidableEq α] in
/-- The overlap-fix positioning pass keeps every id. -/
theorem LayoutV2.placeLayers_complete (layers : List (List (DNode α)))
    (o : LayoutOptions) {a : α} (h : ∃ m ∈ layers.flatten, m.id = a) :
    ∃ y ∈ LayoutV2.placeLayers layers o, y.id = a := by
  unfold LayoutV2.placeLayers
  apply exists_id_enum_flatMap _ _ _ h
  intro j row b hb
  dsimp only
  unfold LayoutV2.placeRow
  apply exists_id_enum_map _ _ _ hb
  intro i x
  dsimp only
  split_ifs <;> rfl

omit [DecidableEq α] in
/-- The sequence layout keeps every id of an all-actor node list. -/
theorem positionSequenceNodes_complete (nodes : List (DNode α))
    (hall : ∀ n ∈ nodes, n.type = "actor") {a : α} (h : ∃ n ∈ nodes, n.id = a) :
    ∃ y ∈ positionSequenceNodes nodes, y.id = a := by
  unfold positionSequenceNodes
  have hfilter : nodes.filter (fun n => n.type == "actor") = nodes :=
    List.filter_eq_self.mpr (fun n hn => by simp [hall n hn])
  rw [hfilter]
  apply exists_id_enum_map _ _ _ h
  intro i x
  rfl

end Layout

/-- `List.lookup` only returns stored bindings. -/
theorem lookup_mem {β γ : Type} [DecidableEq β] :
    ∀ (l : List (β × γ)) (k : β) (v : γ), l.lookup k = some v → (k, v) ∈ l := by
  intro l
  induction l with
  | nil => intro k v h; simp [List.lookup] at h
  | cons p ps ih =>
    obtain ⟨k', v'⟩ := p
    intro k v h
    simp only [List.lookup] at h
    split at h
    · rename_i heq
      injection h with h
      subst h
      have hk : k = k' := by simpa using heq
      subst hk
      simp
    · exact List.mem_cons_of_mem _ (ih k v h)

namespace FlowParser

variable {α : Type} [DecidableEq α]

/-- The node `ensureNode` hands back is stored in the map it hands back. -/
theorem ensureNode_mem (σ : Nat → α) (nodeMap : List (String × DNode α)) (k : Nat)
    (nm : String) :
    ∃ p ∈ (ensureNode σ nodeMap k nm).1, p.2 = (ensureNode σ nodeMap k nm).2.1 := by
  unfold ensureNode
  cases hl : nodeMap.lookup nm with
  | some n => exact ⟨(nm, n), lookup_mem nodeMap nm n hl, rfl⟩
  | none =>
    refine ⟨(nm, { id := σ k, name := nm, type := getNodeType nm, label := nm }), ?_, rfl⟩
    exact List.mem_append_right _ (by simp)

/-- `ensureNode` only appends to the map. -/
theorem ensureNode_extends (σ : Nat → α) (nodeMap : List (String × DNode α)) (k : Nat)
    (nm : String) :
    ∀ p ∈ nodeMap, p ∈ (ensureNode σ nodeMap k nm).1 := by
  unfold ensureNode
  cases hl : nodeMap.lookup nm with
  | some n => exact fun p hp => hp
  | none => exact fun p hp => List.mem_append_left _ hp

/-- Both endpoint ids of every extracted flow edge are ids of mapped nodes. -/
theorem extractFlow_resolved (σ : Nat → α) (lines : List String) :
    ∀ e ∈ (extractFlow σ lines).2.1,
      (∃ p ∈ (extractFlow σ lines).1, p.2.id = e.efrom) ∧
      (∃ p ∈ (extractFlow σ lines).1, p.2.id = e.eto) := by
  unfold extractFlow
  apply foldl_inv (P := fun (acc : List (String × DNode α) × List (DEdge α) × Nat) =>
    ∀ e ∈ acc.2.1, (∃ p ∈ acc.1, p.2.id = e.efrom) ∧ (∃ p ∈ acc.1, p.2.id = e.eto))
  · simp
  · intro acc line _ hP
    cases hm : TextMatch.matchFlowLine line with
    | none => exact hP
    | some trip =>
      obtain ⟨fromName, toName, label⟩ := trip
      dsimp only
      intro e he
      rcases List.mem_append.mp he with h | h
      · obtain ⟨⟨p, hp, hpid⟩, ⟨q, hq, hqid⟩⟩ := hP e h
        exact ⟨⟨p, ensureNode_extends _ _ _ _ p (ensureNode_extends _ _ _ _ p hp), hpid⟩,
          ⟨q, ensureNode_extends _ _ _ _ q (ensureNode_extends _ _ _ _ q hq), hqid⟩⟩
      · simp only [List.mem_singleton] at h
        subst h
        constructor
        · obtain ⟨p, hp, hpid⟩ := ensureNode_mem σ acc.1 acc.2.2 fromName
          exact ⟨p, ensureNode_extends _ _ _ _ p hp, by rw [hpid]⟩
        · obtain ⟨q, hq, hqid⟩ := ensureNode_mem σ
            (ensureNode σ acc.1 acc.2.2 fromName).1
            (ensureNode σ acc.1 acc.2.2 fromName).2.2 toName
          exact ⟨q, hq, by rw [hqid]⟩

/-- `Map.set` keeps old bindings or writes the given value. -/
theorem setAssoc_mem (l : List (α × Nat)) (key : α) (v : Nat) :
    ∀ kv ∈ setAssoc l key v, kv ∈ l ∨ kv.2 = v := by
  intro kv hkv
  unfold setAssoc at hkv
  split_ifs at hkv
  · rcases List.mem_map.mp hkv with ⟨kv', hkv', heq⟩
    split_ifs at heq
    · right
      rw [← heq]
    · left
      rw [← heq]
      exact hkv'
  · rcases List.mem_append.mp hkv with h | h
    · left
      exact h
    · right
      simp only [List.mem_singleton] at h
      rw [h]

/-- Invariants of the flow BFS: every visited id has a node in the layers,
every recorded layer index is within the layer list, and the layer list only
grows. -/
theorem flowBfs_invariant (nodes : List (DNode α)) (edges : List (DEdge α)) :
    ∀ (fuel : Nat) (queue : List (DNode α × Nat)) (layers : List (List (DNode α)))
      (visited : List α) (n2l : List (α × Nat)),
      (∀ a ∈ visited, ∃ m ∈ layers.flatten, m.id = a) →
      (∀ kv ∈ n2l, kv.2 < layers.length) →
      ((∀ a ∈ (flowBfs nodes edges fuel queue layers visited n2l).2.1,
          ∃ m ∈ (flowBfs nodes edges fuel queue layers visited n2l).1.flatten, m.id = a) ∧
       (∀ kv ∈ (flowBfs nodes edges fuel queue layers visited n2l).2.2,
          kv.2 < (flowBfs nodes edges fuel queue layers visited n2l).1.length) ∧
       layers.length ≤ (flowBfs nodes edges fuel queue layers visited n2l).1.length) := by
  intro fuel
  induction fuel with
  | zero => intro queue layers visited n2l h1 h2; exact ⟨h1, h2, le_refl _⟩
  | succ fuel ih =>
    intro queue layers visited n2l h1 h2
    match queue with
    | [] => exact ⟨h1, h2, le_refl _⟩
    | (node, layer) :: queue =>
      simp only [flowBfs]
      by_cases hv : visited.contains node.id = true
      · rw [if_pos hv]
        exact ih queue layers visited n2l h1 h2
      · rw [if_neg hv]
        have hlt : layer < ((layers ++ List.replicate (layer + 1 - layers.length) []).set
            layer ((layers ++ List.replicate (layer + 1 - layers.length) []).getD layer []
              ++ [node])).length := by
          rw [List.length_set, List.length_append, List.length_replicate]
          omega
        have hle : layers.length ≤ ((layers ++ List.replicate (layer + 1 - layers.length)
            []).set layer ((layers ++ List.replicate (layer + 1 - layers.length) []).getD
              layer [] ++ [node])).length := by
          rw [List.length_set, List.length_append, List.length_replicate]
          omega
        have hvis' : ∀ a ∈ visited ++ [node.id],
            ∃ m ∈ ((layers ++ List.replicate (layer + 1 - layers.length) []).set layer
              ((layers ++ List.replicate (layer + 1 - layers.length) []).getD layer []
                ++ [node])).flatten, m.id = a := by
          intro a ha
          rcases List.mem_append.mp ha with ha' | ha'
          · obtain ⟨m, hm, hmid⟩ := h1 a ha'
            refine ⟨m, ?_, hmid⟩
            apply mem_flatten_set_append
            rw [List.flatten_append]
            exact List.mem_append_left _ hm
          · simp only [List.mem_singleton] at ha'
            subst ha'
            exact ⟨node, self_mem_flatten_set_append _ _ _ (by
              rw [List.length_append, List.length_replicate]; omega), rfl⟩
        have hn2l' : ∀ kv ∈ setAssoc n2l node.id layer,
            kv.2 < ((layers ++ List.replicate (layer + 1 - layers.length) []).set layer
              ((layers ++ List.replicate (layer + 1 - layers.length) []).getD layer []
                ++ [node])).length := by
          intro kv hkv
          rcases setAssoc_mem n2l node.id layer kv hkv with h | h
          · exact lt_of_lt_of_le (h2 kv h) hle
          · rw [h]
            exact hlt
        exact ⟨(ih _ _ _ _ hvis' hn2l').1, (ih _ _ _ _ hvis' hn2l').2.1,
          le_trans hle (ih _ _ _ _ hvis' hn2l').2.2⟩

end FlowParser

namespace FlowParser

variable {α : Type} [DecidableEq α]

theorem flowUnvisitedStep_length_ge (visited : List α) (layers : List (List (DNode α)))
    (x : DNode α) : layers.length ≤ (flowUnvisitedStep visited layers x).length := by
  unfold flowUnvisitedStep
  split_ifs with h1 h2
  · exact le_refl _
  · rw [List.isEmpty_iff.mp h2]
    simp
  · simp

theorem flowUnvisitedStep_preserves (visited : List α) (layers : List (List (DNode α)))
    (x : DNode α) (a : α) (h : ∃ m ∈ layers.flatten, m.id = a) :
    ∃ m ∈ (flowUnvisitedStep visited layers x).flatten, m.id = a := by
  unfold flowUnvisitedStep
  split_ifs with h1 h2
  · exact h
  · obtain ⟨m, hm, _⟩ := h
    rw [List.isEmpty_iff.mp h2] at hm
    simp at hm
  · obtain ⟨m, hm, hmid⟩ := h
    exact ⟨m, mem_flatten_set_append layers _ x m hm, hmid⟩

theorem flowUnvisitedFold_length_ge (visited : List α) :
    ∀ (ns : List (DNode α)) (layers : List (List (DNode α))),
      layers.length ≤ (ns.foldl (flowUnvisitedStep visited) layers).length := by
  intro ns
  induction ns with
  | nil => intro layers; exact le_refl _
  | cons x xs ih =>
    intro layers
    rw [List.foldl_cons]
    exact le_trans (flowUnvisitedStep_length_ge visited layers x) (ih _)

theorem flowUnvisitedFold_preserves (visited : List α) :
    ∀ (ns : List (DNode α)) (layers : List (List (DNode α))) (a : α),
      (∃ m ∈ layers.flatten, m.id = a) →
      ∃ m ∈ (ns.foldl (flowUnvisitedStep visited) layers).flatten, m.id = a := by
  intro ns
  induction ns with
  | nil => intro layers a h; exact h
  | cons x xs ih =>
    intro layers a h
    rw [List.foldl_cons]
    exact ih _ a (flowUnvisitedStep_preserves visited layers x a h)

theorem flowUnvisitedFold_complete (visited : List α) :
    ∀ (ns : List (DNode α)) (layers : List (List (DNode α))), 1 ≤ layers.length →
      (∀ n ∈ ns, visited.contains n.id = true → ∃ m ∈ layers.flatten, m.id = n.id) →
      ∀ n ∈ ns, ∃ m ∈ (ns.foldl (flowUnvisitedStep visited) layers).flatten, m.id = n.id := by
  intro ns
  induction ns with
  | nil => intro layers _ _ n hn; simp at hn
  | cons x xs ih =>
    intro layers hlen hvis n hn
    rw [List.foldl_cons]
    rcases List.mem_cons.mp hn with heq | hn'
    · subst heq
      apply flowUnvisitedFold_preserves
      unfold flowUnvisitedStep
      split_ifs with hv hemp
      · exact hvis n (by simp) hv
      · rw [List.isEmpty_iff.mp hemp] at hlen
        simp at hlen
      · refine ⟨n, ?_, rfl⟩
        apply self_mem_flatten_set_append
        omega
    · refine ih (flowUnvisitedStep visited layers x)
        (le_trans hlen (flowUnvisitedStep_length_ge visited layers x)) ?_ n hn'
      intro y hy hyv
      exact flowUnvisitedStep_preserves visited layers x y.id
        (hvis y (List.mem_cons_of_mem _ hy) hyv)

theorem flowBfs_length_mono (nodes : List (DNode α)) (edges : List (DEdge α)) :
    ∀ (fuel : Nat) (queue : List (DNode α × Nat)) (layers : List (List (DNode α)))
      (visited : List α) (n2l : List (α × Nat)),
      layers.length ≤ (flowBfs nodes edges fuel queue layers visited n2l).1.length := by
  intro fuel
  induction fuel with
  | zero => intro q l v t; simp [flowBfs]
  | succ fuel ih =>
    intro q l v t
    match q with
    | [] => simp [flowBfs]
    | (node, layer) :: queue =>
      simp only [flowBfs]
      by_cases hv : v.contains node.id = true
      · rw [if_pos hv]
        exact ih queue l v t
      · rw [if_neg hv]
        refine le_trans ?_ (ih _ _ _ _)
        rw [List.length_set, List.length_append, List.length_replicate]
        omega

theorem flowBfs_one_le (nodes : List (DNode α)) (edges : List (DEdge α))
    (r : DNode α) (rest : List (DNode α × Nat)) :
    1 ≤ (flowBfs nodes edges (Layout.bfsFuel nodes edges)
      ((r, 0) :: rest) [] [] []).1.length := by
  simp only [Layout.bfsFuel, flowBfs]
  rw [if_neg (by simp)]
  refine le_trans ?_ (flowBfs_length_mono nodes edges _ _ _ _ _)
  rw [List.length_set, List.length_append, List.length_replicate]
  omega

/-- The consolidation fold never loses a node id, and keeps the layer count. -/
theorem consolidateFold_preserves (mel : Nat) (layers2 : List (List (DNode α)))
    (ens : List (DNode α)) (acc : List (List (DNode α)) × List (α × Nat))
    (hacc : ∀ a : α, (∃ m ∈ layers2.flatten, m.id = a) → ∃ m ∈ acc.1.flatten, m.id = a)
    (hlen : acc.1.length = layers2.length) (hmel : mel < layers2.length) :
    (∀ a : α, (∃ m ∈ layers2.flatten, m.id = a) →
        ∃ m ∈ (ens.foldl (consolidateStep mel) acc).1.flatten, m.id = a) ∧
    (ens.foldl (consolidateStep mel) acc).1.length = layers2.length := by
  have hinv := foldl_inv (P := fun (acc : List (List (DNode α)) × List (α × Nat)) =>
      (∀ a : α, (∃ m ∈ layers2.flatten, m.id = a) → ∃ m ∈ acc.1.flatten, m.id = a) ∧
      acc.1.length = layers2.length)
    (consolidateStep mel) ens acc ⟨hacc, hlen⟩ ?_
  · exact hinv
  intro a en _ hP
  obtain ⟨L, t⟩ := a
  obtain ⟨hP1, hP2⟩ := hP
  unfold consolidateStep
  dsimp only
  by_cases hcl : layerOrZero t en.id < mel
  · rw [if_pos hcl]
    by_cases hcont : ((L.set (layerOrZero t en.id)
        ((L.getD (layerOrZero t en.id) []).erase en)).getD mel []).contains en = true
    · rw [if_pos hcont]
      refine ⟨?_, by rw [List.length_set]; exact hP2⟩
      intro a ha
      obtain ⟨m, hm, hmid⟩ := hP1 a ha
      by_cases hme : m = en
      · refine ⟨en, ?_, hme ▸ hmid⟩
        rcases getD_mem_or_nil (L.set (layerOrZero t en.id)
            ((L.getD (layerOrZero t en.id) []).erase en)) mel with hg | hg
        · exact List.mem_flatten.mpr ⟨_, hg, by simpa [List.elem_iff] using hcont⟩
        · rw [hg] at hcont
          simp at hcont
      · exact ⟨m, mem_flatten_set_erase L _ en m hme hm, hmid⟩
    · rw [if_neg hcont]
      constructor
      · intro a ha
        obtain ⟨m, hm, hmid⟩ := hP1 a ha
        by_cases hme : m = en
        · refine ⟨en, ?_, hme ▸ hmid⟩
          apply self_mem_flatten_set_append
          rw [List.length_set, hP2]
          exact hmel
        · refine ⟨m, ?_, hmid⟩
          apply mem_flatten_set_append
          exact mem_flatten_set_erase L _ en m hme hm
      · rw [List.length_set, List.length_set]
        exact hP2
  · rw [if_neg hcl]
    exact ⟨hP1, hP2⟩

/-- `consolidateEndNodes` never loses a node id. -/
theorem consolidateEndNodes_preserves (layers : List (List (DNode α)))
    (n2l : List (α × Nat)) (ends : List (DNode α))
    (hbound : ∀ kv ∈ n2l, kv.2 < layers.length) (hone : 1 ≤ layers.length)
    {a : α} (h : ∃ m ∈ layers.flatten, m.id = a) :
    ∃ m ∈ (consolidateEndNodes layers n2l ends).1.flatten, m.id = a := by
  simp only [consolidateEndNodes]
  split_ifs with hlen
  · exact h
  · have hmel : (ends.foldl (fun m en => max m (layerOrZero n2l en.id)) 0)
        < layers.length := by
      apply foldl_max_lt_of (fun (en : DNode α) => layerOrZero n2l en.id) layers.length
      · omega
      · intro en _
        unfold layerOrZero
        cases hl : n2l.lookup en.id with
        | some v =>
          have := hbound (en.id, v) (lookup_mem _ _ _ hl)
          simpa using this
        | none => simpa using hone
    exact (consolidateFold_preserves _ layers ends (layers, n2l)
      (fun a ha => ha) rfl hmel).1 a h

end FlowParser

namespace FlowParser

variable {α : Type} [DecidableEq α]

/-- The flow layering pipeline (BFS, unreached pass, end-node consolidation)
keeps a representative of every input node. -/
theorem flow_pipeline_complete (nodeArray : List (DNode α)) (edges : List (DEdge α))
    (r : DNode α) (rs : List (DNode α)) (ends : List (DNode α)) :
    ∀ n ∈ nodeArray,
      ∃ m ∈ (consolidateEndNodes
          (nodeArray.foldl
            (flowUnvisitedStep
              (flowBfs nodeArray edges (Layout.bfsFuel nodeArray edges)
                ((r :: rs).map (fun n => (n, 0))) [] [] []).2.1)
            (flowBfs nodeArray edges (Layout.bfsFuel nodeArray edges)
              ((r :: rs).map (fun n => (n, 0))) [] [] []).1)
          (flowBfs nodeArray edges (Layout.bfsFuel nodeArray edges)
            ((r :: rs).map (fun n => (n, 0))) [] [] []).2.2
          ends).1.flatten, m.id = n.id := by
  intro n hn
  obtain ⟨binv1, binv2, _⟩ := flowBfs_invariant nodeArray edges
    (Layout.bfsFuel nodeArray edges) ((r :: rs).map (fun n => (n, 0))) [] [] []
    (by simp) (by simp)
  have hone : 1 ≤ (flowBfs nodeArray edges (Layout.bfsFuel nodeArray edges)
      ((r :: rs).map (fun n => (n, 0))) [] [] []).1.length := by
    simpa using flowBfs_one_le nodeArray edges r (rs.map (fun n => (n, 0)))
  apply consolidateEndNodes_preserves
  · intro kv hkv
    exact lt_of_lt_of_le (binv2 kv hkv) (flowUnvisitedFold_length_ge _ nodeArray _)
  · exact le_trans hone (flowUnvisitedFold_length_ge _ nodeArray _)
  · refine flowUnvisitedFold_complete _ nodeArray _ hone ?_ n hn
    intro y _ hyv
    exact binv1 y.id (by simpa [List.elem_iff] using hyv)

/-- The layer assignment of the flow layout keeps every input node id. -/
theorem flowLayers_complete (nodeArray : List (DNode α)) (edges : List (DEdge α))
    (hne : nodeArray ≠ []) :
    ∀ n ∈ nodeArray, ∃ m ∈ (flowLayers nodeArray edges).flatten, m.id = n.id := by
  intro n hn
  have hroots : (if (nodeArray.filter (fun n =>
      (Layout.incomingOf edges n.id).isEmpty || n.type == "start")).isEmpty then
        nodeArray.take 1
      else nodeArray.filter (fun n =>
        (Layout.incomingOf edges n.id).isEmpty || n.type == "start")) ≠ [] := by
    split_ifs with h
    · match nodeArray, hne with
      | f :: rest, _ => simp
    · simpa [List.isEmpty_iff] using h
  cases hr : (if (nodeArray.filter (fun n =>
      (Layout.incomingOf edges n.id).isEmpty || n.type == "start")).isEmpty then
        nodeArray.take 1
      else nodeArray.filter (fun n =>
        (Layout.incomingOf edges n.id).isEmpty || n.type == "start")) with
  | nil => exact absurd hr hroots
  | cons r rs =>
    have hcore := flow_pipeline_complete nodeArray edges r rs
      (nodeArray.filter (fun n =>
        (Layout.adjacencyOf edges n.id).isEmpty || n.type == "end")) n hn
    show ∃ m ∈ (flowLayers nodeArray edges).flatten, m.id = n.id
    simp only [flowLayers]
    rw [hr]
    exact hcore

/-- The flow positioning pass keeps every id. -/
theorem placeFlowLayers_complete (layers : List (List (DNode α))) {a : α}
    (h : ∃ m ∈ layers.flatten, m.id = a) :
    ∃ y ∈ placeFlowLayers layers, y.id = a := by
  unfold placeFlowLayers
  apply exists_id_enum_flatMap _ _ _ h
  intro j row b hb
  dsimp only
  apply exists_id_enum_map _ _ _ hb
  intro i x
  dsimp only
  split_ifs <;> rfl

/-- The flow parser never emits a dangling edge. -/
theorem parseFlowDiagram_resolved (σ : Nat → α) (input : String) :
    ∀ d, parseFlowDiagram σ input = .ok d → edgesResolved d := by
  intro d hd
  simp only [parseFlowDiagram] at hd
  split at hd
  · rename_i layered heq
    injection hd with hd
    subst hd
    simp only [positionNodesHierarchically] at heq
    split_ifs at heq with hemp
    injection heq with heq
    intro e he
    obtain ⟨⟨p, hp, hpid⟩, ⟨q, hq, hqid⟩⟩ :=
      extractFlow_resolved σ (trimmedLines input) e he
    have hnene : ((extractFlow σ (trimmedLines input)).1.map (·.2)) ≠ [] := by
      simpa [List.isEmpty_iff] using hemp
    constructor
    · obtain ⟨y, hy, hyid⟩ := placeFlowLayers_complete _
        (flowLayers_complete _ (extractFlow σ (trimmedLines input)).2.1 hnene p.2
          (List.mem_map_of_mem _ hp))
      rw [heq] at hy
      exact ⟨y, hy, by rw [hyid, hpid]⟩
    · obtain ⟨y, hy, hyid⟩ := placeFlowLayers_complete _
        (flowLayers_complete _ (extractFlow σ (trimmedLines input)).2.1 hnene q.2
          (List.mem_map_of_mem _ hq))
      rw [heq] at hy
      exact ⟨y, hy, by rw [hyid, hqid]⟩
  · exact absurd hd (by simp)

end FlowParser

/-- Folding a step that appends exactly one id-preserving update per item
keeps every id of the accumulator and of the items. -/
theorem foldl_append_id {α γ : Type} (step : List (DNode α) × γ → DNode α → List (DNode α) × γ)
    (hstep : ∀ acc actor, ∃ upd, (step acc actor).1 = acc.1 ++ [upd] ∧ upd.id = actor.id) :
    ∀ (acts : List (DNode α)) (acc : List (DNode α) × γ) (a : α),
      ((∃ x ∈ acc.1, x.id = a) ∨ (∃ x ∈ acts, x.id = a)) →
      ∃ y ∈ (acts.foldl step acc).1, y.id = a := by
  intro acts
  induction acts with
  | nil =>
    intro acc a h
    rcases h with h | h
    · exact h
    · obtain ⟨x, hx, _⟩ := h
      simp at hx
  | cons act rest ih =>
    intro acc a h
    rw [List.foldl_cons]
    obtain ⟨upd, hupd, hid⟩ := hstep acc act
    apply ih
    rcases h with ⟨x, hx, hxa⟩ | ⟨x, hx, hxa⟩
    · exact Or.inl ⟨x, by rw [hupd]; exact List.mem_append_left _ hx, hxa⟩
    · rcases List.mem_cons.mp hx with heq | hx'
      · refine Or.inl ⟨upd, by rw [hupd]; exact List.mem_append_right _ (by simp), ?_⟩
        rw [hid, ← heq, hxa]
      · exact Or.inr ⟨x, hx', hxa⟩

/-- `foldl_append_id`, phrased against a goal list with a tail appended. -/
theorem foldl_append_id_app {α γ : Type}
    (step : List (DNode α) × γ → DNode α → List (DNode α) × γ) (tail : List (DNode α))
    (hstep : ∀ acc actor, ∃ upd, (step acc actor).1 = acc.1 ++ [upd] ∧ upd.id = actor.id)
    (acts : List (DNode α)) (acc : List (DNode α) × γ) (a : α)
    (h : (∃ x ∈ acc.1, x.id = a) ∨ (∃ x ∈ acts, x.id = a)) :
    ∃ y ∈ (acts.foldl step acc).1 ++ tail, y.id = a := by
  obtain ⟨y, hy, hid⟩ := foldl_append_id step hstep acts acc a h
  exact ⟨y, List.mem_append_left _ hy, hid⟩

namespace UsecaseParser

variable {α : Type} [DecidableEq α]

/-- Every extracted use-case edge references a stored actor and a stored
use case. -/
theorem extractUsecase_resolved (σ : Nat → α) (lines : List String) :
    ∀ e ∈ (extractUsecase σ lines).2.2.1,
      (∃ x ∈ (extractUsecase σ lines).1, x.id = e.efrom) ∧
      (∃ u ∈ (extractUsecase σ lines).2.1, u.id = e.eto) := by
  unfold extractUsecase
  apply foldl_inv (P := fun (acc : List (DNode α) × List (DNode α) × List (DEdge α) × Nat) =>
    ∀ e ∈ acc.2.2.1, (∃ x ∈ acc.1, x.id = e.efrom) ∧ (∃ u ∈ acc.2.1, u.id = e.eto))
  · simp
  · intro acc line _ hP
    dsimp only
    split_ifs with h1 h2
    · intro e he
      obtain ⟨⟨x, hx, hxa⟩, hu⟩ := hP e he
      exact ⟨⟨x, List.mem_append_left _ hx, hxa⟩, hu⟩
    · cases hm : TextMatch.matchUsecaseLine line with
      | none => exact hP
      | some pr =>
        obtain ⟨actorName, usecaseName⟩ := pr
        dsimp only
        cases hf : acc.2.1.find? (fun u => u.label = usecaseName) with
        | some u0 =>
          dsimp only
          cases ha : acc.1.find? (fun a => a.name = actorName) with
          | some actor =>
            dsimp only
            intro e he
            rcases List.mem_append.mp he with h | h
            · exact hP e h
            · simp only [List.mem_singleton] at h
              subst h
              exact ⟨⟨actor, List.mem_of_find?_eq_some ha, rfl⟩,
                ⟨u0, List.mem_of_find?_eq_some hf, rfl⟩⟩
          | none =>
            dsimp only
            exact hP
        | none =>
          dsimp only
          cases ha : acc.1.find? (fun a => a.name = actorName) with
          | some actor =>
            dsimp only
            intro e he
            rcases List.mem_append.mp he with h | h
            · obtain ⟨⟨x, hx, hxa⟩, ⟨u, hu, hua⟩⟩ := hP e h
              exact ⟨⟨x, hx, hxa⟩, ⟨u, List.mem_append_left _ hu, hua⟩⟩
            · simp only [List.mem_singleton] at h
              subst h
              refine ⟨⟨actor, List.mem_of_find?_eq_some ha, rfl⟩, ?_⟩
              refine ⟨{ id := σ acc.2.2.2
                        type := "usecase"
                        label := usecaseName
                        name := usecaseName }, ?_, rfl⟩
              exact List.mem_append_right _ (by simp)
          | none =>
            dsimp only
            intro e he
            obtain ⟨⟨x, hx, hxa⟩, ⟨u, hu, hua⟩⟩ := hP e he
            exact ⟨⟨x, hx, hxa⟩, ⟨u, List.mem_append_left _ hu, hua⟩⟩
    · exact hP

/-- The use-case parser never emits a dangling edge. -/
theorem parseUsecaseDiagram_resolved (σ : Nat → α) (input : String) :
    ∀ d, parseUsecaseDiagram σ input = .ok d → edgesResolved d := by
  intro d hd
  simp only [parseUsecaseDiagram] at hd
  injection hd with hd
  subst hd
  intro e he
  obtain ⟨⟨x, hx, hxa⟩, ⟨u, hu, hua⟩⟩ :=
    extractUsecase_resolved σ (trimmedLines input) e he
  constructor
  · refine foldl_append_id_app _ _ ?_ _ _ _ (Or.inr ⟨x, hx, hxa⟩)
    intro acc actor
    dsimp only
    split_ifs
    · exact ⟨_, rfl, rfl⟩
    · exact ⟨_, rfl, rfl⟩
  · obtain ⟨i, hi, hget⟩ := List.getElem_of_mem hu
    refine ⟨_, List.mem_append_right _ (List.mem_map.mpr ⟨(i, u),
      (List.mk_mem_enum_iff_getElem?).mpr (List.getElem?_eq_some.mpr ⟨hi, hget⟩), rfl⟩), hua⟩

end UsecaseParser

namespace SequenceParser

variable {α : Type} [DecidableEq α]

theorem addActor_self (l : List String) (a : String) : a ∈ addActor l a := by
  unfold addActor
  split_ifs with h
  · simpa [List.elem_iff] using h
  · exact List.mem_append_right _ (by simp)

theorem addActor_mono (l : List String) (a x : String) (h : x ∈ l) : x ∈ addActor l a := by
  unfold addActor
  split_ifs
  · exact h
  · exact List.mem_append_left _ h

/-- Both endpoints of every extracted message are recorded actors. -/
theorem extractMessages_actors (σ : Nat → α) (lines : List String) :
    ∀ m ∈ (extractMessages σ lines).2.1,
      m.mfrom ∈ (extractMessages σ lines).1 ∧ m.mto ∈ (extractMessages σ lines).1 := by
  unfold extractMessages
  apply foldl_inv (P := fun (acc : List String × List (SeqMessage α) × Nat) =>
    ∀ m ∈ acc.2.1, m.mfrom ∈ acc.1 ∧ m.mto ∈ acc.1)
  · simp
  · intro acc line _ hP
    cases hm : TextMatch.matchSequenceLine line with
    | none => exact hP
    | some quad =>
      obtain ⟨fromName, arrow, toName, message⟩ := quad
      dsimp only
      intro m hm'
      rcases List.mem_append.mp hm' with h | h
      · obtain ⟨hf, ht⟩ := hP m h
        exact ⟨addActor_mono _ _ _ (addActor_mono _ _ _ hf),
          addActor_mono _ _ _ (addActor_mono _ _ _ ht)⟩
      · simp only [List.mem_singleton] at h
        subst h
        exact ⟨addActor_mono _ _ _ (addActor_self _ _), addActor_self _ _⟩

/-- The sequence parser never emits a dangling edge: both message endpoints
resolve to actor nodes built from the same message set. -/
theorem parseSequenceDiagram_resolved (σ : Nat → α) (e0 : α) (input : String) :
    ∀ d, parseSequenceDiagram σ e0 input = .ok d → edgesResolved d := by
  intro d hd
  simp only [parseSequenceDiagram] at hd
  injection hd with hd
  subst hd
  intro e he
  rcases List.mem_map.mp he with ⟨⟨index, msg⟩, hmsgmem, rfl⟩
  have hmsg : msg ∈ (extractMessages σ (trimmedLines input)).2.1 :=
    mem_of_mem_enum hmsgmem
  obtain ⟨hf, ht⟩ := extractMessages_actors σ (trimmedLines input) msg hmsg
  have hall : ∀ n ∈ (extractMessages σ (trimmedLines input)).1.enum.map
      (fun (p : Nat × String) =>
        ({ id := σ ((extractMessages σ (trimmedLines input)).2.2 + p.1)
           type := "actor"
           x := 100 + (p.1 : ℚ) * 200
           y := 50
           width := 100
           height := 60
           label := p.2
           name := p.2 } : DNode α)), n.type = "actor" := by
    intro n hn
    rcases List.mem_map.mp hn with ⟨p, _, rfl⟩
    rfl
  have hlabel : ∀ a ∈ (extractMessages σ (trimmedLines input)).1,
      ∃ nd ∈ (extractMessages σ (trimmedLines input)).1.enum.map
        (fun (p : Nat × String) =>
          ({ id := σ ((extractMessages σ (trimmedLines input)).2.2 + p.1)
             type := "actor"
             x := 100 + (p.1 : ℚ) * 200
             y := 50
             width := 100
             height := 60
             label := p.2
             name := p.2 } : DNode α)), nd.label = a := by
    intro a ha
    obtain ⟨i, hi, hget⟩ := List.getElem_of_mem ha
    refine ⟨_, List.mem_map.mpr ⟨(i, a),
      (List.mk_mem_enum_iff_getElem?).mpr (List.getElem?_eq_some.mpr ⟨hi, hget⟩), rfl⟩, rfl⟩
  constructor
  · obtain ⟨nd, hnd, hndl⟩ := hlabel msg.mfrom hf
    cases hfind : ((extractMessages σ (trimmedLines input)).1.enum.map
        (fun (p : Nat × String) =>
          ({ id := σ ((extractMessages σ (trimmedLines input)).2.2 + p.1)
             type := "actor"
             x := 100 + (p.1 : ℚ) * 200
             y := 50
             width := 100
             height := 60
             label := p.2
             name := p.2 } : DNode α))).find? (fun n => n.label = msg.mfrom) with
    | none =>
      exfalso
      have := List.find?_eq_none.mp hfind nd hnd
      simp [hndl] at this
    | some found =>
      obtain ⟨y, hy, hyid⟩ := Layout.positionSequenceNodes_complete _ hall
        ⟨found, List.mem_of_find?_eq_some hfind, rfl⟩
      exact ⟨y, hy, hyid⟩
  · obtain ⟨nd, hnd, hndl⟩ := hlabel msg.mto ht
    cases hfind : ((extractMessages σ (trimmedLines input)).1.enum.map
        (fun (p : Nat × String) =>
          ({ id := σ ((extractMessages σ (trimmedLines input)).2.2 + p.1)
             type := "actor"
             x := 100 + (p.1 : ℚ) * 200
             y := 50
             width := 100
             height := 60
             label := p.2
             name := p.2 } : DNode α))).find? (fun n => n.label = msg.mto) with
    | none =>
      exfalso
      have := List.find?_eq_none.mp hfind nd hnd
      simp [hndl] at this
    | some found =>
      obtain ⟨y, hy, hyid⟩ := Layout.positionSequenceNodes_complete _ hall
        ⟨found, List.mem_of_find?_eq_some hfind, rfl⟩
      exact ⟨y, hy, hyid⟩

end SequenceParser

namespace ClassParser

variable {α : Type} [DecidableEq α]

omit [DecidableEq α] in
theorem finishCurrentClass_id (c : DNode α) : (finishCurrentClass c).id = c.id := rfl

omit [DecidableEq α] in
/-- A member push through the shared payload changes no node id: any id
present before is still the id of some node afterwards. -/
theorem pushSharedMember_exists_id (upd : DNode α → DNode α)
    (hid : ∀ n, (upd n).id = n.id) (cnt : Nat) (nodes : List (DNode α)) (x : α)
    (h : ∃ n ∈ nodes, n.id = x) : ∃ n ∈ pushSharedMember upd cnt nodes, n.id = x := by
  obtain ⟨n, hn, hnid⟩ := h
  have hn' : n ∈ nodes.take (nodes.length - cnt) ++ nodes.drop (nodes.length - cnt) := by
    rw [List.take_append_drop]
    exact hn
  unfold pushSharedMember
  rcases List.mem_append.mp hn' with h' | h'
  · exact ⟨n, List.mem_append_left _ h', hnid⟩
  · exact ⟨upd n, List.mem_append_right _ (List.mem_map_of_mem _ h'), by rw [hid n, hnid]⟩

omit [DecidableEq α] in
/-- Loop invariant: every pending inheritance child id is the id of an
already-finished node or of the class currently being built. -/
theorem stepLine_pending (σ : Nat → α) (s : LoopState α) (line : String)
    (hP : ∀ rel ∈ s.pending, (∃ n ∈ s.nodes, n.id = rel.1) ∨
      (∃ c, s.currentClass = some c ∧ c.id = rel.1)) :
    ∀ rel ∈ (stepLine σ s line).pending,
      (∃ n ∈ (stepLine σ s line).nodes, n.id = rel.1) ∨
      (∃ c, (stepLine σ s line).currentClass = some c ∧ c.id = rel.1) := by
  unfold stepLine
  by_cases h1 : line.startsWith "class " = true
  · rw [if_pos h1]
    rcases hc : s.currentClass with _ | c <;>
      rcases hm : TextMatch.matchClassDecl line with _ | ⟨cn, par⟩ <;>
        simp only [hc, hm]
    · intro rel hrel
      rcases hP rel hrel with h | ⟨c₀, hc₀, _⟩
      · exact Or.inl h
      · rw [hc] at hc₀
        simp at hc₀
    · intro rel hrel
      rcases List.mem_append.mp hrel with h | h
      · rcases hP rel h with h' | ⟨c₀, hc₀, _⟩
        · exact Or.inl h'
        · rw [hc] at hc₀
          simp at hc₀
      · rcases hp : par with _ | p
        · rw [hp] at h
          simp at h
        · rw [hp] at h
          simp only [List.mem_singleton] at h
          subst h
          exact Or.inr ⟨_, rfl, rfl⟩
    · intro rel hrel
      rcases hP rel hrel with ⟨n, hn, hid⟩ | ⟨c₀, hc₀, hid⟩
      · exact Or.inl ⟨n, List.mem_append_left _ hn, hid⟩
      · rw [hc] at hc₀
        injection hc₀ with h'
        subst h'
        exact Or.inr ⟨c, rfl, hid⟩
    · intro rel hrel
      rcases List.mem_append.mp hrel with h | h
      · rcases hP rel h with ⟨n, hn, hid⟩ | ⟨c₀, hc₀, hid⟩
        · exact Or.inl ⟨n, List.mem_append_left _ hn, hid⟩
        · rw [hc] at hc₀
          injection hc₀ with h'
          subst h'
          exact Or.inl ⟨finishCurrentClass c, List.mem_append_right _ (by simp), hid⟩
      · rcases hp : par with _ | p
        · rw [hp] at h
          simp at h
        · rw [hp] at h
          simp only [List.mem_singleton] at h
          subst h
          exact Or.inr ⟨_, rfl, rfl⟩
  · rw [if_neg h1]
    by_cases h2 : s.currentClass.isSome = true ∧
        (line.startsWith "-" = true ∨ line.startsWith "+" = true ∨ line.startsWith "#" = true)
    · rw [if_pos h2]
      rcases hc : s.currentClass with _ | c
      · rw [hc] at h2
        simp at h2
      · simp only [hc]
        split
        · split
          · intro rel hrel
            rcases hP rel hrel with h | ⟨c₀, hc₀, hid⟩
            · refine Or.inl (pushSharedMember_exists_id _ ?_ _ _ _ h)
              exact fun n => rfl
            · rw [hc] at hc₀
              injection hc₀ with h'
              subst h'
              exact Or.inr ⟨_, rfl, hid⟩
          · exact hP
        · split
          · intro rel hrel
            rcases hP rel hrel with h | ⟨c₀, hc₀, hid⟩
            · refine Or.inl (pushSharedMember_exists_id _ ?_ _ _ _ h)
              exact fun n => rfl
            · rw [hc] at hc₀
              injection hc₀ with h'
              subst h'
              exact Or.inr ⟨_, rfl, hid⟩
          · exact hP
    · rw [if_neg h2]
      by_cases h4 : line = "\x7d" ∧ s.currentClass.isSome = true
      · rw [if_pos h4]
        rcases hc : s.currentClass with _ | c
        · rw [hc] at h4
          simp at h4
        · simp only [hc]
          intro rel hrel
          rcases hP rel hrel with ⟨n, hn, hid⟩ | ⟨c₀, hc₀, hid⟩
          · exact Or.inl ⟨n, List.mem_append_left _ hn, hid⟩
          · rw [hc] at hc₀
            injection hc₀ with h'
            subst h'
            exact Or.inl ⟨finishCurrentClass c, List.mem_append_right _ (by simp), hid⟩
      · rw [if_neg h4]
        exact hP

/-- The inheritance-resolution fold only emits edges between class nodes. -/
theorem resolveFold_ok (σ : Nat → α) (NODES : List (DNode α)) :
    ∀ (pend : List (α × String)) (acc : List (DEdge α) × Nat),
      (∀ rel ∈ pend, ∃ n ∈ NODES, n.id = rel.1) →
      (∀ e ∈ acc.1, (∃ n ∈ NODES, n.id = e.efrom) ∧ (∃ n ∈ NODES, n.id = e.eto)) →
      ∀ e ∈ (pend.foldl (fun (acc : List (DEdge α) × Nat) rel =>
          match NODES.reverse.find? (fun n => n.className = rel.2) with
          | some parentNode =>
            (acc.1 ++ [{ id := σ acc.2, efrom := rel.1, eto := parentNode.id,
                         type := "inheritance", label := "extends" }], acc.2 + 1)
          | none => acc) acc).1,
        (∃ n ∈ NODES, n.id = e.efrom) ∧ (∃ n ∈ NODES, n.id = e.eto) := by
  intro pend
  induction pend with
  | nil => intro acc _ hacc e he; exact hacc e he
  | cons rel rest ih =>
    intro acc hpend hacc
    rw [List.foldl_cons]
    refine ih _ (fun r hr => hpend r (List.mem_cons_of_mem _ hr)) ?_
    cases hf : NODES.reverse.find? (fun n => n.className = rel.2) with
    | none => exact hacc
    | some parentNode =>
      dsimp only
      intro e he
      rcases List.mem_append.mp he with h | h
      · exact hacc e h
      · simp only [List.mem_singleton] at h
        subst h
        exact ⟨hpend rel (by simp),
          ⟨parentNode, List.mem_reverse.mp (List.mem_of_find?_eq_some hf), rfl⟩⟩

/-- Every inheritance edge of `parseCore` references finished class nodes. -/
theorem parseCore_resolved (σ : Nat → α) (input : String) :
    ∀ e ∈ (parseCore σ input).2,
      (∃ n ∈ (parseCore σ input).1, n.id = e.efrom) ∧
      (∃ n ∈ (parseCore σ input).1, n.id = e.eto) := by
  have hs := foldl_inv (P := fun (s : LoopState α) =>
      ∀ rel ∈ s.pending, (∃ n ∈ s.nodes, n.id = rel.1) ∨
        (∃ c, s.currentClass = some c ∧ c.id = rel.1))
    (stepLine σ) (trimmedLines input)
    { nodes := [], pending := [], currentClass := none, aliasCount := 0, yPosition := 50, k := 0 }
    (by simp)
    (fun s line _ h => stepLine_pending σ s line h)
  have hpend : ∀ rel ∈ ((trimmedLines input).foldl (stepLine σ)
      { nodes := [], pending := [], currentClass := none, aliasCount := 0, yPosition := 50, k := 0 }).pending,
      ∃ n ∈ (match ((trimmedLines input).foldl (stepLine σ)
          { nodes := [], pending := [], currentClass := none, aliasCount := 0, yPosition := 50,
            k := 0 }).currentClass with
        | some c => ((trimmedLines input).foldl (stepLine σ)
            { nodes := [], pending := [], currentClass := none, aliasCount := 0, yPosition := 50,
              k := 0 }).nodes ++ [finishCurrentClass c]
        | none => ((trimmedLines input).foldl (stepLine σ)
            { nodes := [], pending := [], currentClass := none, aliasCount := 0, yPosition := 50,
              k := 0 }).nodes), n.id = rel.1 := by
    intro rel hrel
    rcases hs rel hrel with ⟨n, hn, hid⟩ | ⟨c, hcc, hid⟩
    · cases hcc' : ((trimmedLines input).foldl (stepLine σ)
          { nodes := [], pending := [], currentClass := none, aliasCount := 0, yPosition := 50,
            k := 0 }).currentClass <;> simp only [hcc']
      · exact ⟨n, hn, hid⟩
      · exact ⟨n, List.mem_append_left _ hn, hid⟩
    · rw [hcc]
      exact ⟨finishCurrentClass c, List.mem_append_right _ (by simp), hid⟩
  intro e he
  exact resolveFold_ok σ
    (match ((trimmedLines input).foldl (stepLine σ)
        { nodes := [], pending := [], currentClass := none, aliasCount := 0, yPosition := 50,
          k := 0 }).currentClass with
      | some c => ((trimmedLines input).foldl (stepLine σ)
          { nodes := [], pending := [], currentClass := none, aliasCount := 0, yPosition := 50,
            k := 0 }).nodes ++ [finishCurrentClass c]
      | none => ((trimmedLines input).foldl (stepLine σ)
          { nodes := [], pending := [], currentClass := none, aliasCount := 0, yPosition := 50,
            k := 0 }).nodes)
    ((trimmedLines input).foldl (stepLine σ)
      { nodes := [], pending := [], currentClass := none, aliasCount := 0, yPosition := 50, k := 0 }).pending
    ([], ((trimmedLines input).foldl (stepLine σ)
      { nodes := [], pending := [], currentClass := none, aliasCount := 0, yPosition := 50, k := 0 }).k)
    hpend (by simp) e he

/-- The class parser never emits a dangling edge. -/
theorem parseClassDiagram_resolved (σ : Nat → α) (input : String) :
    ∀ d, parseClassDiagram σ input = .ok d → edgesResolved d := by
  intro d hd
  simp only [parseClassDiagram] at hd
  split at hd
  · rename_i layoutNodes heq
    injection hd with hd
    subst hd
    simp only [Layout.LayoutV2.positionNodesHierarchically] at heq
    split_ifs at heq with hemp
    injection heq with heq
    intro e he
    obtain ⟨⟨p, hp, hpid⟩, ⟨q, hq, hqid⟩⟩ := parseCore_resolved σ input e he
    have hne : (parseCore σ input).1 ≠ [] := by
      simpa [List.isEmpty_iff] using hemp
    constructor
    · obtain ⟨y, hy, hyid⟩ := Layout.LayoutV2.placeLayers_complete _ _
        (Layout.layersOf_complete _ (parseCore σ input).2 hne p hp)
      rw [heq] at hy
      exact ⟨y, hy, by rw [hyid, hpid]⟩
    · obtain ⟨y, hy, hyid⟩ := Layout.LayoutV2.placeLayers_complete _ _
        (Layout.layersOf_complete _ (parseCore σ input).2 hne q hq)
      rw [heq] at hy
      exact ⟨y, hy, by rw [hyid, hqid]⟩
  · exact absurd hd (by simp)

end ClassParser

/-- C10 (amended): the flow, use-case, class and sequence parsers never emit
a dangling edge reference: in every successful result, both endpoint ids of
every edge are ids of nodes in the same result.  The original claim also
covered the mindmap parser, which is refuted: on a multi-root outline the
mindmap tree layout drops the subtrees not reachable from the chosen root
while the edge list keeps their edges (see the counterexample). -/
theorem parsers_no_dangling_edges {α : Type} [DecidableEq α] (σ : Nat → α) (e0 : α)
    (input : String) :
    (∀ d, FlowParser.parseFlowDiagram σ input = .ok d → edgesResolved d) ∧
    (∀ d, UsecaseParser.parseUsecaseDiagram σ input = .ok d → edgesResolved d) ∧
    (∀ d, ClassParser.parseClassDiagram σ input = .ok d → edgesResolved d) ∧
    (∀ d, SequenceParser.parseSequenceDiagram σ e0 input = .ok d → edgesResolved d) :=
  ⟨FlowParser.parseFlowDiagram_resolved σ input,
   UsecaseParser.parseUsecaseDiagram_resolved σ input,
   ClassParser.parseClassDiagram_resolved σ input,
   SequenceParser.parseSequenceDiagram_resolved σ e0 input⟩

/-- C10 counterexample: on the two-root outline `A\nB\n  C` the mindmap
parser succeeds with a layout containing only the root `A` (node id 1), yet
keeps the edge from `B` (id 2) to `C` (id 3) — a dangling edge on both
endpoints. -/
theorem mindmap_emits_dangling_edge :
    isSuccess (MindmapParser.parseMindmapDiagram idSupply 0 "A\nB\n  C") = true ∧
    (resultEdges (MindmapParser.parseMindmapDiagram idSupply 0 "A\nB\n  C")).map
      (fun e => (e.efrom, e.eto)) = [(2, 3)] ∧
    (resultNodes (MindmapParser.parseMindmapDiagram idSupply 0 "A\nB\n  C")).map (·.id)
      = [1] ∧
    ¬ edgesResolved (resultDiagram
        (MindmapParser.parseMindmapDiagram idSupply 0 "A\nB\n  C")) := by
  refine ⟨?_, ?_, ?_, ?_⟩ <;> with_unfolding_all decide

/-- C10 witness: the theorem applied to an input that all four parsers
accept. -/
theorem parsers_no_dangling_edges_witness :
    edgesResolved (resultDiagram
      (FlowParser.parseFlowDiagram idSupply "class A\x7b\x7d\nA -> B")) ∧
    edgesResolved (resultDiagram
      (UsecaseParser.parseUsecaseDiagram idSupply "class A\x7b\x7d\nA -> B")) ∧
    edgesResolved (resultDiagram
      (ClassParser.parseClassDiagram idSupply "class A\x7b\x7d\nA -> B")) ∧
    edgesResolved (resultDiagram
      (SequenceParser.parseSequenceDiagram idSupply 0 "class A\x7b\x7d\nA -> B")) := by
  have h := parsers_no_dangling_edges idSupply 0 "class A\x7b\x7d\nA -> B"
  exact ⟨h.1 _ (by with_unfolding_all rfl),
         h.2.1 _ (by with_unfolding_all rfl),
         h.2.2.1 _ (by with_unfolding_all rfl),
         h.2.2.2 _ (by with_unfolding_all rfl)⟩

/- ### C8: determinism up to ids -/

theorem map_mergeSort_of {α β : Type} (f : α → β) (le : α → α → Bool) (le' : β → β → Bool)
    (hle : ∀ a b, le' (f a) (f b) = le a b) :
    ∀ (l : List α), (l.map f).mergeSort le' = (l.mergeSort le).map f := by
  have key : ∀ (n : Nat) (l : List α), l.length ≤ n →
      (l.map f).mergeSort le' = (l.mergeSort le).map f := by
    intro n
    induction n with
    | zero =>
      intro l hl
      have hnil : l = [] := List.eq_nil_of_length_eq_zero (Nat.le_zero.mp hl)
      subst hnil
      simp
    | succ n ih =>
      intro l hl
      match l with
      | [] => simp
      | [a] => simp [List.mergeSort]
      | a :: b :: xs =>
        rw [List.map_cons, List.map_cons, List.mergeSort, List.mergeSort]
        rw [List.splitInTwo_fst, List.splitInTwo_snd, List.splitInTwo_fst,
          List.splitInTwo_snd]
        simp only [List.length_cons, List.length_map]
        rw [← List.map_cons f b xs, ← List.map_cons f a (b :: xs),
          ← List.map_take, ← List.map_drop]
        rw [ih, ih]
        · rw [← List.map_merge]
          intro x _ y _
          rw [hle]
        · simp only [List.length_drop, List.length_cons]
          simp only [List.length_cons] at hl
          omega
        · simp only [List.length_take, List.length_cons]
          simp only [List.length_cons] at hl
          omega
  exact fun l => key l.length l (le_refl _)

theorem foldl_naturality {γ δ ι : Type} (g : γ → δ) (step : γ → ι → γ) (stepB : δ → ι → δ)
    (h : ∀ acc x, stepB (g acc) x = g (step acc x)) :
    ∀ (l : List ι) (acc : γ), l.foldl stepB (g acc) = g (l.foldl step acc) := by
  intro l
  induction l with
  | nil => intro acc; rfl
  | cons x xs ih =>
    intro acc
    rw [List.foldl_cons, List.foldl_cons, h, ih]

theorem foldl_map_naturality {γ δ ι κ : Type} (g : γ → δ) (m : ι → κ)
    (step : γ → ι → γ) (stepB : δ → κ → δ)
    (h : ∀ acc x, stepB (g acc) (m x) = g (step acc x)) :
    ∀ (l : List ι) (acc : γ), (l.map m).foldl stepB (g acc) = g (l.foldl step acc) := by
  intro l
  induction l with
  | nil => intro acc; rfl
  | cons x xs ih =>
    intro acc
    rw [List.map_cons, List.foldl_cons, List.foldl_cons, h, ih]

section MapIdTransport

variable {α β : Type} [DecidableEq α] [DecidableEq β] {f : α → β}

theorem decide_map_eq (hf : Function.Injective f) (a b : α) :
    decide (f a = f b) = decide (a = b) := by
  simp [hf.eq_iff]

theorem contains_map (hf : Function.Injective f) (l : List α) (a : α) :
    (l.map f).contains (f a) = l.contains a := by
  by_cases h : a ∈ l
  · simp [List.elem_iff, h, (List.mem_map_of_injective hf).mpr h]
  · have h2 : ¬ f a ∈ l.map f := fun hc => h ((List.mem_map_of_injective hf).mp hc)
    simp [List.elem_iff, h, h2]

theorem mapNode_id (n : DNode α) : (mapNode f n).id = f n.id := rfl

theorem mapNode_inj (hf : Function.Injective f) :
    Function.Injective (mapNode f (α := α) (β := β)) := by
  intro a b h
  cases a
  cases b
  simp only [mapNode, DNode.mk.injEq] at h
  simp only [DNode.mk.injEq]
  exact ⟨hf h.1, h.2⟩

end MapIdTransport

theorem foldl_naturality' {γ δ ι : Type} (g : γ → δ) (step : γ → ι → γ) (stepB : δ → ι → δ)
    (h : ∀ acc x, stepB (g acc) x = g (step acc x)) :
    ∀ (l : List ι) (acc : γ) (accB : δ), accB = g acc →
      l.foldl stepB accB = g (l.foldl step acc) := by
  intro l acc accB heq
  subst heq
  exact foldl_naturality g step stepB h l acc

theorem foldl_map_naturality' {γ δ ι κ : Type} (g : γ → δ) (m : ι → κ)
    (step : γ → ι → γ) (stepB : δ → κ → δ)
    (h : ∀ acc x, stepB (g acc) (m x) = g (step acc x)) :
    ∀ (l : List ι) (acc : γ) (accB : δ), accB = g acc →
      (l.map m).foldl stepB accB = g (l.foldl step acc) := by
  intro l acc accB heq
  subst heq
  exact foldl_map_naturality g m step stepB h l acc

namespace SequenceParser

variable {α β : Type} [DecidableEq α] [DecidableEq β]

/-- Rename a parsed message's id. -/
def mapMsg (f : α → β) (m : SeqMessage α) : SeqMessage β :=
  { id := f m.id
    mfrom := m.mfrom
    mto := m.mto
    message := m.message
    mtype := m.mtype }

/-- Message extraction commutes with id renaming: only the message ids
depend on the supply. -/
theorem extractMessages_map (f : α → β) (σ : Nat → α) (lines : List String) :
    extractMessages (fun k => f (σ k)) lines
      = ((extractMessages σ lines).1,
         (extractMessages σ lines).2.1.map (mapMsg f),
         (extractMessages σ lines).2.2) := by
  unfold extractMessages
  refine foldl_naturality'
    (fun (acc : List String × List (SeqMessage α) × Nat) =>
      (acc.1, acc.2.1.map (mapMsg f), acc.2.2)) _ _ ?_ lines ([], [], 0) ([], [], 0) rfl
  intro acc x
  cases hm : TextMatch.matchSequenceLine x with
  | none => rfl
  | some quad =>
    obtain ⟨fromName, arrow, toName, message⟩ := quad
    dsimp only
    rw [List.map_append]
    rfl


/-- The sequence layout commutes with id renaming. -/
theorem positionSequenceNodes_map (f : α → β) (nodes : List (DNode α)) :
    Layout.positionSequenceNodes (nodes.map (mapNode f))
      = (Layout.positionSequenceNodes nodes).map (mapNode f) := by
  simp only [Layout.positionSequenceNodes]
  rw [List.filter_map, List.enum_map, List.map_map, List.map_map]
  rfl

/-- `find?` by label commutes with id renaming of the node list. -/
theorem find?_label_mapNode (f : α → β) (l : List (DNode α)) (s : String) :
    (l.map (mapNode f)).find? (fun n => n.label = s)
      = Option.map (mapNode f) (l.find? (fun n => n.label = s)) := by
  rw [List.find?_map]
  rfl

/-- Pointwise: building a sequence edge over renamed nodes and messages is the
renaming of the edge built over the originals. -/
theorem seqEdge_map (f : α → β) (e0 : α) (nodes : List (DNode α)) (mid : α)
    (mfrom mto message mtype : String) (i : Nat) :
    ({ id := f mid
       efrom := match (nodes.map (mapNode f)).find? (fun n => n.label = mfrom) with
         | some n => n.id
         | none => f e0
       eto := match (nodes.map (mapNode f)).find? (fun n => n.label = mto) with
         | some n => n.id
         | none => f e0
       label := message
       type := mtype
       order := i } : DEdge β)
      = mapEdge f
        ({ id := mid
           efrom := match nodes.find? (fun n => n.label = mfrom) with
             | some n => n.id
             | none => e0
           eto := match nodes.find? (fun n => n.label = mto) with
             | some n => n.id
             | none => e0
           label := message
           type := mtype
           order := i } : DEdge α) := by
  dsimp only [mapEdge]
  rw [find?_label_mapNode, find?_label_mapNode]
  cases nodes.find? (fun n => decide (n.label = mfrom)) <;>
    cases nodes.find? (fun n => decide (n.label = mto)) <;> rfl

/-- The sequence parser commutes with id renaming. -/
theorem parseSequenceDiagram_map (f : α → β) (σ : Nat → α) (e0 : α) (input : String) :
    parseSequenceDiagram (fun k => f (σ k)) (f e0) input
      = mapResult f (parseSequenceDiagram σ e0 input) := by
  unfold parseSequenceDiagram
  rw [extractMessages_map f σ (trimmedLines input)]
  dsimp only [mapResult, mapDiagram]
  have hnodes : (extractMessages σ (trimmedLines input)).1.enum.map
      (fun (p : Nat × String) =>
        ({ id := f (σ ((extractMessages σ (trimmedLines input)).2.2 + p.1))
           type := "actor"
           x := 100 + (p.1 : ℚ) * 200
           y := 50
           width := 100
           height := 60
           label := p.2
           name := p.2 } : DNode β))
      = ((extractMessages σ (trimmedLines input)).1.enum.map
        (fun (p : Nat × String) =>
          ({ id := σ ((extractMessages σ (trimmedLines input)).2.2 + p.1)
             type := "actor"
             x := 100 + (p.1 : ℚ) * 200
             y := 50
             width := 100
             height := 60
             label := p.2
             name := p.2 } : DNode α))).map (mapNode f) := by
    rw [List.map_map]
    rfl
  rw [hnodes, positionSequenceNodes_map]
  simp only [ParserResult.ok.injEq, Diagram.mk.injEq]
  refine ⟨trivial, ?_, trivial⟩
  conv_lhs => rw [List.enum_map, List.map_map]
  conv_rhs => rw [List.map_map]
  refine List.map_congr_left ?_
  intro p hp
  exact seqEdge_map f e0 _ p.2.id p.2.mfrom p.2.mto p.2.message p.2.mtype p.1

end SequenceParser

section MapIdTransport2

variable {α β : Type} [DecidableEq α] [DecidableEq β]

/-- `find?` by name commutes with id renaming of the node list. -/
theorem find?_name_mapNode (f : α → β) (l : List (DNode α)) (s : String) :
    (l.map (mapNode f)).find? (fun n => n.name = s)
      = Option.map (mapNode f) (l.find? (fun n => n.name = s)) := by
  rw [List.find?_map]
  rfl

/-- `find?` by id commutes with injective id renaming of the node list. -/
theorem find?_id_mapNode (f : α → β) (hf : Function.Injective f) (l : List (DNode α)) (t : α) :
    (l.map (mapNode f)).find? (fun n => n.id = f t)
      = Option.map (mapNode f) (l.find? (fun n => n.id = t)) := by
  have hp : ((fun (n : DNode β) => decide (n.id = f t)) ∘ mapNode f)
      = (fun (n : DNode α) => decide (n.id = t)) := by
    funext n
    exact decide_map_eq hf n.id t
  rw [List.find?_map, hp]

/-- Collecting the use cases connected to an actor commutes with injective
id renaming. -/
theorem usecaseConn_map (f : α → β) (hf : Function.Injective f) (edges : List (DEdge α))
    (PU : List (DNode α)) (t : α) :
    ((edges.map (mapEdge f)).filter (fun e => e.efrom = f t)).filterMap
      (fun e => (PU.map (mapNode f)).find? (fun uc => uc.id = e.eto))
    = ((edges.filter (fun e => e.efrom = t)).filterMap
      (fun e => PU.find? (fun uc => uc.id = e.eto))).map (mapNode f) := by
  rw [List.filter_map]
  have hp : ((fun (e : DEdge β) => decide (e.efrom = f t)) ∘ mapEdge f)
      = (fun (e : DEdge α) => decide (e.efrom = t)) := by
    funext e
    exact decide_map_eq hf e.efrom t
  rw [hp, List.filterMap_map, List.map_filterMap]
  refine List.filterMap_congr ?_
  intro e he
  exact find?_id_mapNode f hf PU e.eto

end MapIdTransport2

namespace UsecaseParser

variable {α β : Type} [DecidableEq α] [DecidableEq β]

/-- Use-case extraction commutes with id renaming: the actor, use-case and
edge lists are renamed componentwise and the counter agrees. -/
theorem extractUsecase_map (f : α → β) (σ : Nat → α) (lines : List String) :
    extractUsecase (fun k => f (σ k)) lines
      = ((extractUsecase σ lines).1.map (mapNode f),
         (extractUsecase σ lines).2.1.map (mapNode f),
         (extractUsecase σ lines).2.2.1.map (mapEdge f),
         (extractUsecase σ lines).2.2.2) := by
  unfold extractUsecase
  refine foldl_naturality'
    (fun (acc : List (DNode α) × List (DNode α) × List (DEdge α) × Nat) =>
      (acc.1.map (mapNode f), acc.2.1.map (mapNode f), acc.2.2.1.map (mapEdge f), acc.2.2.2))
    _ _ ?_ lines ([], [], [], 0) ([], [], [], 0) rfl
  intro acc x
  obtain ⟨actors, usecases, edges, k⟩ := acc
  dsimp only
  split_ifs with h1 h2
  · rw [List.map_append]
    rfl
  · cases hm : TextMatch.matchUsecaseLine x with
    | none => rfl
    | some pr =>
      obtain ⟨actorName, usecaseName⟩ := pr
      dsimp only
      rw [SequenceParser.find?_label_mapNode]
      cases h3 : usecases.find? (fun u => u.label = usecaseName) <;>
        rw [find?_name_mapNode] <;>
        cases h4 : actors.find? (fun a => a.name = actorName) <;>
        (try simp only [List.map_append]) <;> rfl
  · rfl

/-- The use-case parser commutes with injective id renaming. -/
theorem parseUsecaseDiagram_map (f : α → β) (hf : Function.Injective f) (σ : Nat → α)
    (input : String) :
    parseUsecaseDiagram (fun k => f (σ k)) input
      = mapResult f (parseUsecaseDiagram σ input) := by
  unfold parseUsecaseDiagram
  rw [extractUsecase_map f σ (trimmedLines input)]
  dsimp only [mapResult, mapDiagram]
  simp only [ParserResult.ok.injEq, Diagram.mk.injEq]
  refine ⟨?_, trivial, trivial⟩
  rw [List.map_append]
  congr 1
  · have hstep : ∀ (acc : List (DNode α) × Nat) (x : DNode α),
        (fun (bcc : List (DNode β) × Nat) (bactor : DNode β) =>
          let connectedUsecases :=
            (((extractUsecase σ (trimmedLines input)).2.2.1.map (mapEdge f)).filter
              (fun e => e.efrom = bactor.id)).filterMap
            (fun e => (((extractUsecase σ (trimmedLines input)).2.1.map (mapNode f)).enum.map
              (fun (p : Nat × DNode β) =>
                { p.2 with
                  x := 350
                  y := 100 + (p.1 : ℚ) * 120
                  width := max 160 ((p.2.label.length : ℚ) * 12)
                  height := 80 })).find? (fun uc => uc.id = e.eto))
          if connectedUsecases.length > 0 then
            (bcc.1 ++ [{ bactor with
                         x := 100
                         y := (connectedUsecases.foldl
                            (fun sum uc => sum + uc.y + uc.height / 2) 0) /
                           (connectedUsecases.length : ℚ) - 60
                         width := 100
                         height := 120 }], bcc.2)
          else
            (bcc.1 ++ [{ bactor with
                         x := 100
                         y := 100 + (bcc.2 : ℚ) * 150
                         width := 100
                         height := 120 }], bcc.2 + 1))
          ((fun (a : List (DNode α) × Nat) => (a.1.map (mapNode f), a.2)) acc) (mapNode f x)
        = (fun (a : List (DNode α) × Nat) => (a.1.map (mapNode f), a.2))
          ((fun (acc2 : List (DNode α) × Nat) (aactor : DNode α) =>
            let connectedUsecases :=
              (((extractUsecase σ (trimmedLines input)).2.2.1).filter
                (fun e => e.efrom = aactor.id)).filterMap
              (fun e => ((extractUsecase σ (trimmedLines input)).2.1.enum.map
                (fun (p : Nat × DNode α) =>
                  { p.2 with
                    x := 350
                    y := 100 + (p.1 : ℚ) * 120
                    width := max 160 ((p.2.label.length : ℚ) * 12)
                    height := 80 })).find? (fun uc => uc.id = e.eto))
            if connectedUsecases.length > 0 then
              (acc2.1 ++ [{ aactor with
                            x := 100
                            y := (connectedUsecases.foldl
                               (fun sum uc => sum + uc.y + uc.height / 2) 0) /
                              (connectedUsecases.length : ℚ) - 60
                            width := 100
                            height := 120 }], acc2.2)
            else
              (acc2.1 ++ [{ aactor with
                            x := 100
                            y := 100 + (acc2.2 : ℚ) * 150
                            width := 100
                            height := 120 }], acc2.2 + 1)) acc x) := by
      intro acc x
      dsimp only [mapNode]
      have hPU : (((extractUsecase σ (trimmedLines input)).2.1.map (mapNode f)).enum.map
          (fun (p : Nat × DNode β) =>
            { p.2 with
              x := 350
              y := 100 + (p.1 : ℚ) * 120
              width := max 160 ((p.2.label.length : ℚ) * 12)
              height := 80 }))
          = (((extractUsecase σ (trimmedLines input)).2.1.enum.map
            (fun (p : Nat × DNode α) =>
              { p.2 with
                x := 350
                y := 100 + (p.1 : ℚ) * 120
                width := max 160 ((p.2.label.length : ℚ) * 12)
                height := 80 })).map (mapNode f)) := by
        rw [List.enum_map, List.map_map, List.map_map]
        rfl
      rw [hPU]
      rw [usecaseConn_map f hf ((extractUsecase σ (trimmedLines input)).2.2.1)
        ((extractUsecase σ (trimmedLines input)).2.1.enum.map
          (fun (p : Nat × DNode α) =>
            { p.2 with
              x := 350
              y := 100 + (p.1 : ℚ) * 120
              width := max 160 ((p.2.label.length : ℚ) * 12)
              height := 80 })) x.id]
      rw [List.length_map, List.foldl_map]
      split_ifs with hc <;> (try simp only [List.map_append]) <;> rfl
    exact congrArg Prod.fst
      (foldl_map_naturality'
        (fun (a : List (DNode α) × Nat) => (a.1.map (mapNode f), a.2))
        (mapNode f) _ _ hstep (extractUsecase σ (trimmedLines input)).1 ([], 0) ([], 0) rfl)
  · rw [List.enum_map, List.map_map, List.map_map]
    rfl

end UsecaseParser

/-- `isEmpty` is invariant under `map`. -/
theorem isEmpty_map' {γ δ : Type} (g : γ → δ) (l : List γ) :
    (l.map g).isEmpty = l.isEmpty := by
  cases l <;> rfl

/-- `getD i []` commutes with mapping a nil-preserving function over the rows. -/
theorem getD_map_of {γ δ : Type} (g : List γ → List δ) (hg : g [] = []) :
    ∀ (L : List (List γ)) (i : Nat), (L.map g).getD i [] = g (L.getD i []) := by
  intro L
  induction L with
  | nil =>
    intro i
    simp [hg]
  | cons a L ih =>
    intro i
    cases i with
    | zero => rfl
    | succ j => simpa using ih j

section MapIdTransport3

variable {α β : Type} [DecidableEq α] [DecidableEq β]

/-- `find?` by class name commutes with id renaming of the node list. -/
theorem find?_className_mapNode (f : α → β) (l : List (DNode α)) (s : String) :
    (l.map (mapNode f)).find? (fun n => n.className = s)
      = Option.map (mapNode f) (l.find? (fun n => n.className = s)) := by
  rw [List.find?_map]
  rfl

end MapIdTransport3

namespace Layout

section MapIdLayout

variable {α β : Type} [DecidableEq α] [DecidableEq β]

/-- BFS adjacency commutes with injective id renaming. -/
theorem adjacencyOf_map (f : α → β) (hf : Function.Injective f)
    (edges : List (DEdge α)) (t : α) :
    adjacencyOf (edges.map (mapEdge f)) (f t) = (adjacencyOf edges t).map f := by
  unfold adjacencyOf
  rw [List.filter_map]
  have hp : ((fun (e : DEdge β) => decide (e.efrom = f t)) ∘ mapEdge f)
      = (fun (e : DEdge α) => decide (e.efrom = t)) := by
    funext e
    exact decide_map_eq hf e.efrom t
  rw [hp, List.map_map, List.map_map]
  rfl

/-- Incoming-edge lookup commutes with injective id renaming. -/
theorem incomingOf_map (f : α → β) (hf : Function.Injective f)
    (edges : List (DEdge α)) (t : α) :
    incomingOf (edges.map (mapEdge f)) (f t) = (incomingOf edges t).map f := by
  unfold incomingOf
  rw [List.filter_map]
  have hp : ((fun (e : DEdge β) => decide (e.eto = f t)) ∘ mapEdge f)
      = (fun (e : DEdge α) => decide (e.eto = t)) := by
    funext e
    exact decide_map_eq hf e.eto t
  rw [hp, List.map_map, List.map_map]
  rfl

/-- Root-node selection commutes with injective id renaming. -/
theorem rootNodesOf_map (f : α → β) (hf : Function.Injective f)
    (nodes : List (DNode α)) (edges : List (DEdge α)) :
    rootNodesOf (nodes.map (mapNode f)) (edges.map (mapEdge f))
      = (rootNodesOf nodes edges).map (mapNode f) := by
  unfold rootNodesOf
  have hp : ((fun (n : DNode β) =>
        (incomingOf (edges.map (mapEdge f)) n.id).isEmpty || isRootType n) ∘ mapNode f)
      = (fun (n : DNode α) => (incomingOf edges n.id).isEmpty || isRootType n) := by
    funext n
    dsimp only [Function.comp]
    rw [show (mapNode f n).id = f n.id from rfl, incomingOf_map f hf edges n.id, isEmpty_map']
    rfl
  rw [List.filter_map, hp]
  dsimp only
  rw [isEmpty_map']
  split_ifs with h
  · rw [List.filter_map]
    rw [show ((fun (n : DNode β) => n.type == "class" || n.type == "usecase" || n.type == "")
        ∘ mapNode f)
      = (fun (n : DNode α) => n.type == "class" || n.type == "usecase" || n.type == "")
      from rfl]
    rw [List.head?_map]
    cases hh : (nodes.filter
        (fun (n : DNode α) => n.type == "class" || n.type == "usecase" || n.type == "")).head? with
    | none =>
      dsimp only [Option.map]
      rw [List.map_take]
    | some c => rfl
  · rfl

end MapIdLayout

end Layout

namespace Layout

section MapIdLayout2

variable {α β : Type} [DecidableEq α] [DecidableEq β]

/-- The hierarchical-layout BFS commutes with injective id renaming. -/
theorem bfsLoop_map (f : α → β) (hf : Function.Injective f)
    (nodes : List (DNode α)) (edges : List (DEdge α)) :
    ∀ (fuel : Nat) (queue : List (DNode α × Nat)) (layers : List (List (DNode α)))
      (visited : List α),
      bfsLoop (nodes.map (mapNode f)) (edges.map (mapEdge f)) fuel
        (queue.map (fun p => (mapNode f p.1, p.2)))
        (layers.map (List.map (mapNode f))) (visited.map f)
      = ((bfsLoop nodes edges fuel queue layers visited).1.map (List.map (mapNode f)),
         (bfsLoop nodes edges fuel queue layers visited).2.map f) := by
  intro fuel
  induction fuel with
  | zero =>
    intro queue layers visited
    rfl
  | succ m ih =>
    intro queue layers visited
    cases queue with
    | nil => rfl
    | cons q rest =>
      obtain ⟨node, layer⟩ := q
      simp only [List.map_cons]
      conv_lhs => rw [bfsLoop]
      conv_rhs => rw [bfsLoop]
      dsimp only
      rw [show (mapNode f node).id = f node.id from rfl,
        contains_map hf visited node.id]
      split_ifs with hv
      · exact ih rest layers visited
      · refine Eq.trans ?_ (ih _ _ _)
        congr 3
        · rw [List.map_append]
          congr 1
          rw [adjacencyOf_map f hf edges node.id]
          refine foldl_map_naturality'
            (fun (acc : List (DNode α × Nat)) => acc.map (fun p => (mapNode f p.1, p.2))) f
            _ _ ?_ (adjacencyOf edges node.id) [] [] rfl
          intro acc c
          dsimp only
          rw [find?_id_mapNode f hf nodes c]
          cases hfind : nodes.find? (fun n => n.id = c) with
          | none => rfl
          | some childNode =>
            dsimp only [Option.map]
            rw [show visited.map f ++ [f node.id] = (visited ++ [node.id]).map f from by simp,
              contains_map hf (visited ++ [node.id]) c]
            split_ifs with h2
            · rfl
            · simp
        · have h1 : layers.map (List.map (mapNode f)) ++
              List.replicate (layer + 1 - (layers.map (List.map (mapNode f))).length) []
              = (layers ++ List.replicate (layer + 1 - layers.length) []).map
                  (List.map (mapNode f)) := by
            simp
          rw [h1, getD_map_of (List.map (mapNode f)) rfl, List.map_set]
          simp
        · simp

/-- `bfsLoop` naturality at the empty initial layers and visited lists. -/
theorem bfsLoop_map_nil (f : α → β) (hf : Function.Injective f)
    (nodes : List (DNode α)) (edges : List (DEdge α)) (fuel : Nat)
    (queue : List (DNode α × Nat)) :
    bfsLoop (nodes.map (mapNode f)) (edges.map (mapEdge f)) fuel
      (queue.map (fun p => (mapNode f p.1, p.2))) [] []
    = ((bfsLoop nodes edges fuel queue [] []).1.map (List.map (mapNode f)),
       (bfsLoop nodes edges fuel queue [] []).2.map f) := by
  simpa using bfsLoop_map f hf nodes edges fuel queue [] []

/-- Appending the BFS-unreached nodes commutes with injective id renaming. -/
theorem appendUnvisited_map (f : α → β) (hf : Function.Injective f)
    (nodes : List (DNode α)) (layers : List (List (DNode α))) (visited : List α) :
    appendUnvisited (nodes.map (mapNode f)) (layers.map (List.map (mapNode f)))
        (visited.map f)
      = (appendUnvisited nodes layers visited).map (List.map (mapNode f)) := by
  unfold appendUnvisited
  refine foldl_map_naturality'
    (fun (L : List (List (DNode α))) => L.map (List.map (mapNode f))) (mapNode f)
    _ _ ?_ nodes layers (layers.map (List.map (mapNode f))) rfl
  intro L n
  dsimp only
  unfold unvisitedStep
  rw [show (mapNode f n).id = f n.id from rfl, contains_map hf visited n.id]
  split_ifs with h
  · rfl
  · dsimp only
    rw [List.length_map, getD_map_of (List.map (mapNode f)) rfl, List.map_set]
    simp

/-- The complete layer assignment commutes with injective id renaming. -/
theorem layersOf_map (f : α → β) (hf : Function.Injective f)
    (nodes : List (DNode α)) (edges : List (DEdge α)) :
    layersOf (nodes.map (mapNode f)) (edges.map (mapEdge f))
      = (layersOf nodes edges).map (List.map (mapNode f)) := by
  unfold layersOf
  rw [rootNodesOf_map f hf nodes edges]
  have hstart : ((rootNodesOf nodes edges).map (mapNode f)).map (fun n => (n, (0 : Nat)))
      = ((rootNodesOf nodes edges).map (fun n => (n, (0 : Nat)))).map
          (fun (p : DNode α × Nat) => (mapNode f p.1, p.2)) := by
    rw [List.map_map, List.map_map]
    rfl
  have hfuel : bfsFuel (nodes.map (mapNode f)) (edges.map (mapEdge f))
      = bfsFuel nodes edges := by
    simp [bfsFuel]
  dsimp only
  rw [hstart, hfuel, bfsLoop_map_nil f hf nodes edges (bfsFuel nodes edges)
    ((rootNodesOf nodes edges).map (fun n => (n, (0 : Nat))))]
  dsimp only
  exact appendUnvisited_map f hf nodes _ _

end MapIdLayout2

end Layout

namespace Layout

section MapIdLayout3

variable {α β : Type} [DecidableEq α] [DecidableEq β]

/-- One placement row of the overlap-fix layout commutes with id renaming. -/
theorem placeRow_map (f : α → β) (o : LayoutOptions) (layerIndex : Nat)
    (layerNodes : List (DNode α)) :
    LayoutV2.placeRow o layerIndex (layerNodes.map (mapNode f))
      = (LayoutV2.placeRow o layerIndex layerNodes).map (mapNode f) := by
  unfold LayoutV2.placeRow
  rw [List.enum_map]
  conv_lhs => rw [List.map_map]
  conv_rhs => rw [List.map_map]
  refine List.map_congr_left ?_
  intro p hp
  dsimp only [Function.comp, Prod.map, id_eq]
  rw [List.length_map]
  rw [show ((layerNodes.map (mapNode f)).take p.1).foldl
        (fun cumulativeX prev => cumulativeX + orD prev.width (o.nodeWidth.getD 120) + 70)
        (o.startX.getD 150)
      = (layerNodes.take p.1).foldl
        (fun cumulativeX prev => cumulativeX + orD prev.width (o.nodeWidth.getD 120) + 70)
        (o.startX.getD 150) from by
    rw [← List.map_take, List.foldl_map]
    rfl]
  split_ifs <;> rfl

/-- The overlap-fix placement pass commutes with id renaming. -/
theorem placeLayers_map (f : α → β) (layers : List (List (DNode α))) (o : LayoutOptions) :
    LayoutV2.placeLayers (layers.map (List.map (mapNode f))) o
      = (LayoutV2.placeLayers layers o).map (mapNode f) := by
  unfold LayoutV2.placeLayers
  rw [List.enum_map, List.flatMap_map, List.map_flatMap]
  have hfn : (fun (p : Nat × List (DNode α)) =>
      (fun (q : Nat × List (DNode β)) => LayoutV2.placeRow o q.1 q.2)
        ((fun (r : Nat × List (DNode α)) => (r.1, r.2.map (mapNode f))) p))
      = (fun (p : Nat × List (DNode α)) =>
        (LayoutV2.placeRow o p.1 p.2).map (mapNode f)) := by
    funext p
    exact placeRow_map f o p.1 p.2
  exact congrArg _ hfn

/-- The overlap-fix hierarchical layout commutes with injective id renaming. -/
theorem positionNodesHierarchically_map (f : α → β) (hf : Function.Injective f)
    (nodes : List (DNode α)) (edges : List (DEdge α)) (o : LayoutOptions) :
    LayoutV2.positionNodesHierarchically (nodes.map (mapNode f)) (edges.map (mapEdge f)) o
      = Option.map (List.map (mapNode f))
          (LayoutV2.positionNodesHierarchically nodes edges o) := by
  unfold LayoutV2.positionNodesHierarchically
  rw [isEmpty_map']
  split_ifs with h
  · rfl
  · rw [layersOf_map f hf nodes edges, placeLayers_map f (layersOf nodes edges) o]
    rfl

end MapIdLayout3

end Layout

/-- `isSome` is invariant under `Option.map`. -/
theorem isSome_map' {γ δ : Type} (g : γ → δ) (o : Option γ) :
    (o.map g).isSome = o.isSome := by
  cases o <;> rfl

namespace ClassParser

section ClassMapId

variable {α β : Type} [DecidableEq α] [DecidableEq β]

/-- Rename the ids of the class-parser loop state. -/
def mapLoopState (f : α → β) (s : LoopState α) : LoopState β :=
  { nodes := s.nodes.map (mapNode f)
    pending := s.pending.map (fun p => (f p.1, p.2))
    currentClass := s.currentClass.map (mapNode f)
    aliasCount := s.aliasCount
    yPosition := s.yPosition
    k := s.k }

/-- A shared-payload attribute push commutes with id renaming. -/
theorem pushSharedMember_attr_map (f : α → β) (a : ClassAttribute) (cnt : Nat)
    (nodes : List (DNode α)) :
    pushSharedMember (fun n => { n with attributes := n.attributes ++ [a] }) cnt
        (nodes.map (mapNode f))
      = (pushSharedMember (fun n => { n with attributes := n.attributes ++ [a] }) cnt
          nodes).map (mapNode f) := by
  unfold pushSharedMember
  simp only [List.length_map, List.map_take, List.map_drop, List.map_append, List.map_map]
  rfl

/-- A shared-payload method push commutes with id renaming. -/
theorem pushSharedMember_method_map (f : α → β) (m : ClassMethod) (cnt : Nat)
    (nodes : List (DNode α)) :
    pushSharedMember (fun n => { n with methods := n.methods ++ [m] }) cnt
        (nodes.map (mapNode f))
      = (pushSharedMember (fun n => { n with methods := n.methods ++ [m] }) cnt
          nodes).map (mapNode f) := by
  unfold pushSharedMember
  simp only [List.length_map, List.map_take, List.map_drop, List.map_append, List.map_map]
  rfl

/-- One class-parser loop iteration commutes with id renaming. -/
theorem stepLine_map (f : α → β) (σ : Nat → α) (s : LoopState α) (line : String) :
    stepLine (fun k => f (σ k)) (mapLoopState f s) line
      = mapLoopState f (stepLine σ s line) := by
  obtain ⟨nodes0, pending0, cc0, ac0, y0, k0⟩ := s
  cases cc0 with
  | none =>
    unfold stepLine
    dsimp only [mapLoopState, Option.map]
    simp only [Option.isSome_none, Bool.false_eq_true, false_and, and_false, if_false]
    split_ifs with h1
    · cases hm : TextMatch.matchClassDecl line with
      | none => rfl
      | some pr =>
        obtain ⟨className, parentClass⟩ := pr
        dsimp only
        cases parentClass <;>
          first
            | rfl
            | (simp only [List.map_append, List.length_append, List.length_map]; rfl)
    · rfl
  | some c =>
    unfold stepLine
    dsimp only [mapLoopState, Option.map]
    simp only [Option.isSome_some, eq_self_iff_true, true_and, and_true]
    split_ifs <;>
      first
        | rfl
        | (simp only [List.map_append, List.length_append, List.length_map]; rfl)
        | (cases hm : TextMatch.matchClassDecl line with
           | none =>
             first
               | rfl
               | (simp only [List.map_append, List.length_append, List.length_map]; rfl)
           | some pr =>
             obtain ⟨className, parentClass⟩ := pr
             dsimp only
             cases parentClass <;>
               first
                 | rfl
                 | (simp only [List.map_append, List.length_append, List.length_map]; rfl))
        | (cases hmm : TextMatch.matchMethod ((line.drop 1).trim) <;>
            first
              | rfl
              | (rw [pushSharedMember_method_map]; rfl)
              | (simp only [List.map_append]; rfl)
              | (dsimp only; rw [pushSharedMember_method_map]; rfl))
        | (cases hma : TextMatch.matchAttribute ((line.drop 1).trim) <;>
            first
              | rfl
              | (rw [pushSharedMember_attr_map]; rfl)
              | (simp only [List.map_append]; rfl)
              | (dsimp only; rw [pushSharedMember_attr_map]; rfl))

/-- The class parse-and-resolve core commutes with injective id renaming. -/
theorem parseCore_map (f : α → β) (hf : Function.Injective f) (σ : Nat → α)
    (input : String) :
    parseCore (fun k => f (σ k)) input
      = ((parseCore σ input).1.map (mapNode f), (parseCore σ input).2.map (mapEdge f)) := by
  unfold parseCore
  rw [show (trimmedLines input).foldl (stepLine (fun k => f (σ k)))
      { nodes := [], pending := [], currentClass := none, aliasCount := 0, yPosition := 50, k := 0 }
      = mapLoopState f ((trimmedLines input).foldl (stepLine σ)
        { nodes := [], pending := [], currentClass := none, aliasCount := 0, yPosition := 50, k := 0 })
    from foldl_naturality' (mapLoopState f) (stepLine σ) (stepLine (fun k => f (σ k)))
      (stepLine_map f σ) (trimmedLines input) _ _ rfl]
  set S := (trimmedLines input).foldl (stepLine σ)
    { nodes := [], pending := [], currentClass := none, aliasCount := 0, yPosition := 50, k := 0 } with hS
  dsimp only [mapLoopState]
  cases hcc : S.currentClass with
  | none =>
    dsimp only [Option.map]
    simp only [Prod.mk.injEq]
    refine ⟨trivial, ?_⟩
    refine congrArg Prod.fst (foldl_map_naturality'
      (fun (acc : List (DEdge α) × Nat) => (acc.1.map (mapEdge f), acc.2))
      (fun (p : α × String) => (f p.1, p.2)) _ _ ?_ S.pending ([], S.k) ([], S.k) rfl)
    intro acc rel
    dsimp only
    rw [show (S.nodes.map (mapNode f)).reverse = (S.nodes.reverse).map (mapNode f)
        from (List.map_reverse _ _).symm]
    rw [find?_className_mapNode]
    cases hfind : (S.nodes.reverse).find? (fun n => n.className = rel.2) with
    | none => rfl
    | some parentNode =>
      dsimp only [Option.map]
      simp only [List.map_append]
      rfl
  | some c =>
    dsimp only [Option.map]
    rw [show S.nodes.map (mapNode f) ++ [finishCurrentClass (mapNode f c)]
        = (S.nodes ++ [finishCurrentClass c]).map (mapNode f) from by
      simp only [List.map_append, List.map_cons, List.map_nil]
      rfl]
    simp only [Prod.mk.injEq]
    refine ⟨trivial, ?_⟩
    refine congrArg Prod.fst (foldl_map_naturality'
      (fun (acc : List (DEdge α) × Nat) => (acc.1.map (mapEdge f), acc.2))
      (fun (p : α × String) => (f p.1, p.2)) _ _ ?_ S.pending ([], S.k) ([], S.k) rfl)
    intro acc rel
    dsimp only
    rw [show ((S.nodes ++ [finishCurrentClass c]).map (mapNode f)).reverse
        = ((S.nodes ++ [finishCurrentClass c]).reverse).map (mapNode f)
        from (List.map_reverse _ _).symm]
    rw [find?_className_mapNode]
    cases hfind : ((S.nodes ++ [finishCurrentClass c]).reverse).find?
        (fun n => n.className = rel.2) with
    | none => rfl
    | some parentNode =>
      dsimp only [Option.map]
      simp only [List.map_append]
      rfl

/-- The class parser commutes with injective id renaming. -/
theorem parseClassDiagram_map (f : α → β) (hf : Function.Injective f) (σ : Nat → α)
    (input : String) :
    parseClassDiagram (fun k => f (σ k)) input
      = mapResult f (parseClassDiagram σ input) := by
  unfold parseClassDiagram
  rw [parseCore_map f hf σ input]
  dsimp only
  rw [Layout.positionNodesHierarchically_map f hf (parseCore σ input).1 (parseCore σ input).2
    { nodeWidth := some 250, nodeHeight := some 200,
      horizontalSpacing := some 300, verticalSpacing := some 250,
      layoutDirection := some "top-down" }]
  cases hpos : Layout.LayoutV2.positionNodesHierarchically (parseCore σ input).1
      (parseCore σ input).2
      { nodeWidth := some 250, nodeHeight := some 200,
        horizontalSpacing := some 300, verticalSpacing := some 250,
        layoutDirection := some "top-down" } with
  | none => rfl
  | some layoutNodes => rfl

end ClassMapId

end ClassParser

/-- `lookup` commutes with mapping the values of an association list. -/
theorem lookup_map_value {γ δ ε : Type} [BEq γ] (g : δ → ε) :
    ∀ (l : List (γ × δ)) (k : γ),
      (l.map (fun p => (p.1, g p.2))).lookup k = Option.map g (l.lookup k) := by
  intro l
  induction l with
  | nil => intro k; rfl
  | cons a l ih =>
    intro k
    obtain ⟨k0, v0⟩ := a
    simp only [List.map_cons, List.lookup_cons]
    cases h : k == k0 with
    | true => rfl
    | false => exact ih k

/-- `lookup` is invariant under injectively renaming the keys of an
association list. -/
theorem lookup_map_key {α β δ : Type} [DecidableEq α] [DecidableEq β]
    (f : α → β) (hf : Function.Injective f) :
    ∀ (l : List (α × δ)) (k : α),
      (l.map (fun p => (f p.1, p.2))).lookup (f k) = l.lookup k := by
  intro l
  induction l with
  | nil => intro k; rfl
  | cons a l ih =>
    intro k
    obtain ⟨k0, v0⟩ := a
    simp only [List.map_cons, List.lookup_cons]
    by_cases h : k = k0
    · subst h
      simp
    · have h2 : f k ≠ f k0 := fun hc => h (hf hc)
      rw [show (f k == f k0) = false by simpa using h2, show (k == k0) = false by simpa using h]
      exact ih k

namespace FlowParser

section FlowMapId

variable {α β : Type} [DecidableEq α] [DecidableEq β]

/-- `layerOrZero` is invariant under injective id renaming. -/
theorem layerOrZero_map (f : α → β) (hf : Function.Injective f)
    (ntl : List (α × Nat)) (t : α) :
    layerOrZero (ntl.map (fun p => (f p.1, p.2))) (f t) = layerOrZero ntl t := by
  unfold layerOrZero
  rw [lookup_map_key f hf ntl t]

/-- `setAssoc` commutes with injective id renaming of the keys. -/
theorem setAssoc_map (f : α → β) (hf : Function.Injective f)
    (l : List (α × Nat)) (key : α) (v : Nat) :
    setAssoc (l.map (fun p => (f p.1, p.2))) (f key) v
      = (setAssoc l key v).map (fun p => (f p.1, p.2)) := by
  unfold setAssoc
  rw [lookup_map_key f hf l key]
  split_ifs with h
  · rw [List.map_map, List.map_map]
    refine List.map_congr_left ?_
    intro p hp
    dsimp only [Function.comp]
    by_cases hk : p.1 = key
    · simp [hk]
    · have h2 : f p.1 ≠ f key := fun hc => hk (hf hc)
      simp [hk, h2]
  · simp

/-- `ensureNode` commutes with id renaming. -/
theorem ensureNode_map (f : α → β) (σ : Nat → α)
    (nodeMap : List (String × DNode α)) (k : Nat) (nm : String) :
    ensureNode (fun j => f (σ j)) (nodeMap.map (fun p => (p.1, mapNode f p.2))) k nm
      = ((ensureNode σ nodeMap k nm).1.map (fun p => (p.1, mapNode f p.2)),
         mapNode f (ensureNode σ nodeMap k nm).2.1,
         (ensureNode σ nodeMap k nm).2.2) := by
  unfold ensureNode
  rw [lookup_map_value (mapNode f) nodeMap nm]
  cases h : nodeMap.lookup nm with
  | some n => rfl
  | none =>
    dsimp only [Option.map]
    simp only [List.map_append]
    rfl

/-- Flow extraction commutes with id renaming. -/
theorem extractFlow_map (f : α → β) (σ : Nat → α) (lines : List String) :
    extractFlow (fun k => f (σ k)) lines
      = ((extractFlow σ lines).1.map (fun p => (p.1, mapNode f p.2)),
         (extractFlow σ lines).2.1.map (mapEdge f),
         (extractFlow σ lines).2.2) := by
  unfold extractFlow
  refine foldl_naturality'
    (fun (acc : List (String × DNode α) × List (DEdge α) × Nat) =>
      (acc.1.map (fun p => (p.1, mapNode f p.2)), acc.2.1.map (mapEdge f), acc.2.2))
    _ _ ?_ lines ([], [], 0) ([], [], 0) rfl
  intro acc x
  cases hm : TextMatch.matchFlowLine x with
  | none => rfl
  | some tr =>
    obtain ⟨fromName, toName, label⟩ := tr
    dsimp only
    rw [ensureNode_map f σ acc.1 acc.2.2 fromName]
    dsimp only
    rw [ensureNode_map f σ (ensureNode σ acc.1 acc.2.2 fromName).1
      (ensureNode σ acc.1 acc.2.2 fromName).2.2 toName]
    dsimp only
    simp only [List.map_append]
    rfl

/-- The deepest-end-layer scan is invariant under injective id renaming. -/
theorem maxEndLayer_map (f : α → β) (hf : Function.Injective f)
    (ntl : List (α × Nat)) :
    ∀ (ends : List (DNode α)) (m : Nat),
      (ends.map (mapNode f)).foldl
        (fun m en => max m (layerOrZero (ntl.map (fun p => (f p.1, p.2))) en.id)) m
      = ends.foldl (fun m en => max m (layerOrZero ntl en.id)) m := by
  intro ends
  induction ends with
  | nil => intro m; rfl
  | cons a l ih =>
    intro m
    simp only [List.map_cons, List.foldl_cons]
    rw [show (mapNode f a).id = f a.id from rfl, layerOrZero_map f hf ntl a.id]
    exact ih _

/-- One end-node consolidation step commutes with injective id renaming. -/
theorem consolidateStep_map (f : α → β) (hf : Function.Injective f) (maxEndLayer : Nat)
    (layers : List (List (DNode α))) (ntl : List (α × Nat)) (en : DNode α) :
    consolidateStep maxEndLayer
        (layers.map (List.map (mapNode f)), ntl.map (fun p => (f p.1, p.2))) (mapNode f en)
      = ((consolidateStep maxEndLayer (layers, ntl) en).1.map (List.map (mapNode f)),
         (consolidateStep maxEndLayer (layers, ntl) en).2.map (fun p => (f p.1, p.2))) := by
  unfold consolidateStep
  dsimp only
  rw [show (mapNode f en).id = f en.id from rfl, layerOrZero_map f hf ntl en.id]
  have hL : (layers.map (List.map (mapNode f))).set (layerOrZero ntl en.id)
        (((layers.map (List.map (mapNode f))).getD (layerOrZero ntl en.id) []).erase
          (mapNode f en))
      = (layers.set (layerOrZero ntl en.id)
          ((layers.getD (layerOrZero ntl en.id) []).erase en)).map (List.map (mapNode f)) := by
    rw [getD_map_of (List.map (mapNode f)) rfl]
    rw [← List.map_erase (mapNode_inj hf)]
    rw [List.map_set]
  rw [hL, getD_map_of (List.map (mapNode f)) rfl,
    contains_map (mapNode_inj hf)
      ((layers.set (layerOrZero ntl en.id)
        ((layers.getD (layerOrZero ntl en.id) []).erase en)).getD maxEndLayer []) en,
    setAssoc_map f hf ntl en.id maxEndLayer]
  split_ifs with h1 h2
  · rfl
  · rw [List.map_set]
    simp
  · rfl

/-- End-node consolidation commutes with injective id renaming. -/
theorem consolidateEndNodes_map (f : α → β) (hf : Function.Injective f)
    (layers : List (List (DNode α))) (ntl : List (α × Nat)) (ends : List (DNode α)) :
    consolidateEndNodes (layers.map (List.map (mapNode f)))
        (ntl.map (fun p => (f p.1, p.2))) (ends.map (mapNode f))
      = ((consolidateEndNodes layers ntl ends).1.map (List.map (mapNode f)),
         (consolidateEndNodes layers ntl ends).2.map (fun p => (f p.1, p.2))) := by
  unfold consolidateEndNodes
  rw [List.length_map]
  split_ifs with h1
  · rfl
  · rw [maxEndLayer_map f hf ntl ends 0]
    refine foldl_map_naturality'
      (fun (acc : List (List (DNode α)) × List (α × Nat)) =>
        (acc.1.map (List.map (mapNode f)), acc.2.map (fun p => (f p.1, p.2))))
      (mapNode f) _ _ ?_ ends (layers, ntl)
      (layers.map (List.map (mapNode f)), ntl.map (fun p => (f p.1, p.2))) rfl
    intro acc en
    exact consolidateStep_map f hf _ acc.1 acc.2 en

end FlowMapId

end FlowParser

namespace FlowParser

section FlowMapId2

variable {α β : Type} [DecidableEq α] [DecidableEq β]

/-- The flow parser's modified BFS commutes with injective id renaming. -/
theorem flowBfs_map (f : α → β) (hf : Function.Injective f)
    (nodes : List (DNode α)) (edges : List (DEdge α)) :
    ∀ (fuel : Nat) (queue : List (DNode α × Nat)) (layers : List (List (DNode α)))
      (visited : List α) (ntl : List (α × Nat)),
      flowBfs (nodes.map (mapNode f)) (edges.map (mapEdge f)) fuel
        (queue.map (fun p => (mapNode f p.1, p.2)))
        (layers.map (List.map (mapNode f))) (visited.map f)
        (ntl.map (fun p => (f p.1, p.2)))
      = ((flowBfs nodes edges fuel queue layers visited ntl).1.map (List.map (mapNode f)),
         (flowBfs nodes edges fuel queue layers visited ntl).2.1.map f,
         (flowBfs nodes edges fuel queue layers visited ntl).2.2.map (fun p => (f p.1, p.2))) := by
  intro fuel
  induction fuel with
  | zero =>
    intro queue layers visited ntl
    rfl
  | succ m ih =>
    intro queue layers visited ntl
    cases queue with
    | nil => rfl
    | cons q rest =>
      obtain ⟨node, layer⟩ := q
      simp only [List.map_cons]
      conv_lhs => rw [flowBfs]
      conv_rhs => rw [flowBfs]
      dsimp only
      rw [show (mapNode f node).id = f node.id from rfl,
        contains_map hf visited node.id]
      split_ifs with hv
      · exact ih rest layers visited ntl
      · refine Eq.trans ?_ (ih _ _ _ _)
        congr 4
        · rw [List.map_append]
          congr 1
          rw [Layout.adjacencyOf_map f hf edges node.id]
          refine foldl_map_naturality'
            (fun (acc : List (DNode α × Nat)) => acc.map (fun p => (mapNode f p.1, p.2))) f
            _ _ ?_ (Layout.adjacencyOf edges node.id) [] [] rfl
          intro acc c
          dsimp only
          rw [find?_id_mapNode f hf nodes c]
          cases hfind : nodes.find? (fun n => n.id = c) with
          | none => rfl
          | some childNode =>
            dsimp only [Option.map]
            rw [show (mapNode f childNode).type = childNode.type from rfl,
              show visited.map f ++ [f node.id] = (visited ++ [node.id]).map f from by simp,
              contains_map hf (visited ++ [node.id]) c]
            split_ifs <;> first | rfl | simp
        · have h1 : layers.map (List.map (mapNode f)) ++
              List.replicate (layer + 1 - (layers.map (List.map (mapNode f))).length) []
              = (layers ++ List.replicate (layer + 1 - layers.length) []).map
                  (List.map (mapNode f)) := by
            simp
          rw [h1, getD_map_of (List.map (mapNode f)) rfl, List.map_set]
          simp
        · simp
        · exact setAssoc_map f hf ntl node.id layer

/-- `flowBfs` naturality at the empty initial state. -/
theorem flowBfs_map_nil (f : α → β) (hf : Function.Injective f)
    (nodes : List (DNode α)) (edges : List (DEdge α)) (fuel : Nat)
    (queue : List (DNode α × Nat)) :
    flowBfs (nodes.map (mapNode f)) (edges.map (mapEdge f)) fuel
      (queue.map (fun p => (mapNode f p.1, p.2))) [] [] []
    = ((flowBfs nodes edges fuel queue [] [] []).1.map (List.map (mapNode f)),
       (flowBfs nodes edges fuel queue [] [] []).2.1.map f,
       (flowBfs nodes edges fuel queue [] [] []).2.2.map (fun p => (f p.1, p.2))) := by
  simpa using flowBfs_map f hf nodes edges fuel queue [] [] []

/-- The flow layout's unreached-node pass commutes with injective id renaming. -/
theorem flowUnvisitedFold_map (f : α → β) (hf : Function.Injective f)
    (nodes : List (DNode α)) (layers : List (List (DNode α))) (visited : List α) :
    (nodes.map (mapNode f)).foldl (flowUnvisitedStep (visited.map f))
        (layers.map (List.map (mapNode f)))
      = (nodes.foldl (flowUnvisitedStep visited) layers).map (List.map (mapNode f)) := by
  refine foldl_map_naturality'
    (fun (L : List (List (DNode α))) => L.map (List.map (mapNode f))) (mapNode f)
    _ _ ?_ nodes layers (layers.map (List.map (mapNode f))) rfl
  intro L n
  dsimp only
  unfold flowUnvisitedStep
  rw [show (mapNode f n).id = f n.id from rfl, contains_map hf visited n.id, isEmpty_map']
  split_ifs with h h2
  · rfl
  · first | rfl | simp
  · dsimp only
    rw [List.length_map, getD_map_of (List.map (mapNode f)) rfl, List.map_set]
    simp

end FlowMapId2

end FlowParser

namespace FlowParser

section FlowMapId3

variable {α β : Type} [DecidableEq α] [DecidableEq β]

/-- The flow layer assignment commutes with injective id renaming. -/
theorem flowLayers_map (f : α → β) (hf : Function.Injective f)
    (nodeArray : List (DNode α)) (edges : List (DEdge α)) :
    flowLayers (nodeArray.map (mapNode f)) (edges.map (mapEdge f))
      = (flowLayers nodeArray edges).map (List.map (mapNode f)) := by
  unfold flowLayers
  have hproot : ((fun (n : DNode β) =>
        (Layout.incomingOf (edges.map (mapEdge f)) n.id).isEmpty || n.type == "start")
        ∘ mapNode f)
      = (fun (n : DNode α) =>
        (Layout.incomingOf edges n.id).isEmpty || n.type == "start") := by
    funext n
    dsimp only [Function.comp]
    rw [show (mapNode f n).id = f n.id from rfl, Layout.incomingOf_map f hf edges n.id,
      isEmpty_map']
    rfl
  have hpend : ((fun (n : DNode β) =>
        (Layout.adjacencyOf (edges.map (mapEdge f)) n.id).isEmpty || n.type == "end")
        ∘ mapNode f)
      = (fun (n : DNode α) =>
        (Layout.adjacencyOf edges n.id).isEmpty || n.type == "end") := by
    funext n
    dsimp only [Function.comp]
    rw [show (mapNode f n).id = f n.id from rfl, Layout.adjacencyOf_map f hf edges n.id,
      isEmpty_map']
    rfl
  rw [List.filter_map, hproot, List.filter_map, hpend]
  dsimp only
  rw [isEmpty_map']
  rw [show (if (nodeArray.filter
        (fun n => (Layout.incomingOf edges n.id).isEmpty || n.type == "start")).isEmpty
      then (nodeArray.map (mapNode f)).take 1
      else (nodeArray.filter
        (fun n => (Layout.incomingOf edges n.id).isEmpty || n.type == "start")).map (mapNode f))
      = (if (nodeArray.filter
          (fun n => (Layout.incomingOf edges n.id).isEmpty || n.type == "start")).isEmpty
        then nodeArray.take 1
        else nodeArray.filter
          (fun n => (Layout.incomingOf edges n.id).isEmpty || n.type == "start")).map (mapNode f)
    from by
      split_ifs with h
      · rw [List.map_take]
      · rfl]
  rw [show ((if (nodeArray.filter
        (fun n => (Layout.incomingOf edges n.id).isEmpty || n.type == "start")).isEmpty
      then nodeArray.take 1
      else nodeArray.filter
        (fun n => (Layout.incomingOf edges n.id).isEmpty || n.type == "start")).map
          (mapNode f)).map (fun n => (n, (0 : Nat)))
      = ((if (nodeArray.filter
          (fun n => (Layout.incomingOf edges n.id).isEmpty || n.type == "start")).isEmpty
        then nodeArray.take 1
        else nodeArray.filter
          (fun n => (Layout.incomingOf edges n.id).isEmpty || n.type == "start")).map
            (fun n => (n, (0 : Nat)))).map (fun (p : DNode α × Nat) => (mapNode f p.1, p.2))
    from by
      rw [List.map_map, List.map_map]
      rfl]
  rw [show Layout.bfsFuel (nodeArray.map (mapNode f)) (edges.map (mapEdge f))
      = Layout.bfsFuel nodeArray edges from by simp [Layout.bfsFuel]]
  rw [flowBfs_map_nil f hf nodeArray edges]
  dsimp only
  rw [flowUnvisitedFold_map f hf nodeArray]
  rw [consolidateEndNodes_map f hf]

/-- The flow positioning pass commutes with id renaming. -/
theorem placeFlowLayers_map (f : α → β) (layers : List (List (DNode α))) :
    placeFlowLayers (layers.map (List.map (mapNode f)))
      = (placeFlowLayers layers).map (mapNode f) := by
  unfold placeFlowLayers
  rw [List.enum_map, List.flatMap_map, List.map_flatMap]
  refine congrArg _ (funext fun p => ?_)
  dsimp only [Function.comp, Prod.map, id_eq]
  rw [List.enum_map]
  conv_lhs => rw [List.map_map]
  conv_rhs => rw [List.map_map]
  rw [List.length_map]
  refine List.map_congr_left ?_
  intro q hq
  dsimp only [Function.comp, Prod.map, id_eq]
  rw [show (mapNode f q.2).type = q.2.type from rfl]
  split_ifs <;> rfl

/-- The flow parser's private layout commutes with injective id renaming. -/
theorem positionFlowNodes_map (f : α → β) (hf : Function.Injective f)
    (nodeArray : List (DNode α)) (edges : List (DEdge α)) :
    positionNodesHierarchically (nodeArray.map (mapNode f)) (edges.map (mapEdge f))
      = Option.map (List.map (mapNode f)) (positionNodesHierarchically nodeArray edges) := by
  unfold positionNodesHierarchically
  rw [isEmpty_map']
  split_ifs with h
  · rfl
  · rw [flowLayers_map f hf nodeArray edges, placeFlowLayers_map f (flowLayers nodeArray edges)]
    rfl

/-- The flow parser commutes with injective id renaming. -/
theorem parseFlowDiagram_map (f : α → β) (hf : Function.Injective f) (σ : Nat → α)
    (input : String) :
    parseFlowDiagram (fun k => f (σ k)) input
      = mapResult f (parseFlowDiagram σ input) := by
  unfold parseFlowDiagram
  rw [extractFlow_map f σ (trimmedLines input)]
  dsimp only
  rw [show ((extractFlow σ (trimmedLines input)).1.map
        (fun p => (p.1, mapNode f p.2))).map (fun x => x.2)
      = ((extractFlow σ (trimmedLines input)).1.map (fun x => x.2)).map (mapNode f) from by
    rw [List.map_map, List.map_map]
    rfl]
  rw [positionFlowNodes_map f hf
    ((extractFlow σ (trimmedLines input)).1.map (fun x => x.2))
    (extractFlow σ (trimmedLines input)).2.1]
  cases hpos : positionNodesHierarchically
      ((extractFlow σ (trimmedLines input)).1.map (fun x => x.2))
      (extractFlow σ (trimmedLines input)).2.1 with
  | none => rfl
  | some layeredNodes => rfl

end FlowMapId3

end FlowParser

/-- `foldl` congruence for functions that agree on the list's members. -/
theorem foldl_congr_fun {γ δ : Type} (l : List γ) (h1 h2 : δ → γ → δ) (init : δ)
    (H : ∀ acc x, x ∈ l → h1 acc x = h2 acc x) : l.foldl h1 init = l.foldl h2 init := by
  induction l generalizing init with
  | nil => rfl
  | cons a t ih =>
    simp only [List.foldl_cons]
    rw [H init a (by simp)]
    exact ih _ (fun acc x hx => H acc x (by simp [hx]))

namespace Layout

section MapIdLayout4

variable {α β : Type} [DecidableEq α] [DecidableEq β]

/-- Child resolution of the mindmap tree layout commutes with injective id
renaming. -/
theorem childrenOf_map (f : α → β) (hf : Function.Injective f)
    (nodes : List (DNode α)) (edges : List (DEdge α)) (t : α) :
    childrenOf (nodes.map (mapNode f)) (edges.map (mapEdge f)) (f t)
      = (childrenOf nodes edges t).map (mapNode f) := by
  unfold childrenOf
  rw [List.filter_map]
  rw [show ((fun (e : DEdge β) => decide (e.efrom = f t)) ∘ mapEdge f)
      = (fun (e : DEdge α) => decide (e.efrom = t))
    from funext fun e => decide_map_eq hf e.efrom t]
  rw [List.filterMap_map, List.map_filterMap]
  refine List.filterMap_congr ?_
  intro e he
  exact find?_id_mapNode f hf nodes e.eto

/-- The sorted-children map commutes with injective id renaming (sorting is
by labels, which renaming preserves). -/
theorem sortedChildrenOf_map (f : α → β) (hf : Function.Injective f)
    (nodes : List (DNode α)) (edges : List (DEdge α)) (t : α) :
    sortedChildrenOf (nodes.map (mapNode f)) (edges.map (mapEdge f)) (f t)
      = (sortedChildrenOf nodes edges t).map (mapNode f) := by
  unfold sortedChildrenOf
  rw [childrenOf_map f hf nodes edges t]
  exact map_mergeSort_of (mapNode f) (fun a b => a.label ≤ b.label)
    (fun a b => a.label ≤ b.label) (fun a b => rfl) (childrenOf nodes edges t)

/-- Subtree weights are invariant under injective id renaming. -/
theorem getSubtreeHeight_map (f : α → β) (hf : Function.Injective f)
    (nodes : List (DNode α)) (edges : List (DEdge α)) :
    ∀ (fuel : Nat) (t : α),
      getSubtreeHeight (nodes.map (mapNode f)) (edges.map (mapEdge f)) fuel (f t)
        = getSubtreeHeight nodes edges fuel t := by
  intro fuel
  induction fuel with
  | zero =>
    intro t
    rfl
  | succ m ih =>
    intro t
    conv_lhs => rw [getSubtreeHeight]
    conv_rhs => rw [getSubtreeHeight]
    rw [sortedChildrenOf_map f hf nodes edges t, isEmpty_map']
    split_ifs with h
    · rfl
    · rw [List.foldl_map]
      refine foldl_congr_fun _ _ _ _ ?_
      intro acc x hx
      rw [show (mapNode f x).id = f x.id from rfl, ih x.id]

/-- Recursive branch positioning commutes with injective id renaming. -/
theorem positionBranch_map (f : α → β) (hf : Function.Injective f)
    (nodes : List (DNode α)) (edges : List (DEdge α)) :
    ∀ (fuel : Nat) (t : α) (parentX parentY : ℚ) (isRight : Bool) (level : Nat),
      positionBranch (nodes.map (mapNode f)) (edges.map (mapEdge f)) fuel (f t)
          parentX parentY isRight level
        = (positionBranch nodes edges fuel t parentX parentY isRight level).map
            (mapNode f) := by
  intro fuel
  induction fuel with
  | zero =>
    intro t parentX parentY isRight level
    rfl
  | succ m ih =>
    intro t parentX parentY isRight level
    conv_lhs => rw [positionBranch]
    conv_rhs => rw [positionBranch]
    dsimp only
    rw [sortedChildrenOf_map f hf nodes edges t, isEmpty_map']
    split_ifs with h <;>
      first
        | rfl
        | (rw [List.length_map, getSubtreeHeight_map f hf nodes edges nodes.length t]
           refine congrArg Prod.fst (foldl_map_naturality'
             (fun (acc : List (DNode α) × ℚ) => (acc.1.map (mapNode f), acc.2)) (mapNode f)
             _ _ ?_ (sortedChildrenOf nodes edges t)
             ([], parentY - getSubtreeHeight nodes edges nodes.length t / 2)
             ([], parentY - getSubtreeHeight nodes edges nodes.length t / 2) rfl)
           intro acc child
           dsimp only
           rw [show (mapNode f child).id = f child.id from rfl,
             show (mapNode f child).label = child.label from rfl,
             getSubtreeHeight_map f hf nodes edges nodes.length child.id,
             ih child.id]
           simp only [List.map_append]
           rfl)

/-- One side of the root split commutes with injective id renaming. -/
theorem positionSide_map (f : α → β) (hf : Function.Injective f)
    (nodes : List (DNode α)) (edges : List (DEdge α))
    (branchNodes : List (DNode α)) (cx cy : ℚ) (isRight : Bool) :
    positionSide (nodes.map (mapNode f)) (edges.map (mapEdge f))
        (branchNodes.map (mapNode f)) cx cy isRight
      = (positionSide nodes edges branchNodes cx cy isRight).map (mapNode f) := by
  unfold positionSide
  dsimp only
  rw [show (branchNodes.map (mapNode f)).foldl
      (fun sum child => sum + getSubtreeHeight (nodes.map (mapNode f))
        (edges.map (mapEdge f)) (nodes.map (mapNode f)).length child.id) 0
      = branchNodes.foldl
        (fun sum child => sum + getSubtreeHeight nodes edges nodes.length child.id) 0 from by
    rw [List.foldl_map]
    refine foldl_congr_fun _ _ _ _ ?_
    intro acc x hx
    rw [List.length_map, show (mapNode f x).id = f x.id from rfl,
      getSubtreeHeight_map f hf nodes edges nodes.length x.id]]
  refine congrArg Prod.fst (foldl_map_naturality'
    (fun (acc : List (DNode α) × ℚ) => (acc.1.map (mapNode f), acc.2)) (mapNode f)
    _ _ ?_ branchNodes
    ([], cy - branchNodes.foldl
      (fun sum child => sum + getSubtreeHeight nodes edges nodes.length child.id) 0 / 2)
    ([], cy - branchNodes.foldl
      (fun sum child => sum + getSubtreeHeight nodes edges nodes.length child.id) 0 / 2) rfl)
  intro acc child
  dsimp only
  rw [List.length_map,
    show (mapNode f child).id = f child.id from rfl,
    show (mapNode f child).label = child.label from rfl,
    getSubtreeHeight_map f hf nodes edges nodes.length child.id,
    positionBranch_map f hf nodes edges nodes.length child.id]
  simp only [List.map_append]
  rfl

end MapIdLayout4

end Layout

namespace Layout

section MapIdLayout5

variable {α β : Type} [DecidableEq α] [DecidableEq β]

/-- The cons-case body of `positionMindmapNodesTree`, factored out for the
renaming proofs (definitionally equal to the match arm). -/
def treeBody (nodes : List (DNode α)) (edges : List (DEdge α)) (first : DNode α) :
    List (DNode α) :=
  let centerX : ℚ := 600
  let centerY : ℚ := 400
  let rootNode :=
    (nodes.find? (fun n => (edges.filter (fun e => e.eto = n.id)).isEmpty)).getD first
  let rootWidth : ℚ := max 180 ((orDN rootNode.label.length 10 : ℚ) * 9)
  let positionedRoot :=
    { rootNode with
      x := centerX - rootWidth / 2
      y := centerY - 30
      width := rootWidth
      height := 60 }
  let rootChildren := sortedChildrenOf nodes edges rootNode.id
  let rightBranchNodes := rootChildren.take ((rootChildren.length + 1) / 2)
  let leftBranchNodes := rootChildren.drop ((rootChildren.length + 1) / 2)
  positionedRoot ::
    (positionSide nodes edges rightBranchNodes centerX centerY true
      ++ positionSide nodes edges leftBranchNodes centerX centerY false)

/-- The factored tree body commutes with injective id renaming. -/
theorem treeBody_map (f : α → β) (hf : Function.Injective f)
    (nodes : List (DNode α)) (edges : List (DEdge α)) (first : DNode α) :
    treeBody (nodes.map (mapNode f)) (edges.map (mapEdge f)) (mapNode f first)
      = (treeBody nodes edges first).map (mapNode f) := by
  unfold treeBody
  dsimp only
  rw [List.find?_map]
  rw [show ((fun (n : DNode β) =>
        (List.filter (fun e => e.eto = n.id) (edges.map (mapEdge f))).isEmpty) ∘ mapNode f)
      = (fun (n : DNode α) => (List.filter (fun e => e.eto = n.id) edges).isEmpty) from by
    funext n
    dsimp only [Function.comp]
    rw [show (mapNode f n).id = f n.id from rfl, List.filter_map,
      show ((fun (e : DEdge β) => decide (e.eto = f n.id)) ∘ mapEdge f)
          = (fun (e : DEdge α) => decide (e.eto = n.id))
        from funext fun e => decide_map_eq hf e.eto n.id,
      isEmpty_map']]
  cases hfind : nodes.find?
      (fun n => (List.filter (fun e => e.eto = n.id) edges).isEmpty) with
  | none =>
    dsimp only [Option.map, Option.getD]
    rw [show (mapNode f first).label = first.label from rfl,
      show (mapNode f first).id = f first.id from rfl,
      sortedChildrenOf_map f hf nodes edges first.id,
      List.length_map, ← List.map_take, ← List.map_drop,
      positionSide_map f hf nodes edges
        ((sortedChildrenOf nodes edges first.id).take
          (((sortedChildrenOf nodes edges first.id).length + 1) / 2)) 600 400 true,
      positionSide_map f hf nodes edges
        ((sortedChildrenOf nodes edges first.id).drop
          (((sortedChildrenOf nodes edges first.id).length + 1) / 2)) 600 400 false]
    simp only [List.map_cons, List.map_append] <;> rfl
  | some R =>
    dsimp only [Option.map, Option.getD]
    rw [show (mapNode f R).label = R.label from rfl,
      show (mapNode f R).id = f R.id from rfl,
      sortedChildrenOf_map f hf nodes edges R.id,
      List.length_map, ← List.map_take, ← List.map_drop,
      positionSide_map f hf nodes edges
        ((sortedChildrenOf nodes edges R.id).take
          (((sortedChildrenOf nodes edges R.id).length + 1) / 2)) 600 400 true,
      positionSide_map f hf nodes edges
        ((sortedChildrenOf nodes edges R.id).drop
          (((sortedChildrenOf nodes edges R.id).length + 1) / 2)) 600 400 false]
    simp only [List.map_cons, List.map_append] <;> rfl

/-- The dual-sided mindmap layout commutes with injective id renaming. -/
theorem positionMindmapNodesTree_map (f : α → β) (hf : Function.Injective f)
    (nodes : List (DNode α)) (edges : List (DEdge α)) :
    positionMindmapNodesTree (nodes.map (mapNode f)) (edges.map (mapEdge f))
      = (positionMindmapNodesTree nodes edges).map (mapNode f) := by
  cases nodes with
  | nil => rfl
  | cons first rest =>
    rw [show positionMindmapNodesTree ((first :: rest).map (mapNode f)) (edges.map (mapEdge f))
        = treeBody ((first :: rest).map (mapNode f)) (edges.map (mapEdge f)) (mapNode f first)
      from rfl]
    rw [show positionMindmapNodesTree (first :: rest) edges
        = treeBody (first :: rest) edges first from rfl]
    exact treeBody_map f hf (first :: rest) edges first

end MapIdLayout5

end Layout

namespace MindmapParser

section MindMapId

variable {α β : Type} [DecidableEq α] [DecidableEq β]

/-- Rename the ids of the mindmap loop state. -/
def mapMindState (f : α → β) (s : LoopState α) : LoopState β :=
  { nodes := s.nodes.map (mapNode f)
    edges := s.edges.map (mapEdge f)
    stack := s.stack.map (fun p => (mapNode f p.1, p.2))
    k := s.k }

/-- One mindmap loop iteration commutes with id renaming. -/
theorem mindStepLine_map (f : α → β) (σ : Nat → α) (s : LoopState α) (rawLine : String) :
    stepLine (fun k => f (σ k)) (mapMindState f s) rawLine
      = mapMindState f (stepLine σ s rawLine) := by
  obtain ⟨nodes0, edges0, stack0, k0⟩ := s
  unfold stepLine
  dsimp only [mapMindState]
  split_ifs <;>
    first
      | rfl
      | (rw [List.dropWhile_map]
         rw [show ((fun (entry : DNode β × Nat) => decide (entry.2 ≥ getIndentLevel rawLine))
             ∘ (fun (p : DNode α × Nat) => (mapNode f p.1, p.2)))
           = (fun (entry : DNode α × Nat) => decide (entry.2 ≥ getIndentLevel rawLine))
           from rfl]
         rw [List.head?_map]
         cases hh : (stack0.dropWhile
             (fun entry => entry.2 ≥ getIndentLevel rawLine)).head? <;>
           (try dsimp only [Option.map]) <;>
           (try simp only [List.map_append]) <;> rfl)

/-- The mindmap line loop commutes with id renaming. -/
theorem parseLines_map (f : α → β) (σ : Nat → α) (input : String) :
    parseLines (fun k => f (σ k)) input
      = ((parseLines σ input).1.map (mapNode f), (parseLines σ input).2.map (mapEdge f)) := by
  unfold parseLines
  rw [show (input.splitOn "\n").foldl (stepLine (fun k => f (σ k)))
      { nodes := [], edges := [], stack := [], k := 0 }
      = mapMindState f ((input.splitOn "\n").foldl (stepLine σ)
        { nodes := [], edges := [], stack := [], k := 0 })
    from foldl_naturality' (mapMindState f) (stepLine σ) (stepLine (fun k => f (σ k)))
      (mindStepLine_map f σ) (input.splitOn "\n") _ _ rfl]
  rfl

/-- The mindmap parser commutes with injective id renaming. -/
theorem parseMindmapDiagram_map (f : α → β) (hf : Function.Injective f) (σ : Nat → α)
    (e0 : α) (input : String) :
    parseMindmapDiagram (fun k => f (σ k)) (f e0) input
      = mapResult f (parseMindmapDiagram σ e0 input) := by
  unfold parseMindmapDiagram
  rw [parseLines_map f σ input]
  dsimp only
  rw [isEmpty_map']
  rw [List.filter_map,
    show ((fun (n : DNode β) => decide (n.id = f e0)) ∘ mapNode f)
        = (fun (n : DNode α) => decide (n.id = e0))
      from funext fun n => decide_map_eq hf n.id e0,
    List.length_map]
  rw [Layout.positionMindmapNodesTree_map f hf (parseLines σ input).1
    (parseLines σ input).2, isEmpty_map']
  split_ifs <;> rfl

end MindMapId

end MindmapParser

/-- Renaming ids does not change the id-free observables of a result. -/
theorem resultObs_mapResult {α β : Type} (f : α → β) (r : ParserResult α) :
    resultObs (mapResult f r) = resultObs r := by
  cases r with
  | err e => rfl
  | ok d =>
    unfold resultObs mapResult mapDiagram resultNodes resultEdges isSuccess
    dsimp only
    rw [List.map_map, List.map_map]
    rfl

/-- Extend an id supply to the canonical naturals: `0` is sent to the falsy
id, `k + 1` to the supply's k-th id. -/
def liftSupply {α : Type} (σ : Nat → α) (e0 : α) : Nat → α
  | 0 => e0
  | k + 1 => σ k

/-- The lifted supply is injective when the supply is injective and never
returns the falsy id. -/
theorem liftSupply_inj {α : Type} (σ : Nat → α) (e0 : α)
    (hσ : Function.Injective σ) (hne : ∀ k, σ k ≠ e0) :
    Function.Injective (liftSupply σ e0) := by
  intro a b h
  cases a with
  | zero =>
    cases b with
    | zero => rfl
    | succ b => exact absurd h.symm (hne b)
  | succ a =>
    cases b with
    | zero => exact absurd h (hne a)
    | succ b => exact congrArg Nat.succ (hσ h)

section CanonicalRuns

variable {α : Type} [DecidableEq α]

/-- The sequence parser's observables depend only on the input, not on the
id supply. -/
theorem seq_obs_canonical (σ : Nat → α) (e0 : α) (input : String) :
    resultObs (SequenceParser.parseSequenceDiagram σ e0 input)
      = resultObs (SequenceParser.parseSequenceDiagram Nat.succ 0 input) := by
  have h := SequenceParser.parseSequenceDiagram_map (liftSupply σ e0) Nat.succ 0 input
  rw [show (fun k => liftSupply σ e0 (Nat.succ k)) = σ from funext fun k => rfl] at h
  rw [show liftSupply σ e0 0 = e0 from rfl] at h
  rw [h, resultObs_mapResult]

/-- The use-case parser's observables depend only on the input. -/
theorem usecase_obs_canonical (σ : Nat → α) (e0 : α)
    (hσ : Function.Injective σ) (hne : ∀ k, σ k ≠ e0) (input : String) :
    resultObs (UsecaseParser.parseUsecaseDiagram σ input)
      = resultObs (UsecaseParser.parseUsecaseDiagram Nat.succ input) := by
  have h := UsecaseParser.parseUsecaseDiagram_map (liftSupply σ e0)
    (liftSupply_inj σ e0 hσ hne) Nat.succ input
  rw [show (fun k => liftSupply σ e0 (Nat.succ k)) = σ from funext fun k => rfl] at h
  rw [h, resultObs_mapResult]

/-- The class parser's observables depend only on the input. -/
theorem class_obs_canonical (σ : Nat → α) (e0 : α)
    (hσ : Function.Injective σ) (hne : ∀ k, σ k ≠ e0) (input : String) :
    resultObs (ClassParser.parseClassDiagram σ input)
      = resultObs (ClassParser.parseClassDiagram Nat.succ input) := by
  have h := ClassParser.parseClassDiagram_map (liftSupply σ e0)
    (liftSupply_inj σ e0 hσ hne) Nat.succ input
  rw [show (fun k => liftSupply σ e0 (Nat.succ k)) = σ from funext fun k => rfl] at h
  rw [h, resultObs_mapResult]

/-- The flow parser's observables depend only on the input. -/
theorem flow_obs_canonical (σ : Nat → α) (e0 : α)
    (hσ : Function.Injective σ) (hne : ∀ k, σ k ≠ e0) (input : String) :
    resultObs (FlowParser.parseFlowDiagram σ input)
      = resultObs (FlowParser.parseFlowDiagram Nat.succ input) := by
  have h := FlowParser.parseFlowDiagram_map (liftSupply σ e0)
    (liftSupply_inj σ e0 hσ hne) Nat.succ input
  rw [show (fun k => liftSupply σ e0 (Nat.succ k)) = σ from funext fun k => rfl] at h
  rw [h, resultObs_mapResult]

/-- The mindmap parser's observables depend only on the input. -/
theorem mindmap_obs_canonical (σ : Nat → α) (e0 : α)
    (hσ : Function.Injective σ) (hne : ∀ k, σ k ≠ e0) (input : String) :
    resultObs (MindmapParser.parseMindmapDiagram σ e0 input)
      = resultObs (MindmapParser.parseMindmapDiagram Nat.succ 0 input) := by
  have h := MindmapParser.parseMindmapDiagram_map (liftSupply σ e0)
    (liftSupply_inj σ e0 hσ hne) Nat.succ 0 input
  rw [show (fun k => liftSupply σ e0 (Nat.succ k)) = σ from funext fun k => rfl] at h
  rw [show liftSupply σ e0 0 = e0 from rfl] at h
  rw [h, resultObs_mapResult]

end CanonicalRuns

/- Pagination commutes with injective id renaming. -/

theorem map_append_singleton {γ δ : Type} (g : γ → δ) (l : List γ) (x : γ) :
    l.map g ++ [g x] = (l ++ [x]).map g := by
  rw [List.map_append]
  rfl

namespace Pagination

variable {α β : Type} [DecidableEq α] [DecidableEq β]

/-- Rename the ids of a page. -/
def mapPage (f : α → β) (p : PageInfo α) : PageInfo β :=
  { pageNumber := p.pageNumber
    totalPages := p.totalPages
    nodes := p.nodes.map (mapNode f)
    edges := p.edges.map (mapEdge f)
    viewBox := p.viewBox
    title := p.title }

/-- The bounding box only reads geometry, which renaming preserves. -/
theorem calculateDiagramBounds_map (f : α → β) (nodes : List (DNode α)) :
    calculateDiagramBounds (nodes.map (mapNode f)) = calculateDiagramBounds nodes := by
  cases nodes with
  | nil => rfl
  | cons n rest =>
    simp only [List.map_cons, calculateDiagramBounds, List.foldl_map]
    rfl

/-- `createPageInfo` commutes with injective id renaming. -/
theorem createPageInfo_map (f : α → β) (hf : Function.Injective f)
    (nodes : List (DNode α)) (edges : List (DEdge α)) (pn tp : Nat) (title : String) :
    createPageInfo (nodes.map (mapNode f)) (edges.map (mapEdge f)) pn tp title
      = mapPage f (createPageInfo nodes edges pn tp title) := by
  simp only [createPageInfo, mapPage]
  rw [calculateDiagramBounds_map f nodes]
  rw [show (nodes.map (mapNode f)).map (fun n => n.id) = (nodes.map (fun n => n.id)).map f
    from by rw [List.map_map, List.map_map]; rfl]
  rw [List.filter_map]
  rw [show List.filter ((fun (e : DEdge β) =>
        ((nodes.map (fun n => n.id)).map f).contains e.efrom &&
        ((nodes.map (fun n => n.id)).map f).contains e.eto) ∘ mapEdge f) edges
      = List.filter (fun (e : DEdge α) =>
        (nodes.map (fun n => n.id)).contains e.efrom &&
        (nodes.map (fun n => n.id)).contains e.eto) edges from by
    apply List.filter_congr
    intro e he
    show (((nodes.map (fun n => n.id)).map f).contains (f e.efrom) &&
        ((nodes.map (fun n => n.id)).map f).contains (f e.eto)) = _
    rw [contains_map hf, contains_map hf]]

/-- `setTotalPages` commutes with id renaming. -/
theorem setTotalPages_map (f : α → β) (pages : List (PageInfo α)) :
    setTotalPages (pages.map (mapPage f)) = (setTotalPages pages).map (mapPage f) := by
  unfold setTotalPages
  rw [List.length_map, List.map_map, List.map_map]
  rfl

/-- `findRelatedNodes` commutes with injective id renaming. -/
theorem findRelatedNodes_map (f : α → β) (hf : Function.Injective f)
    (nodeId : α) (edges : List (DEdge α)) :
    findRelatedNodes (f nodeId) (edges.map (mapEdge f))
      = (findRelatedNodes nodeId edges).map f := by
  unfold findRelatedNodes
  refine foldl_map_naturality' (List.map f) (mapEdge f) _ _ ?_ edges [] [] rfl
  intro acc e
  dsimp only
  rw [show (mapEdge f e).efrom = f e.efrom from rfl,
      show (mapEdge f e).eto = f e.eto from rfl]
  by_cases h1 : e.efrom = nodeId
  · rw [if_pos (show f e.efrom = f nodeId from by rw [h1]), if_pos h1, contains_map hf]
    by_cases h2 : acc.contains e.eto
    · rw [if_pos h2, if_pos h2]
    · rw [if_neg h2, if_neg h2, List.map_append] <;> rfl
  · rw [if_neg (fun hc => h1 (hf hc)), if_neg h1]
    by_cases h3 : e.eto = nodeId
    · rw [if_pos (show f e.eto = f nodeId from by rw [h3]), if_pos h3, contains_map hf]
      by_cases h4 : acc.contains e.efrom
      · rw [if_pos h4, if_pos h4]
      · rw [if_neg h4, if_neg h4, List.map_append] <;> rfl
    · rw [if_neg (fun hc => h3 (hf hc)), if_neg h3]

/-- One related-node accretion step commutes with injective id renaming. -/
theorem growStep_map (f : α → β) (hf : Function.Injective f)
    (nodes : List (DNode α)) (acc : List (DNode α) × List α) (relatedId : α) :
    growStep (nodes.map (mapNode f)) (acc.1.map (mapNode f), acc.2.map f) (f relatedId)
      = ((growStep nodes acc relatedId).1.map (mapNode f),
         (growStep nodes acc relatedId).2.map f) := by
  unfold growStep
  rw [find?_id_mapNode f hf nodes relatedId]
  cases hfind : nodes.find? (fun n => n.id = relatedId) with
  | none => rfl
  | some relatedNode =>
    dsimp only [Option.map]
    rw [contains_map hf]
    split_ifs with h
    · rfl
    · dsimp only
      simp only [List.map_append] <;> rfl

/-- Growing a 1-hop cluster commutes with injective id renaming. -/
theorem growCluster_map (f : α → β) (hf : Function.Injective f)
    (nodes : List (DNode α)) (edges : List (DEdge α)) (node : DNode α) (visited : List α) :
    growCluster (nodes.map (mapNode f)) (edges.map (mapEdge f)) (mapNode f node)
        (visited.map f)
      = ((growCluster nodes edges node visited).1.map (mapNode f),
         (growCluster nodes edges node visited).2.map f) := by
  unfold growCluster
  rw [show (mapNode f node).id = f node.id from rfl, findRelatedNodes_map f hf]
  refine foldl_map_naturality'
    (fun (p : List (DNode α) × List α) => (p.1.map (mapNode f), p.2.map f)) f
    (growStep nodes) (growStep (nodes.map (mapNode f)))
    (fun acc rid => growStep_map f hf nodes acc rid)
    (findRelatedNodes node.id edges) ([node], visited ++ [node.id]) _ ?_
  simp only [List.map_append]
  rfl

/-- One outer clustering step commutes with injective id renaming. -/
theorem groupStep_map (f : α → β) (hf : Function.Injective f)
    (nodes : List (DNode α)) (edges : List (DEdge α))
    (acc : List (List (DNode α)) × List α) (node : DNode α) :
    groupStep (nodes.map (mapNode f)) (edges.map (mapEdge f))
        (acc.1.map (List.map (mapNode f)), acc.2.map f) (mapNode f node)
      = ((groupStep nodes edges acc node).1.map (List.map (mapNode f)),
         (groupStep nodes edges acc node).2.map f) := by
  unfold groupStep
  rw [show (mapNode f node).id = f node.id from rfl, contains_map hf]
  split_ifs with h
  · rfl
  · dsimp only
    rw [growCluster_map f hf]
    simp only [List.map_append]
    rfl

/-- The 1-hop clustering commutes with injective id renaming. -/
theorem groupClassesByClusters_map (f : α → β) (hf : Function.Injective f)
    (nodes : List (DNode α)) (edges : List (DEdge α)) :
    groupClassesByClusters (nodes.map (mapNode f)) (edges.map (mapEdge f))
      = (groupClassesByClusters nodes edges).map (List.map (mapNode f)) := by
  unfold groupClassesByClusters
  rw [show (nodes.map (mapNode f)).foldl
        (groupStep (nodes.map (mapNode f)) (edges.map (mapEdge f))) ([], [])
      = ((nodes.foldl (groupStep nodes edges) ([], [])).1.map (List.map (mapNode f)),
         (nodes.foldl (groupStep nodes edges) ([], [])).2.map f)
    from foldl_map_naturality'
      (fun (a : List (List (DNode α)) × List α) => (a.1.map (List.map (mapNode f)), a.2.map f))
      (mapNode f) _ _ (fun acc node => groupStep_map f hf nodes edges acc node)
      nodes ([], []) ([], []) rfl]

/-- One cluster-pagination step commutes with injective id renaming. -/
theorem classPageStep_map (f : α → β) (hf : Function.Injective f)
    (edges : List (DEdge α)) (maxWidth maxHeight : ℚ)
    (acc : List (PageInfo α) × List (DNode α) × Option Bounds) (cluster : List (DNode α)) :
    classPageStep (edges.map (mapEdge f)) maxWidth maxHeight
        (acc.1.map (mapPage f), acc.2.1.map (mapNode f), acc.2.2) (cluster.map (mapNode f))
      = ((classPageStep edges maxWidth maxHeight acc cluster).1.map (mapPage f),
         (classPageStep edges maxWidth maxHeight acc cluster).2.1.map (mapNode f),
         (classPageStep edges maxWidth maxHeight acc cluster).2.2) := by
  obtain ⟨pages, currentPage, currentBounds⟩ := acc
  unfold classPageStep
  dsimp only
  simp only [calculateDiagramBounds_map f, List.length_map]
  split_ifs with h
  · dsimp only
    rw [createPageInfo_map f hf]
    simp only [List.map_append] <;> rfl
  · dsimp only
    simp only [List.map_append] <;> rfl

/-- Class-diagram pagination commutes with injective id renaming. -/
theorem paginateClassDiagram_map (f : α → β) (hf : Function.Injective f)
    (nodes : List (DNode α)) (edges : List (DEdge α)) (maxWidth maxHeight : ℚ) :
    paginateClassDiagram (nodes.map (mapNode f)) (edges.map (mapEdge f)) maxWidth maxHeight
      = (paginateClassDiagram nodes edges maxWidth maxHeight).map (mapPage f) := by
  unfold paginateClassDiagram
  rw [groupClassesByClusters_map f hf]
  dsimp only
  rw [show ((groupClassesByClusters nodes edges).map (List.map (mapNode f))).foldl
        (classPageStep (edges.map (mapEdge f)) maxWidth maxHeight) ([], [], none)
      = (let S := (groupClassesByClusters nodes edges).foldl
          (classPageStep edges maxWidth maxHeight) ([], [], none);
         (S.1.map (mapPage f), S.2.1.map (mapNode f), S.2.2))
    from foldl_map_naturality'
      (fun (a : List (PageInfo α) × List (DNode α) × Option Bounds) =>
        (a.1.map (mapPage f), a.2.1.map (mapNode f), a.2.2))
      (List.map (mapNode f)) _ _
      (fun acc cluster => classPageStep_map f hf edges maxWidth maxHeight acc cluster)
      (groupClassesByClusters nodes edges) ([], [], none) ([], [], none) rfl]
  set S := (groupClassesByClusters nodes edges).foldl
    (classPageStep edges maxWidth maxHeight) ([], [], none) with hS
  dsimp only
  simp only [List.length_map]
  split_ifs with h
  · rw [createPageInfo_map f hf, map_append_singleton, setTotalPages_map]
  · rw [setTotalPages_map]

/-- One level-pagination step commutes with injective id renaming. -/
theorem levelPageStep_map (f : α → β) (hf : Function.Injective f)
    (edges : List (DEdge α)) (maxHeight : ℚ) (title : String)
    (acc : List (PageInfo α) × List (DNode α) × ℚ) (level : List (DNode α)) :
    levelPageStep (edges.map (mapEdge f)) maxHeight title
        (acc.1.map (mapPage f), acc.2.1.map (mapNode f), acc.2.2) (level.map (mapNode f))
      = ((levelPageStep edges maxHeight title acc level).1.map (mapPage f),
         (levelPageStep edges maxHeight title acc level).2.1.map (mapNode f),
         (levelPageStep edges maxHeight title acc level).2.2) := by
  obtain ⟨pages, currentPage, currentHeight⟩ := acc
  unfold levelPageStep
  dsimp only
  simp only [calculateDiagramBounds_map f, List.length_map]
  split_ifs with h
  · dsimp only
    rw [createPageInfo_map f hf]
    simp only [List.map_append] <;> rfl
  · dsimp only
    simp only [List.map_append] <;> rfl

/-- Level-based pagination commutes with injective id renaming. -/
theorem paginateByLevels_map (f : α → β) (hf : Function.Injective f)
    (levels : List (List (DNode α))) (edges : List (DEdge α)) (maxHeight : ℚ)
    (title : String) :
    paginateByLevels (levels.map (List.map (mapNode f))) (edges.map (mapEdge f))
        maxHeight title
      = (paginateByLevels levels edges maxHeight title).map (mapPage f) := by
  unfold paginateByLevels
  dsimp only
  rw [show (levels.map (List.map (mapNode f))).foldl
        (levelPageStep (edges.map (mapEdge f)) maxHeight title) ([], [], 0)
      = (let S := levels.foldl (levelPageStep edges maxHeight title) ([], [], 0);
         (S.1.map (mapPage f), S.2.1.map (mapNode f), S.2.2))
    from foldl_map_naturality'
      (fun (a : List (PageInfo α) × List (DNode α) × ℚ) =>
        (a.1.map (mapPage f), a.2.1.map (mapNode f), a.2.2))
      (List.map (mapNode f)) _ _
      (fun acc level => levelPageStep_map f hf edges maxHeight title acc level)
      levels ([], [], 0) ([], [], 0) rfl]
  set S := levels.foldl (levelPageStep edges maxHeight title) ([], [], 0) with hS
  dsimp only
  simp only [List.length_map]
  split_ifs with h
  · rw [createPageInfo_map f hf, map_append_singleton, setTotalPages_map]
  · rw [setTotalPages_map]

/-- One Y-band grouping step commutes with id renaming. -/
theorem bandStep_map (f : α → β)
    (acc : List (List (DNode α)) × List (DNode α) × Option ℚ) (node : DNode α) :
    bandStep (acc.1.map (List.map (mapNode f)), acc.2.1.map (mapNode f), acc.2.2)
        (mapNode f node)
      = ((bandStep acc node).1.map (List.map (mapNode f)),
         (bandStep acc node).2.1.map (mapNode f),
         (bandStep acc node).2.2) := by
  obtain ⟨layers, currentLayer, currentY⟩ := acc
  unfold bandStep
  dsimp only
  rw [show (mapNode f node).y = node.y from rfl]
  simp only [List.length_map]
  split_ifs <;> first | rfl | (dsimp only; simp only [List.map_append]; rfl)

/-- The Y-band grouping commutes with id renaming. -/
theorem groupIntoBands_map (f : α → β) (sortedNodes : List (DNode α)) :
    groupIntoBands (sortedNodes.map (mapNode f))
      = (groupIntoBands sortedNodes).map (List.map (mapNode f)) := by
  unfold groupIntoBands
  dsimp only
  rw [show (sortedNodes.map (mapNode f)).foldl bandStep ([], [], none)
      = (let S := sortedNodes.foldl bandStep ([], [], none);
         (S.1.map (List.map (mapNode f)), S.2.1.map (mapNode f), S.2.2))
    from foldl_map_naturality'
      (fun (a : List (List (DNode α)) × List (DNode α) × Option ℚ) =>
        (a.1.map (List.map (mapNode f)), a.2.1.map (mapNode f), a.2.2))
      (mapNode f) _ _ (fun acc node => bandStep_map f acc node)
      sortedNodes ([], [], none) ([], [], none) rfl]
  set S := sortedNodes.foldl bandStep ([], [], none) with hS
  dsimp only
  simp only [List.length_map]
  split_ifs with h
  · simp only [List.map_append]
    rfl
  · rfl

/-- Layer-based pagination commutes with injective id renaming. -/
theorem paginateByLayers_map (f : α → β) (hf : Function.Injective f)
    (nodes : List (DNode α)) (edges : List (DEdge α)) (maxWidth maxHeight : ℚ)
    (title : String) :
    paginateByLayers (nodes.map (mapNode f)) (edges.map (mapEdge f)) maxWidth maxHeight title
      = (paginateByLayers nodes edges maxWidth maxHeight title).map (mapPage f) := by
  unfold paginateByLayers
  rw [map_mergeSort_of (mapNode f) (fun a b => a.y ≤ b.y) (fun a b => a.y ≤ b.y)
    (fun a b => rfl)]
  dsimp only
  rw [groupIntoBands_map f, paginateByLevels_map f hf]

/-- A grid cell's node filter only reads geometry. -/
theorem gridCellNodes_map (f : α → β) (nodes : List (DNode α)) (bounds : Bounds)
    (maxWidth maxHeight : ℚ) (px py : Nat) :
    gridCellNodes (nodes.map (mapNode f)) bounds maxWidth maxHeight px py
      = (gridCellNodes nodes bounds maxWidth maxHeight px py).map (mapNode f) := by
  unfold gridCellNodes
  rw [List.filter_map]
  rfl

/-- One grid-column step commutes with injective id renaming. -/
theorem gridInnerStep_map (f : α → β) (hf : Function.Injective f)
    (nodes : List (DNode α)) (edges : List (DEdge α)) (bounds : Bounds)
    (maxWidth maxHeight : ℚ) (title : String) (py : Nat)
    (pagesAcc : List (PageInfo α)) (px : Nat) :
    gridInnerStep (nodes.map (mapNode f)) (edges.map (mapEdge f)) bounds maxWidth maxHeight
        title py (pagesAcc.map (mapPage f)) px
      = (gridInnerStep nodes edges bounds maxWidth maxHeight title py pagesAcc px).map
          (mapPage f) := by
  unfold gridInnerStep
  dsimp only
  rw [gridCellNodes_map f]
  simp only [List.length_map]
  split_ifs with h
  · rw [createPageInfo_map f hf, map_append_singleton]
  · rfl

/-- One grid-row step commutes with injective id renaming. -/
theorem gridRowStep_map (f : α → β) (hf : Function.Injective f)
    (nodes : List (DNode α)) (edges : List (DEdge α)) (bounds : Bounds)
    (maxWidth maxHeight : ℚ) (title : String) (pagesX : Nat)
    (pagesAcc : List (PageInfo α)) (py : Nat) :
    gridRowStep (nodes.map (mapNode f)) (edges.map (mapEdge f)) bounds maxWidth maxHeight
        title pagesX (pagesAcc.map (mapPage f)) py
      = (gridRowStep nodes edges bounds maxWidth maxHeight title pagesX pagesAcc py).map
          (mapPage f) := by
  unfold gridRowStep
  exact foldl_naturality' (List.map (mapPage f)) _ _
    (fun acc px => gridInnerStep_map f hf nodes edges bounds maxWidth maxHeight title py
      acc px)
    (List.range pagesX) pagesAcc (pagesAcc.map (mapPage f)) rfl

/-- Grid pagination commutes with injective id renaming. -/
theorem paginateByGrid_map (f : α → β) (hf : Function.Injective f)
    (nodes : List (DNode α)) (edges : List (DEdge α)) (maxWidth maxHeight : ℚ)
    (title : String) :
    paginateByGrid (nodes.map (mapNode f)) (edges.map (mapEdge f)) maxWidth maxHeight title
      = (paginateByGrid nodes edges maxWidth maxHeight title).map (mapPage f) := by
  unfold paginateByGrid
  dsimp only
  rw [calculateDiagramBounds_map f nodes]
  rw [show (List.range (⌈(calculateDiagramBounds nodes).height / maxHeight⌉.toNat)).foldl
        (gridRowStep (nodes.map (mapNode f)) (edges.map (mapEdge f))
          (calculateDiagramBounds nodes) maxWidth maxHeight title
          (⌈(calculateDiagramBounds nodes).width / maxWidth⌉.toNat)) []
      = ((List.range (⌈(calculateDiagramBounds nodes).height / maxHeight⌉.toNat)).foldl
          (gridRowStep nodes edges (calculateDiagramBounds nodes) maxWidth maxHeight title
            (⌈(calculateDiagramBounds nodes).width / maxWidth⌉.toNat)) []).map (mapPage f)
    from foldl_naturality' (List.map (mapPage f)) _ _
      (fun acc py => gridRowStep_map f hf nodes edges (calculateDiagramBounds nodes)
        maxWidth maxHeight title _ acc py)
      (List.range (⌈(calculateDiagramBounds nodes).height / maxHeight⌉.toNat)) [] [] rfl]
  rw [setTotalPages_map]

/-- Flow pagination commutes with injective id renaming. -/
theorem paginateFlowDiagram_map (f : α → β) (hf : Function.Injective f)
    (nodes : List (DNode α)) (edges : List (DEdge α)) (maxWidth maxHeight : ℚ)
    (preferredBreakPoints : String) :
    paginateFlowDiagram (nodes.map (mapNode f)) (edges.map (mapEdge f)) maxWidth maxHeight
        preferredBreakPoints
      = (paginateFlowDiagram nodes edges maxWidth maxHeight preferredBreakPoints).map
          (mapPage f) := by
  unfold paginateFlowDiagram
  split_ifs with h
  · exact paginateByLayers_map f hf nodes edges maxWidth maxHeight "Flow Diagram"
  · exact paginateByGrid_map f hf nodes edges maxWidth maxHeight "Flow Diagram"

/-- The sequence message-chunking loop commutes with injective id renaming. -/
theorem chunkGo_map (f : α → β) (hf : Function.Injective f)
    (actors : List (DNode α)) (mpp : Nat) (title : String) :
    ∀ (fuel : Nat) (msgs : List (DEdge α)) (pages : List (PageInfo α)),
      chunkGo (actors.map (mapNode f)) mpp title fuel (msgs.map (mapEdge f))
          (pages.map (mapPage f))
        = (chunkGo actors mpp title fuel msgs pages).map (mapPage f) := by
  intro fuel
  induction fuel with
  | zero => intro msgs pages; rfl
  | succ fuel ih =>
    intro msgs pages
    cases msgs with
    | nil => rfl
    | cons x xs =>
      simp only [List.map_cons, chunkGo]
      rw [show (mapEdge f x :: xs.map (mapEdge f)) = (x :: xs).map (mapEdge f) from rfl,
          ← List.map_take, ← List.map_drop, List.length_map, createPageInfo_map f hf,
          map_append_singleton]
      exact ih _ _

/-- `chunkMessages` commutes with injective id renaming. -/
theorem chunkMessages_map (f : α → β) (hf : Function.Injective f)
    (actors : List (DNode α)) (edges : List (DEdge α)) (messagesPerPage : ℤ)
    (title : String) :
    chunkMessages (actors.map (mapNode f)) (edges.map (mapEdge f)) messagesPerPage title
      = (chunkMessages actors edges messagesPerPage title).map (mapPage f) := by
  unfold chunkMessages
  split_ifs with h
  · rfl
  · rw [List.length_map]
    exact chunkGo_map f hf actors messagesPerPage.toNat title (edges.length + 1) edges []

/-- Sequence pagination commutes with injective id renaming. -/
theorem paginateSequenceDiagram_map (f : α → β) (hf : Function.Injective f)
    (nodes : List (DNode α)) (edges : List (DEdge α)) (maxHeight : ℚ) :
    paginateSequenceDiagram (nodes.map (mapNode f)) (edges.map (mapEdge f)) maxHeight
      = (paginateSequenceDiagram nodes edges maxHeight).map (mapPage f) := by
  unfold paginateSequenceDiagram
  dsimp only
  rw [List.filter_map]
  rw [show nodes.filter ((fun (n : DNode β) => decide (n.type = "actor")) ∘ mapNode f)
      = nodes.filter (fun (n : DNode α) => decide (n.type = "actor")) from rfl]
  rw [chunkMessages_map f hf, setTotalPages_map]

/-- The mindmap BFS level grouping commutes with injective id renaming. -/
theorem groupNodesByLevelLoop_map (f : α → β) (hf : Function.Injective f)
    (nodes : List (DNode α)) (edges : List (DEdge α)) :
    ∀ (fuel : Nat) (queue : List (DNode α × Nat)) (levels : List (List (DNode α)))
      (visited : List α),
      groupNodesByLevelLoop (nodes.map (mapNode f)) (edges.map (mapEdge f)) fuel
          (queue.map (fun p => (mapNode f p.1, p.2))) (levels.map (List.map (mapNode f)))
          (visited.map f)
        = (groupNodesByLevelLoop nodes edges fuel queue levels visited).map
            (List.map (mapNode f)) := by
  intro fuel
  induction fuel with
  | zero =>
    intro queue levels visited
    rfl
  | succ m ih =>
    intro queue levels visited
    cases queue with
    | nil => rfl
    | cons q rest =>
      obtain ⟨node, level⟩ := q
      simp only [List.map_cons]
      conv_lhs => rw [groupNodesByLevelLoop]
      conv_rhs => rw [groupNodesByLevelLoop]
      dsimp only
      rw [show (mapNode f node).id = f node.id from rfl,
        contains_map hf visited node.id]
      split_ifs with hv
      · exact ih rest levels visited
      · refine Eq.trans ?_ (ih _ _ _)
        congr 3
        · rw [List.map_append]
          congr 1
          refine foldl_map_naturality'
            (fun (acc : List (DNode α × Nat)) => acc.map (fun p => (mapNode f p.1, p.2)))
            (mapEdge f) _ _ ?_ edges [] [] rfl
          intro acc e
          dsimp only
          rw [show (mapEdge f e).efrom = f e.efrom from rfl,
              show (mapEdge f e).eto = f e.eto from rfl]
          by_cases h1 : e.efrom = node.id
          · rw [if_pos (show f e.efrom = f node.id from by rw [h1]), if_pos h1,
              find?_id_mapNode f hf nodes e.eto]
            cases hfind : nodes.find? (fun n => n.id = e.eto) with
            | none => rfl
            | some childNode =>
              dsimp only [Option.map]
              rw [show (mapNode f childNode).id = f childNode.id from rfl,
                show visited.map f ++ [f node.id] = (visited ++ [node.id]).map f from by simp,
                contains_map hf (visited ++ [node.id]) childNode.id]
              split_ifs with h2
              · rfl
              · simp
          · rw [if_neg (fun hc => h1 (hf hc)), if_neg h1]
        · have h1 : levels.map (List.map (mapNode f)) ++
              List.replicate (level + 1 - (levels.map (List.map (mapNode f))).length) []
              = (levels ++ List.replicate (level + 1 - levels.length) []).map
                  (List.map (mapNode f)) := by
            simp
          rw [h1, getD_map_of (List.map (mapNode f)) rfl, List.map_set]
          simp
        · simp

/-- `groupNodesByLevel` commutes with injective id renaming. -/
theorem groupNodesByLevel_map (f : α → β) (hf : Function.Injective f)
    (nodes : List (DNode α)) (edges : List (DEdge α)) (rootId : α) :
    groupNodesByLevel (nodes.map (mapNode f)) (edges.map (mapEdge f)) (f rootId)
      = (groupNodesByLevel nodes edges rootId).map (List.map (mapNode f)) := by
  unfold groupNodesByLevel
  rw [find?_id_mapNode f hf nodes rootId]
  cases hfind : nodes.find? (fun n => n.id = rootId) with
  | none => rfl
  | some rootNode =>
    dsimp only [Option.map]
    rw [List.length_map, List.length_map]
    exact groupNodesByLevelLoop_map f hf nodes edges
      (nodes.length + edges.length * nodes.length + 1) [(rootNode, 0)] [] []

/-- Mindmap pagination commutes with injective id renaming. -/
theorem paginateMindmapDiagram_map (f : α → β) (hf : Function.Injective f)
    (nodes : List (DNode α)) (edges : List (DEdge α)) (maxHeight : ℚ) :
    paginateMindmapDiagram (nodes.map (mapNode f)) (edges.map (mapEdge f)) maxHeight
      = (paginateMindmapDiagram nodes edges maxHeight).map (mapPage f) := by
  unfold paginateMindmapDiagram
  rw [show (nodes.map (mapNode f)).find? (fun n => n.type = "root")
      = Option.map (mapNode f) (nodes.find? (fun n => n.type = "root")) from by
    rw [List.find?_map]; rfl]
  rw [List.head?_map]
  cases hfind : nodes.find? (fun n => n.type = "root") with
  | some rootNode =>
    dsimp only [Option.map, Option.orElse]
    rw [show (mapNode f rootNode).id = f rootNode.id from rfl,
        groupNodesByLevel_map f hf, paginateByLevels_map f hf]
  | none =>
    dsimp only [Option.map, Option.orElse]
    cases hh : nodes.head? with
    | none => rfl
    | some n0 =>
      dsimp only [Option.map]
      rw [show (mapNode f n0).id = f n0.id from rfl,
          groupNodesByLevel_map f hf, paginateByLevels_map f hf]

/-- Use-case pagination commutes with injective id renaming. -/
theorem paginateUsecaseDiagram_map (f : α → β) (hf : Function.Injective f)
    (nodes : List (DNode α)) (edges : List (DEdge α)) :
    paginateUsecaseDiagram (nodes.map (mapNode f)) (edges.map (mapEdge f))
      = (paginateUsecaseDiagram nodes edges).map (mapPage f) := by
  unfold paginateUsecaseDiagram
  dsimp only
  rw [List.filter_map]
  rw [show nodes.filter ((fun (n : DNode β) => decide (n.type = "usecase")) ∘ mapNode f)
      = nodes.filter (fun (n : DNode α) => decide (n.type = "usecase")) from rfl]
  rw [List.map_map]
  apply List.map_congr_left
  intro i hi
  simp only [List.length_singleton, List.mem_range, Nat.lt_one_iff] at hi
  subst hi
  exact createPageInfo_map f hf _ edges 1 1 "Use Case Diagram"

/-- The pagination dispatcher commutes with injective id renaming. -/
theorem paginateDiagram_map (f : α → β) (hf : Function.Injective f)
    (nodes : List (DNode α)) (edges : List (DEdge α)) (diagramType : String)
    (config : PaginationConfig) :
    paginateDiagram (nodes.map (mapNode f)) (edges.map (mapEdge f)) diagramType config
      = (paginateDiagram nodes edges diagramType config).map (mapPage f) := by
  unfold paginateDiagram
  dsimp only
  rw [calculateDiagramBounds_map f nodes]
  split_ifs with h1 h2 h3 h4 h5 h6
  · rfl
  · exact paginateClassDiagram_map f hf nodes edges _ _
  · exact paginateFlowDiagram_map f hf nodes edges _ _ _
  · exact paginateSequenceDiagram_map f hf nodes edges _
  · exact paginateMindmapDiagram_map f hf nodes edges _
  · exact paginateUsecaseDiagram_map f hf nodes edges
  · exact paginateByGrid_map f hf nodes edges _ _ _

/-- The id-free observables of a page: page number, total pages, node and
edge observables in order, view box and title. -/
def pageObs (p : PageInfo α) :
    Nat × Nat × List (String × String × ℚ × ℚ × ℚ × ℚ × String × Nat × String ×
      List ClassAttribute × List ClassMethod) × List (String × String × Nat) ×
      ViewBox × String :=
  (p.pageNumber, p.totalPages, p.nodes.map nodeObs, p.edges.map edgeObs, p.viewBox, p.title)

/-- Renaming ids does not change a page's observables. -/
theorem pageObs_mapPage (f : α → β) (p : PageInfo α) :
    pageObs (mapPage f p) = pageObs p := by
  unfold pageObs mapPage
  dsimp only
  rw [List.map_map, List.map_map]
  rfl

/-- Paginating a renamed parser result yields the original pages'
observables. -/
theorem pagesObs_mapResult (f : α → β) (hf : Function.Injective f) (r : ParserResult α)
    (diagramType : String) (config : PaginationConfig) :
    (paginateDiagram (resultNodes (mapResult f r)) (resultEdges (mapResult f r))
        diagramType config).map pageObs
      = (paginateDiagram (resultNodes r) (resultEdges r) diagramType config).map
          pageObs := by
  have hn : resultNodes (mapResult f r) = (resultNodes r).map (mapNode f) := by
    cases r <;> rfl
  have he : resultEdges (mapResult f r) = (resultEdges r).map (mapEdge f) := by
    cases r <;> rfl
  rw [hn, he, paginateDiagram_map f hf, List.map_map]
  exact List.map_congr_left fun p _ => pageObs_mapPage f p

end Pagination

section CanonicalPages

variable {α : Type} [DecidableEq α]

/-- The pages of the paginated sequence-parser result depend only on the
input and the pagination arguments, not on the id supply. -/
theorem seq_pages_canonical (σ : Nat → α) (e0 : α)
    (hσ : Function.Injective σ) (hne : ∀ k, σ k ≠ e0) (input : String)
    (diagramType : String) (config : Pagination.PaginationConfig) :
    (Pagination.paginateDiagram
        (resultNodes (SequenceParser.parseSequenceDiagram σ e0 input))
        (resultEdges (SequenceParser.parseSequenceDiagram σ e0 input))
        diagramType config).map Pagination.pageObs
      = (Pagination.paginateDiagram
          (resultNodes (SequenceParser.parseSequenceDiagram Nat.succ 0 input))
          (resultEdges (SequenceParser.parseSequenceDiagram Nat.succ 0 input))
          diagramType config).map Pagination.pageObs := by
  have h := SequenceParser.parseSequenceDiagram_map (liftSupply σ e0) Nat.succ 0 input
  rw [show (fun k => liftSupply σ e0 (Nat.succ k)) = σ from funext fun k => rfl] at h
  rw [show liftSupply σ e0 0 = e0 from rfl] at h
  rw [h]
  exact Pagination.pagesObs_mapResult (liftSupply σ e0) (liftSupply_inj σ e0 hσ hne) _
    diagramType config

/-- The pages of the paginated use-case-parser result depend only on the
input and the pagination arguments. -/
theorem usecase_pages_canonical (σ : Nat → α) (e0 : α)
    (hσ : Function.Injective σ) (hne : ∀ k, σ k ≠ e0) (input : String)
    (diagramType : String) (config : Pagination.PaginationConfig) :
    (Pagination.paginateDiagram
        (resultNodes (UsecaseParser.parseUsecaseDiagram σ input))
        (resultEdges (UsecaseParser.parseUsecaseDiagram σ input))
        diagramType config).map Pagination.pageObs
      = (Pagination.paginateDiagram
          (resultNodes (UsecaseParser.parseUsecaseDiagram Nat.succ input))
          (resultEdges (UsecaseParser.parseUsecaseDiagram Nat.succ input))
          diagramType config).map Pagination.pageObs := by
  have h := UsecaseParser.parseUsecaseDiagram_map (liftSupply σ e0)
    (liftSupply_inj σ e0 hσ hne) Nat.succ input
  rw [show (fun k => liftSupply σ e0 (Nat.succ k)) = σ from funext fun k => rfl] at h
  rw [h]
  exact Pagination.pagesObs_mapResult (liftSupply σ e0) (liftSupply_inj σ e0 hσ hne) _
    diagramType config

/-- The pages of the paginated class-parser result depend only on the input
and the pagination arguments. -/
theorem class_pages_canonical (σ : Nat → α) (e0 : α)
    (hσ : Function.Injective σ) (hne : ∀ k, σ k ≠ e0) (input : String)
    (diagramType : String) (config : Pagination.PaginationConfig) :
    (Pagination.paginateDiagram
        (resultNodes (ClassParser.parseClassDiagram σ input))
        (resultEdges (ClassParser.parseClassDiagram σ input))
        diagramType config).map Pagination.pageObs
      = (Pagination.paginateDiagram
          (resultNodes (ClassParser.parseClassDiagram Nat.succ input))
          (resultEdges (ClassParser.parseClassDiagram Nat.succ input))
          diagramType config).map Pagination.pageObs := by
  have h := ClassParser.parseClassDiagram_map (liftSupply σ e0)
    (liftSupply_inj σ e0 hσ hne) Nat.succ input
  rw [show (fun k => liftSupply σ e0 (Nat.succ k)) = σ from funext fun k => rfl] at h
  rw [h]
  exact Pagination.pagesObs_mapResult (liftSupply σ e0) (liftSupply_inj σ e0 hσ hne) _
    diagramType config

/-- The pages of the paginated flow-parser result depend only on the input
and the pagination arguments. -/
theorem flow_pages_canonical (σ : Nat → α) (e0 : α)
    (hσ : Function.Injective σ) (hne : ∀ k, σ k ≠ e0) (input : String)
    (diagramType : String) (config : Pagination.PaginationConfig) :
    (Pagination.paginateDiagram
        (resultNodes (FlowParser.parseFlowDiagram σ input))
        (resultEdges (FlowParser.parseFlowDiagram σ input))
        diagramType config).map Pagination.pageObs
      = (Pagination.paginateDiagram
          (resultNodes (FlowParser.parseFlowDiagram Nat.succ input))
          (resultEdges (FlowParser.parseFlowDiagram Nat.succ input))
          diagramType config).map Pagination.pageObs := by
  have h := FlowParser.parseFlowDiagram_map (liftSupply σ e0)
    (liftSupply_inj σ e0 hσ hne) Nat.succ input
  rw [show (fun k => liftSupply σ e0 (Nat.succ k)) = σ from funext fun k => rfl] at h
  rw [h]
  exact Pagination.pagesObs_mapResult (liftSupply σ e0) (liftSupply_inj σ e0 hσ hne) _
    diagramType config

/-- The pages of the paginated mindmap-parser result depend only on the
input and the pagination arguments. -/
theorem mindmap_pages_canonical (σ : Nat → α) (e0 : α)
    (hσ : Function.Injective σ) (hne : ∀ k, σ k ≠ e0) (input : String)
    (diagramType : String) (config : Pagination.PaginationConfig) :
    (Pagination.paginateDiagram
        (resultNodes (MindmapParser.parseMindmapDiagram σ e0 input))
        (resultEdges (MindmapParser.parseMindmapDiagram σ e0 input))
        diagramType config).map Pagination.pageObs
      = (Pagination.paginateDiagram
          (resultNodes (MindmapParser.parseMindmapDiagram Nat.succ 0 input))
          (resultEdges (MindmapParser.parseMindmapDiagram Nat.succ 0 input))
          diagramType config).map Pagination.pageObs := by
  have h := MindmapParser.parseMindmapDiagram_map (liftSupply σ e0)
    (liftSupply_inj σ e0 hσ hne) Nat.succ 0 input
  rw [show (fun k => liftSupply σ e0 (Nat.succ k)) = σ from funext fun k => rfl] at h
  rw [show liftSupply σ e0 0 = e0 from rfl] at h
  rw [h]
  exact Pagination.pagesObs_mapResult (liftSupply σ e0) (liftSupply_inj σ e0 hσ hne) _
    diagramType config

end CanonicalPages

/- ### C8: determinism of the pipeline up to ids -/

/-- C8: the parse → layout → paginate pipeline is deterministic up to ids.
Two runs of any of the five parsers on the same input text, with any two id
supplies that are injective and never produce the falsy id, yield results
with the same success flag, the same node list up to ids (type, label, x, y,
width, height and payload all agree, in order) and the same edge list up to
ids (label, type tag and order agree); and paginating the two results — for
any diagram type and any pagination configuration — yields the same page
list up to ids (page numbers, total pages, per-page node and edge
observables, view boxes and titles all agree, page by page).  Only the
generated ids may differ. -/
theorem pipeline_deterministic_up_to_ids {α : Type} [DecidableEq α]
    (σ₁ σ₂ : Nat → α) (e0 : α)
    (h1 : Function.Injective σ₁) (h2 : Function.Injective σ₂)
    (n1 : ∀ k, σ₁ k ≠ e0) (n2 : ∀ k, σ₂ k ≠ e0) (input : String)
    (diagramType : String) (config : Pagination.PaginationConfig) :
    (resultObs (SequenceParser.parseSequenceDiagram σ₁ e0 input)
      = resultObs (SequenceParser.parseSequenceDiagram σ₂ e0 input)
    ∧ resultObs (UsecaseParser.parseUsecaseDiagram σ₁ input)
      = resultObs (UsecaseParser.parseUsecaseDiagram σ₂ input)
    ∧ resultObs (ClassParser.parseClassDiagram σ₁ input)
      = resultObs (ClassParser.parseClassDiagram σ₂ input)
    ∧ resultObs (FlowParser.parseFlowDiagram σ₁ input)
      = resultObs (FlowParser.parseFlowDiagram σ₂ input)
    ∧ resultObs (MindmapParser.parseMindmapDiagram σ₁ e0 input)
      = resultObs (MindmapParser.parseMindmapDiagram σ₂ e0 input))
    ∧ ((Pagination.paginateDiagram
          (resultNodes (SequenceParser.parseSequenceDiagram σ₁ e0 input))
          (resultEdges (SequenceParser.parseSequenceDiagram σ₁ e0 input))
          diagramType config).map Pagination.pageObs
        = (Pagination.paginateDiagram
            (resultNodes (SequenceParser.parseSequenceDiagram σ₂ e0 input))
            (resultEdges (SequenceParser.parseSequenceDiagram σ₂ e0 input))
            diagramType config).map Pagination.pageObs
    ∧ (Pagination.paginateDiagram
          (resultNodes (UsecaseParser.parseUsecaseDiagram σ₁ input))
          (resultEdges (UsecaseParser.parseUsecaseDiagram σ₁ input))
          diagramType config).map Pagination.pageObs
        = (Pagination.paginateDiagram
            (resultNodes (UsecaseParser.parseUsecaseDiagram σ₂ input))
            (resultEdges (UsecaseParser.parseUsecaseDiagram σ₂ input))
            diagramType config).map Pagination.pageObs
    ∧ (Pagination.paginateDiagram
          (resultNodes (ClassParser.parseClassDiagram σ₁ input))
          (resultEdges (ClassParser.parseClassDiagram σ₁ input))
          diagramType config).map Pagination.pageObs
        = (Pagination.paginateDiagram
            (resultNodes (ClassParser.parseClassDiagram σ₂ input))
            (resultEdges (ClassParser.parseClassDiagram σ₂ input))
            diagramType config).map Pagination.pageObs
    ∧ (Pagination.paginateDiagram
          (resultNodes (FlowParser.parseFlowDiagram σ₁ input))
          (resultEdges (FlowParser.parseFlowDiagram σ₁ input))
          diagramType config).map Pagination.pageObs
        = (Pagination.paginateDiagram
            (resultNodes (FlowParser.parseFlowDiagram σ₂ input))
            (resultEdges (FlowParser.parseFlowDiagram σ₂ input))
            diagramType config).map Pagination.pageObs
    ∧ (Pagination.paginateDiagram
          (resultNodes (MindmapParser.parseMindmapDiagram σ₁ e0 input))
          (resultEdges (MindmapParser.parseMindmapDiagram σ₁ e0 input))
          diagramType config).map Pagination.pageObs
        = (Pagination.paginateDiagram
            (resultNodes (MindmapParser.parseMindmapDiagram σ₂ e0 input))
            (resultEdges (MindmapParser.parseMindmapDiagram σ₂ e0 input))
            diagramType config).map Pagination.pageObs) := by
  refine ⟨⟨?_, ?_, ?_, ?_, ?_⟩, ?_, ?_, ?_, ?_, ?_⟩
  · exact (seq_obs_canonical σ₁ e0 input).trans (seq_obs_canonical σ₂ e0 input).symm
  · exact (usecase_obs_canonical σ₁ e0 h1 n1 input).trans
      (usecase_obs_canonical σ₂ e0 h2 n2 input).symm
  · exact (class_obs_canonical σ₁ e0 h1 n1 input).trans
      (class_obs_canonical σ₂ e0 h2 n2 input).symm
  · exact (flow_obs_canonical σ₁ e0 h1 n1 input).trans
      (flow_obs_canonical σ₂ e0 h2 n2 input).symm
  · exact (mindmap_obs_canonical σ₁ e0 h1 n1 input).trans
      (mindmap_obs_canonical σ₂ e0 h2 n2 input).symm
  · exact (seq_pages_canonical σ₁ e0 h1 n1 input diagramType config).trans
      (seq_pages_canonical σ₂ e0 h2 n2 input diagramType config).symm
  · exact (usecase_pages_canonical σ₁ e0 h1 n1 input diagramType config).trans
      (usecase_pages_canonical σ₂ e0 h2 n2 input diagramType config).symm
  · exact (class_pages_canonical σ₁ e0 h1 n1 input diagramType config).trans
      (class_pages_canonical σ₂ e0 h2 n2 input diagramType config).symm
  · exact (flow_pages_canonical σ₁ e0 h1 n1 input diagramType config).trans
      (flow_pages_canonical σ₂ e0 h2 n2 input diagramType config).symm
  · exact (mindmap_pages_canonical σ₁ e0 h1 n1 input diagramType config).trans
      (mindmap_pages_canonical σ₂ e0 h2 n2 input diagramType config).symm

/-- C8 witness: the determinism theorem applied to the concrete supplies
`k + 1` and `k + 2` over `Nat` with falsy id `0`, on one concrete input,
paginating as a class diagram under the default configuration. -/
theorem pipeline_deterministic_up_to_ids_witness :
    Function.Injective Nat.succ
    ∧ Function.Injective (fun k : Nat => k + 2)
    ∧ (∀ k : Nat, Nat.succ k ≠ 0)
    ∧ (∀ k : Nat, k + 2 ≠ 0)
    ∧ ((resultObs (SequenceParser.parseSequenceDiagram Nat.succ 0 "A -> B: hello")
        = resultObs (SequenceParser.parseSequenceDiagram (fun k : Nat => k + 2) 0
            "A -> B: hello")
      ∧ resultObs (UsecaseParser.parseUsecaseDiagram Nat.succ "A -> B: hello")
        = resultObs (UsecaseParser.parseUsecaseDiagram (fun k : Nat => k + 2)
            "A -> B: hello")
      ∧ resultObs (ClassParser.parseClassDiagram Nat.succ "A -> B: hello")
        = resultObs (ClassParser.parseClassDiagram (fun k : Nat => k + 2)
            "A -> B: hello")
      ∧ resultObs (FlowParser.parseFlowDiagram Nat.succ "A -> B: hello")
        = resultObs (FlowParser.parseFlowDiagram (fun k : Nat => k + 2)
            "A -> B: hello")
      ∧ resultObs (MindmapParser.parseMindmapDiagram Nat.succ 0 "A -> B: hello")
        = resultObs (MindmapParser.parseMindmapDiagram (fun k : Nat => k + 2) 0
            "A -> B: hello"))
    ∧ ((Pagination.paginateDiagram
          (resultNodes (SequenceParser.parseSequenceDiagram Nat.succ 0 "A -> B: hello"))
          (resultEdges (SequenceParser.parseSequenceDiagram Nat.succ 0 "A -> B: hello"))
          "class" {}).map Pagination.pageObs
        = (Pagination.paginateDiagram
            (resultNodes (SequenceParser.parseSequenceDiagram (fun k : Nat => k + 2) 0
              "A -> B: hello"))
            (resultEdges (SequenceParser.parseSequenceDiagram (fun k : Nat => k + 2) 0
              "A -> B: hello"))
            "class" {}).map Pagination.pageObs
      ∧ (Pagination.paginateDiagram
          (resultNodes (UsecaseParser.parseUsecaseDiagram Nat.succ "A -> B: hello"))
          (resultEdges (UsecaseParser.parseUsecaseDiagram Nat.succ "A -> B: hello"))
          "class" {}).map Pagination.pageObs
        = (Pagination.paginateDiagram
            (resultNodes (UsecaseParser.parseUsecaseDiagram (fun k : Nat => k + 2)
              "A -> B: hello"))
            (resultEdges (UsecaseParser.parseUsecaseDiagram (fun k : Nat => k + 2)
              "A -> B: hello"))
            "class" {}).map Pagination.pageObs
      ∧ (Pagination.paginateDiagram
          (resultNodes (ClassParser.parseClassDiagram Nat.succ "A -> B: hello"))
          (resultEdges (ClassParser.parseClassDiagram Nat.succ "A -> B: hello"))
          "class" {}).map Pagination.pageObs
        = (Pagination.paginateDiagram
            (resultNodes (ClassParser.parseClassDiagram (fun k : Nat => k + 2)
              "A -> B: hello"))
            (resultEdges (ClassParser.parseClassDiagram (fun k : Nat => k + 2)
              "A -> B: hello"))
            "class" {}).map Pagination.pageObs
      ∧ (Pagination.paginateDiagram
          (resultNodes (FlowParser.parseFlowDiagram Nat.succ "A -> B: hello"))
          (resultEdges (FlowParser.parseFlowDiagram Nat.succ "A -> B: hello"))
          "class" {}).map Pagination.pageObs
        = (Pagination.paginateDiagram
            (resultNodes (FlowParser.parseFlowDiagram (fun k : Nat => k + 2)
              "A -> B: hello"))
            (resultEdges (FlowParser.parseFlowDiagram (fun k : Nat => k + 2)
              "A -> B: hello"))
            "class" {}).map Pagination.pageObs
      ∧ (Pagination.paginateDiagram
          (resultNodes (MindmapParser.parseMindmapDiagram Nat.succ 0 "A -> B: hello"))
          (resultEdges (MindmapParser.parseMindmapDiagram Nat.succ 0 "A -> B: hello"))
          "class" {}).map Pagination.pageObs
        = (Pagination.paginateDiagram
            (resultNodes (MindmapParser.parseMindmapDiagram (fun k : Nat => k + 2) 0
              "A -> B: hello"))
            (resultEdges (MindmapParser.parseMindmapDiagram (fun k : Nat => k + 2) 0
              "A -> B: hello"))
            "class" {}).map Pagination.pageObs)) := by
  have h1 : Function.Injective Nat.succ := fun a b h => Nat.succ.inj h
  have h2 : Function.Injective (fun k : Nat => k + 2) := fun a b h => Nat.add_right_cancel h
  have n1 : ∀ k : Nat, Nat.succ k ≠ 0 := fun k => Nat.succ_ne_zero k
  have n2 : ∀ k : Nat, k + 2 ≠ 0 := fun k => by omega
  exact ⟨h1, h2, n1, n2,
    pipeline_deterministic_up_to_ids Nat.succ (fun k : Nat => k + 2) 0 h1 h2 n1 n2
      "A -> B: hello" "class" {}⟩
